import Mathlib

/-!
PHCASeeding: cellular-automaton track seeding.

A shallow embedding of `offline/packages/trackreco/PHCASeeding.cc`.

Conventions of the embedding.

* Floating-point numbers (`float`, `double`) are idealised as elements of a
  linearly ordered field `α` with a floor function; no rounding is modelled.
  The constant `M_PI` of `<cmath>` is a parameter of the functions that use it.
* The boost R-tree `_rtree` is a list of `(point, cluskey)` values in insertion
  order; `rtree.query(bgi::intersects(box))` keeps the values whose point lies
  in the closed box.
* Library functions that are not part of the module (`TrkrDefs::getLayer`,
  `TVector3::Phi/Eta`, `sqrt`, `cos`, ...) are fields of `Extern`.
* `unsigned int` arithmetic is arithmetic on `Nat` modulo `2^32`.
-/

namespace PHCASeeding

/-! ## Data model -/

/-- Return codes of `Fun4AllReturnCodes` used by the module. -/
inductive Fun4AllReturnCodes where
  | EVENT_OK
  | ABORTEVENT
  deriving DecidableEq, Repr

/-- The type `bg::model::point<float, 3, bg::cs::cartesian>`: coordinate 0 is
the azimuth, coordinate 1 the pseudorapidity, coordinate 2 the layer. -/
structure point (α : Type) where
  phi : α
  eta : α
  l : α
  deriving DecidableEq, Repr

/-- The type `TrkrDefs::cluskey`, an opaque integer key. -/
abbrev cluskey := Nat

/-- The type `std::pair<point, TrkrDefs::cluskey>`. -/
abbrev pointKey (α : Type) := point α × cluskey

/-- Functions and constants the module takes from libraries: `M_PI` and the
`<cmath>` functions, `TrkrDefs::getLayer`, and `TVector3::Phi` / `TVector3::Eta` (as
functions of the three components of the vector). -/
structure Extern (α : Type) where
  M_PI : α
  getLayer : cluskey → Nat
  Phi : α → α → α → α
  Eta : α → α → α → α
  sqrt : α → α
  cos : α → α
  sin : α → α
  tan : α → α
  atan : α → α
  exp : α → α

/-- The accessors of `PHG4CylinderGeom` and `PHG4CylinderCellGeom` the module calls. -/
structure PHG4CylinderGeom (α : Type) where
  get_layer : Int
  get_radius : α
  get_thickness : α
  deriving DecidableEq, Repr

/-- The accessors of `TrkrCluster` the module calls: `getPosition(0..2)` and the six
entries of `getError(i, j)` that are read. -/
structure TrkrCluster (α : Type) where
  x : α
  y : α
  z : α
  e00 : α
  e01 : α
  e02 : α
  e11 : α
  e12 : α
  e22 : α
  deriving DecidableEq, Repr

/-- The accessors of `SvtxVertex` the module calls. -/
structure SvtxVertex (α : Type) where
  get_x : α
  get_y : α
  get_z : α
  deriving DecidableEq, Repr

/-- The fields of `SvtxTrack_v1` that `Process` sets. -/
structure SvtxTrack (α : Type) where
  id : Nat
  cluskeys : List cluskey
  ndf : Int
  charge : Int
  x : α
  y : α
  z : α
  px : α
  py : α
  pz : α
  e00 : α
  e01 : α
  e02 : α
  e11 : α
  e12 : α
  e22 : α
  e33 : α
  e44 : α
  e55 : α
  deriving DecidableEq, Repr

/-- The nodes of the node tree that the module looks up by name; `none` is a node
that `findNode::getClass` does not find. Geometry containers are given as their
entries in iteration order, the cluster container as its `(key, cluster)` entries in
iteration order. -/
structure PHCompositeNode (α : Type) where
  CYLINDERCELLGEOM_SVTX : Option (List (PHG4CylinderGeom α))
  CYLINDERGEOM_INTT : Option (List (PHG4CylinderGeom α))
  CYLINDERGEOM_MVTX : Option (List (PHG4CylinderGeom α))
  TRKR_CLUSTER : Option (List (cluskey × TrkrCluster α))

/-- The members of a `PHCASeeding` object that the functions below read or write.
Pointers that may be null are options. `_vertex_map` lists the `(id, vertex)` entries
of the vertex map. -/
structure Seeder (α : Type) where
  _cluster_map : Option (List (cluskey × TrkrCluster α))
  _vertex_map : List (Nat × SvtxVertex α)
  _vertex : Option (SvtxVertex α)
  phisr : α
  etasr : α
  phist : α
  etast : α
  phixt : α
  etaxt : α
  _nlayers_maps : Nat
  _nlayers_intt : Nat
  _nlayers_tpc : Nat
  _start_layer : Nat
  _phi_scale : α
  _z_scale : α
  _radii_all : List α
  _layer_ilayer_map_all : List (Int × Nat)
  _rtree : List (pointKey α)
  deriving DecidableEq

/-- The local variables of the block of `Process` that handles one seed pair. -/
structure Chain (α : Type) where
  currentphi : α
  currenteta : α
  lastgoodlayer : Nat
  failures : Nat
  dphidr : α
  detadr : α
  ther : α
  curvatureestimates : List α
  phi_zigzag : List α
  z_zigzag : List α
  cluskeys : List cluskey
  deriving DecidableEq, Repr

section Defs

variable {α : Type} [LinearOrderedField α]

/-- The predicate `bgi::intersects(box(lo, hi))` on a stored point: the point
lies in the closed box. -/
def intersects (lo hi p : point α) : Bool :=
  decide (lo.phi ≤ p.phi ∧ p.phi ≤ hi.phi ∧ lo.eta ≤ p.eta ∧ p.eta ≤ hi.eta ∧
    lo.l ≤ p.l ∧ p.l ≤ hi.l)

/-- The call `rtree.query(bgi::intersects(box(lo, hi)), std::back_inserter(out))`,
as the list of values appended to `out`. -/
def rtree_query (rtree : List (pointKey α)) (lo hi : point α) : List (pointKey α) :=
  rtree.filter (fun v => intersects lo hi v.1)

/-- `PHCASeeding::phiadd`. -/
def phiadd (M_PI phi1 phi2 : α) : α :=
  let s := phi1 + phi2
  if s > 2 * M_PI then s - 2 * M_PI
  else if s < 0 then s + 2 * M_PI
  else s

/-- `PHCASeeding::phidiff`. -/
def phidiff (M_PI phi1 phi2 : α) : α :=
  let d := phi1 - phi2
  if d > M_PI then d - 2 * M_PI
  else if d < -M_PI then d + 2 * M_PI
  else d

/-- `PHCASeeding::QueryTree`: the contents of `returned_values` after the call. -/
def QueryTree (M_PI : α) (rtree : List (pointKey α))
    (phimin etamin lmin phimax etamax lmax : α)
    (returned_values : List (pointKey α)) : List (pointKey α) :=
  let r1 := returned_values ++
    rtree_query rtree ⟨phimin, etamin, lmin⟩ ⟨phimax, etamax, lmax⟩
  let r2 :=
    if phimin < 0 then
      r1 ++ rtree_query rtree ⟨2 * M_PI + phimin, etamin, lmin⟩ ⟨2 * M_PI, etamax, lmax⟩
    else r1
  if phimax > 2 * M_PI then
    r2 ++ rtree_query rtree ⟨0, etamin, lmin⟩ ⟨phimax - 2 * M_PI, etamax, lmax⟩
  else r2

/-! ### Construction and setup -/

/-- The constructor `PHCASeeding::PHCASeeding`: the initial values of the members. -/
def PHCASeeding_ctor (nlayers_maps nlayers_intt nlayers_tpc start_layer : Nat) : Seeder α :=
  { _cluster_map := none
    _vertex_map := []
    _vertex := none
    phisr := 5 / 1000
    etasr := 35 / 10000
    phist := 1 / 1000
    etast := 3 / 1000
    phixt := 8 / 1000
    etaxt := 5 / 1000
    _nlayers_maps := nlayers_maps
    _nlayers_intt := nlayers_intt
    _nlayers_tpc := nlayers_tpc
    _start_layer := start_layer
    _phi_scale := 2
    _z_scale := 2
    _radii_all := []
    _layer_ilayer_map_all := []
    _rtree := [] }

/-- The call `m.insert(std::make_pair(k, v))` on a `std::map`, kept as the list of its
entries in key order: an entry whose key is present already is left as it is. -/
def map_insert {κ β : Type} [LinearOrder κ] (k : κ) (v : β) : List (κ × β) → List (κ × β)
  | [] => [(k, v)]
  | (k', v') :: rest =>
    if k < k' then (k, v) :: (k', v') :: rest
    else if k = k' then (k', v') :: rest
    else (k', v') :: map_insert k v rest

/-- The expression `m[k]` on a `std::map` with `unsigned int` values: the value
stored under `k`, and the map afterwards (a missing key is inserted with value 0). -/
def map_index {κ : Type} [LinearOrder κ] (m : List (κ × Nat)) (k : κ) : Nat × List (κ × Nat) :=
  match m.find? (fun e => decide (e.1 = k)) with
  | some e => (e.2, m)
  | none => (0, map_insert k 0 m)

/-- The three loops of `InitializeGeometry` that fill `radius_layer_map`
(lines 116-156): one pass over a geometry container. -/
def fill_radius_layer_map (geos : Option (List (PHG4CylinderGeom α)))
    (radius_layer_map : List (α × Int)) : List (α × Int) :=
  match geos with
  | some layerrange =>
    layerrange.foldl (fun m geo => map_insert geo.get_radius geo.get_layer m) radius_layer_map
  | none => radius_layer_map

/-- The three loops of `InitializeGeometry` that write `_radii_all` (lines 169-229):
one pass over a geometry container, each entry writing
`get_radius() + half * get_thickness()` at index `_layer_ilayer_map_all[get_layer()]`.
The state is `(_radii_all, _layer_ilayer_map_all)`. A write past the end of the vector
is dropped. -/
def fill_radii_all (half : α) (geos : Option (List (PHG4CylinderGeom α)))
    (st : List α × List (Int × Nat)) : List α × List (Int × Nat) :=
  match geos with
  | some begin_end =>
    begin_end.foldl
      (fun st geo =>
        let r := map_index st.2 geo.get_layer
        (st.1.set r.1 (geo.get_radius + half * geo.get_thickness), r.2))
      st
  | none => st

/-- `PHCASeeding::InitializeGeometry`. The cell and INTT containers write
`radius + 0.5 * thickness`, the MVTX container writes `radius`. -/
def InitializeGeometry (s : Seeder α) (topNode : PHCompositeNode α) :
    Seeder α × Fun4AllReturnCodes :=
  let cellgeos := topNode.CYLINDERCELLGEOM_SVTX
  let laddergeos := topNode.CYLINDERGEOM_INTT
  let mapsladdergeos := topNode.CYLINDERGEOM_MVTX
  let radius_layer_map : List (α × Int) :=
    fill_radius_layer_map mapsladdergeos
      (fill_radius_layer_map laddergeos (fill_radius_layer_map cellgeos []))
  let _radii_all : List α := List.replicate 60 0
  let _layer_ilayer_map_all : List (Int × Nat) :=
    radius_layer_map.foldl (fun m iter => map_insert iter.2 m.length m) []
  let st := fill_radii_all 0 mapsladdergeos
    (fill_radii_all (1 / 2) laddergeos
      (fill_radii_all (1 / 2) cellgeos (_radii_all, _layer_ilayer_map_all)))
  ({ s with _radii_all := st.1, _layer_ilayer_map_all := st.2 }, Fun4AllReturnCodes.EVENT_OK)

/-- `PHCASeeding::GetNodes`. -/
def GetNodes (s : Seeder α) (topNode : PHCompositeNode α) : Seeder α × Fun4AllReturnCodes :=
  let s1 := { s with _cluster_map := topNode.TRKR_CLUSTER }
  match s1._cluster_map with
  | none => (s1, Fun4AllReturnCodes.ABORTEVENT)
  | some _ => (s1, Fun4AllReturnCodes.EVENT_OK)

/-- `PHCASeeding::Setup`. The base-class method `PHTrackSeeding::Setup` is the
parameter `base`; the code discards its return value and those of `GetNodes` and
`InitializeGeometry`. -/
def Setup (base : Seeder α → PHCompositeNode α → Seeder α × Fun4AllReturnCodes)
    (s : Seeder α) (topNode : PHCompositeNode α) : Seeder α × Fun4AllReturnCodes :=
  let s1 := (base s topNode).1
  let s2 := (GetNodes s1 topNode).1
  let s3 := (InitializeGeometry s2 topNode).1
  (s3, Fun4AllReturnCodes.EVENT_OK)

/-- The read `_radii_all[i]`. Reading past the end of the vector is outside the
contract of `std::vector`; the embedding reads 0 there. -/
def radii_all_at (s : Seeder α) (i : Nat) : α := s._radii_all.getD i 0

/-! ### Filling the index -/

section Floor

variable [FloorRing α]

/-- One iteration of the cluster loop of `FillTree` (lines 289-314), as the R-tree
after the iteration. The diagnostic counters `n_dupli`, `nlayer` and the timer are
left out. The literal `0.00001` is `1 / 100000`. -/
def FillTree_step (E : Extern α) (_vertex : SvtxVertex α) (_rtree : List (pointKey α))
    (iter : cluskey × TrkrCluster α) : List (pointKey α) :=
  let cluster := iter.2
  let ckey := iter.1
  let layer := E.getLayer ckey
  if layer < 39 then _rtree
  else
    let vec_Phi := E.Phi (cluster.x - _vertex.get_x) (cluster.y - _vertex.get_y)
      (cluster.z - _vertex.get_z)
    let clus_phi := vec_Phi - 2 * E.M_PI * (⌊vec_Phi / (2 * E.M_PI)⌋ : α)
    let clus_eta := E.Eta (cluster.x - _vertex.get_x) (cluster.y - _vertex.get_y)
      (cluster.z - _vertex.get_z)
    let clus_l : α := (layer : α)
    let testduplicate := QueryTree E.M_PI _rtree (clus_phi - 1 / 100000)
      (clus_eta - 1 / 100000) ((layer : α) - 1 / 2) (clus_phi + 1 / 100000)
      (clus_eta + 1 / 100000) ((layer : α) + 1 / 2) []
    if testduplicate.isEmpty then _rtree ++ [(⟨clus_phi, clus_eta, clus_l⟩, ckey)]
    else _rtree

/-- `PHCASeeding::FillTree`. The result is `none` when the code dereferences a null
pointer: `_cluster_map` always, `_vertex` when some cluster has a layer of 39 or more. -/
def FillTree (E : Extern α) (s : Seeder α) : Option (Seeder α) :=
  match s._cluster_map, s._vertex with
  | none, _ => none
  | some clusrange, some v =>
    some { s with _rtree := clusrange.foldl (FillTree_step E v) s._rtree }
  | some clusrange, none =>
    if clusrange.all (fun iter => decide (E.getLayer iter.1 < 39)) then some s else none

end Floor

/-! ### Extending a seed pair -/

/-- The function `copysign` of `<cmath>` on exact numbers: the magnitude of `x` with
the sign of `y`. -/
def copysign (x y : α) : α := if y < 0 then -|x| else |x|

/-- Subtraction `a - b` of `unsigned int` values (both below `2^32`): the difference
when `b ≤ a`, and otherwise the wrapped value `2^32 - (b - a)`. -/
def unsigned_sub (a b : Nat) : Nat := if b ≤ a then a - b else 4294967296 - (b - a)

/-- One iteration of the candidate loop (lines 432-449). The state is the vector
`newlayer_clusters`, whose first slot is the target of `xinkey`, and `xinrecord`; the
iteration reads slot `i` and, if its distance beats the record, overwrites slot 0. -/
def select_step (dist : pointKey α → α) (st : List (pointKey α) × α) (i : Nat) :
    List (pointKey α) × α :=
  match st.1[i]? with
  | none => st
  | some it => if dist it < st.2 then (st.1.set 0 it, dist it) else st

/-- The candidate loop (lines 430-449): `xinrecord` starts at 100 and the iterator
runs over all slots of `newlayer_clusters`. -/
def select_xinkey (dist : pointKey α → α) (newlayer_clusters : List (pointKey α)) :
    List (pointKey α) × α :=
  (List.range newlayer_clusters.length).foldl (select_step dist) (newlayer_clusters, 100)

/-- The predicted azimuth `currentphi - dphidr * (_radii_all[lastgoodlayer] -
_radii_all[newlayer])` of an extension step. -/
def predicted_phi (s : Seeder α) (c : Chain α) (newlayer : Nat) : α :=
  c.currentphi - c.dphidr * (radii_all_at s c.lastgoodlayer - radii_all_at s newlayer)

/-- The layer lookup of an extension step (lines 414-421): `newlayer_clusters`. -/
def lookup_layer (E : Extern α) (s : Seeder α) (c : Chain α) (newlayer : Nat) :
    List (pointKey α) :=
  QueryTree E.M_PI s._rtree
    (predicted_phi s c newlayer - s.phist)
    (c.currenteta - s.etast)
    ((newlayer : α) - 1 / 2)
    (predicted_phi s c newlayer + s.phist)
    (c.currenteta + s.etast)
    ((newlayer : α) + 1 / 2)
    []

/-- The body of the extension loop (lines 407-466) for one value of `newlayer`: the
local variables afterwards, and whether the body left the loop through `break`.
The quotients are those of the field, in which `x / 0 = 0`, while the doubles of the
code give an infinity or a NaN: for a radius difference
`_radii_all[lastgoodlayer] - _radii_all[newlayer]` of 0 or a slope `dphidr` of 0 the
fields `dphidr`, `detadr` and `curvatureestimates` are not what the code computes. -/
def extend_body (E : Extern α) (s : Seeder α) (c : Chain α) (newlayer : Nat) :
    Chain α × Bool :=
  match lookup_layer E s c newlayer with
  | [] =>
    let failures := c.failures + 1
    ({ c with failures := failures }, decide (failures > 2))
  | first :: rest =>
    let sel := select_xinkey
      (fun it => |phidiff E.M_PI it.1.phi (predicted_phi s c newlayer)| +
        |it.1.eta - c.currenteta|)
      (first :: rest)
    let xinkey := sel.1.headD first
    let dphidr := phidiff E.M_PI c.currentphi xinkey.1.phi /
      (radii_all_at s c.lastgoodlayer - radii_all_at s newlayer)
    let detadr := (c.currenteta - xinkey.1.eta) /
      (radii_all_at s c.lastgoodlayer - radii_all_at s newlayer)
    let ther := (radii_all_at s c.lastgoodlayer - radii_all_at s newlayer) / 2
    ({ c with
        dphidr := dphidr
        detadr := detadr
        ther := ther
        curvatureestimates := c.curvatureestimates ++
          [copysign (2 / E.sqrt (ther * ther + 1 / dphidr / dphidr)) dphidr]
        phi_zigzag := c.phi_zigzag ++ [dphidr]
        z_zigzag := c.z_zigzag ++ [detadr]
        cluskeys := c.cluskeys ++ [xinkey.2]
        currentphi := xinkey.1.phi
        currenteta := (c.currenteta + xinkey.1.eta) / 2
        lastgoodlayer := newlayer }, false)

/-- The extension loop `for (unsigned int newlayer = _start_layer - 2;
newlayer >= (_start_layer - 7); newlayer--)` from the value `newlayer` on, with
`bound` the value of `_start_layer - 7`. The result is `none` when `newlayer--` wraps
around below 0 (possible only for `bound = 0`): the loop would go on with
`newlayer = 4294967295`, past the end of every table it indexes. -/
def extend_loop (E : Extern α) (s : Seeder α) (bound : Nat) : Nat → Chain α → Option (Chain α)
  | 0, c =>
    if bound ≤ 0 then
      if (extend_body E s c 0).2 then some (extend_body E s c 0).1 else none
    else some c
  | newlayer + 1, c =>
    if bound ≤ newlayer + 1 then
      if (extend_body E s c (newlayer + 1)).2 then some (extend_body E s c (newlayer + 1)).1
      else extend_loop E s bound newlayer (extend_body E s c (newlayer + 1)).1
    else some c

/-- The local variables of a seed pair before the extension loop (lines 376-396).
The quotients are those of the field, in which `x / 0 = 0`, while the doubles of the
code give an infinity or a NaN: for a radius difference
`_radii_all[_start_layer] - _radii_all[_start_layer - 1]` of 0 or a slope `dphidr` of 0
the fields `dphidr`, `detadr` and `curvatureestimates` are not what the code computes
(`seed_dphidr` is the slope with the division by 0 set apart). -/
def initial_chain (E : Extern α) (s : Seeder α) (StartCluster SecondCluster : pointKey α) :
    Chain α :=
  let StartPhi := StartCluster.1.phi
  let StartEta := StartCluster.1.eta
  let currentphi := SecondCluster.1.phi
  let currenteta := SecondCluster.1.eta
  let r_start := radii_all_at s s._start_layer
  let r_second := radii_all_at s (unsigned_sub s._start_layer 1)
  let dphidr := phidiff E.M_PI StartPhi currentphi / (r_start - r_second)
  let detadr := (StartEta - currenteta) / (r_start - r_second)
  let ther := (r_start + r_second) / 2
  { currentphi := currentphi
    currenteta := currenteta
    lastgoodlayer := unsigned_sub s._start_layer 1
    failures := 0
    dphidr := dphidr
    detadr := detadr
    ther := ther
    curvatureestimates := [copysign (2 / E.sqrt (ther * ther + 1 / dphidr / dphidr)) dphidr]
    phi_zigzag := [dphidr]
    z_zigzag := [detadr]
    cluskeys := [StartCluster.2, SecondCluster.2] }

/-- The quotient `x / y` of two doubles where it is a number: for `y = 0` the
quotient is an infinity or a NaN, which is no number (`none`). -/
def quotient_value (x y : α) : Option α := if y = 0 then none else some (x / y)

/-- The slope `dphidr = phidiff(StartPhi, currentphi) /
(_radii_all[_start_layer] - _radii_all[_start_layer - 1])` of a seed pair (line 382),
as a number. -/
def seed_dphidr (E : Extern α) (s : Seeder α) (StartCluster SecondCluster : pointKey α) :
    Option α :=
  quotient_value (phidiff E.M_PI StartCluster.1.phi SecondCluster.1.phi)
    (radii_all_at s s._start_layer - radii_all_at s (unsigned_sub s._start_layer 1))

/-- The azimuth `currentphi - dphidr * (_radii_all[lastgoodlayer] - _radii_all[newlayer])`
on which the first lookup of the extension loop is centred (lines 415 and 418 for
`newlayer = _start_layer - 2`, with `currentphi`, `lastgoodlayer` and `dphidr` as the
lines 376-382 leave them), as a number: a slope that is an infinity or a NaN
gives an infinity or a NaN again. -/
def first_predicted_phi (E : Extern α) (s : Seeder α)
    (StartCluster SecondCluster : pointKey α) : Option α :=
  (seed_dphidr E s StartCluster SecondCluster).map fun dphidr =>
    SecondCluster.1.phi - dphidr *
      (radii_all_at s (unsigned_sub s._start_layer 1) -
        radii_all_at s (unsigned_sub s._start_layer 2))

/-- The chain of a seed pair when the extension loop ends (lines 376-467). -/
def seed_chain (E : Extern α) (s : Seeder α) (StartCluster SecondCluster : pointKey α) :
    Option (Chain α) :=
  extend_loop E s (unsigned_sub s._start_layer 7) (unsigned_sub s._start_layer 2)
    (initial_chain E s StartCluster SecondCluster)

/-- The values the loop header `for (unsigned int newlayer = _start_layer - 2;
newlayer >= (_start_layer - 7); newlayer--)` runs through from `newlayer` on when
`bound`, the value of `_start_layer - 7`, is positive and the body never breaks. -/
def loop_layers (bound : Nat) : Nat → List Nat
  | 0 => if bound ≤ 0 then [0] else []
  | newlayer + 1 => if bound ≤ newlayer + 1 then (newlayer + 1) :: loop_layers bound newlayer else []

/-- The six layers below the seed pair: `_start_layer - 2` down to `_start_layer - 7`. -/
def extension_layers (start_layer : Nat) : List Nat :=
  [start_layer - 2, start_layer - 3, start_layer - 4, start_layer - 5, start_layer - 6,
   start_layer - 7]

/-- The chain after the loop body has run for each layer of a list in turn, with no
early exit. -/
def visit_all (E : Extern α) (s : Seeder α) : List Nat → Chain α → Chain α
  | [], c => c
  | newlayer :: layers, c => visit_all E s layers (extend_body E s c newlayer).1

/-- The number of layer lookups that come back empty when the loop body runs for each
layer of a list in turn, with no early exit. -/
def empty_lookups (E : Extern α) (s : Seeder α) : List Nat → Chain α → Nat
  | [], _ => 0
  | newlayer :: layers, c =>
    (if (lookup_layer E s c newlayer).isEmpty then 1 else 0) +
      empty_lookups E s layers (extend_body E s c newlayer).1

/-- The layer coordinate of every stored point is the layer of its key, and that layer
is 39 or more: what `FillTree` guarantees of the index it builds. -/
def index_layers_ok (E : Extern α) (rtree : List (pointKey α)) : Prop :=
  ∀ v ∈ rtree, v.1.l = (E.getLayer v.2 : α) ∧ 39 ≤ E.getLayer v.2

/-! ### Building tracks -/

/-- The call `std::accumulate(v.begin(), v.end(), 0.0)`. -/
def accumulate (v : List α) : α := v.foldl (fun acc x => acc + x) 0

/-- The call `std::inner_product(a.begin(), a.end(), b.begin(), 0.0)`. -/
def inner_product (a b : List α) : α := (a.zip b).foldl (fun acc p => acc + p.1 * p.2) 0

/-- The mean of a sequence as `Process` computes it (lines 470-471, 479-480, 488-489):
the sum divided by `size()`. -/
def seq_mean (v : List α) : α := accumulate v / (v.length : α)

/-- The sample standard deviation of a sequence as `Process` computes it
(lines 473-477, 482-486, 491-495): the deviations from the mean, their inner product
with themselves, divided by `size() - 1`, under `std::sqrt`. -/
def seq_stdev (E : Extern α) (v : List α) : α :=
  let diff := v.map (fun x => x - seq_mean v)
  let sq_sum := inner_product diff diff
  E.sqrt (sq_sum / ((v.length - 1 : Nat) : α))

/-- The constant `BQ = 0.01 * 1.4 * 0.299792458`. -/
def BQ : α := 1 / 100 * (14 / 10) * (299792458 / 1000000000)

/-- The charge passed to `set_charge` (lines 511-513): `helicity` starts at 1, drops to
-1 when `StartPhi * curv_mean < 0`, and the charge is `-helicity`. -/
def track_charge (StartPhi curv_mean : α) : Int :=
  let helicity : Int := 1
  let helicity := if StartPhi * curv_mean < 0 then helicity - 2 else helicity
  Int.neg helicity

/-- The track record filled in for an accepted chain (lines 470-530). `cl` is the
cluster `findCluster` returns for the first key, `vertex` the target of `_vertex`. -/
def build_track (E : Extern α) (numberofseeds : Nat) (StartCluster : pointKey α)
    (c : Chain α) (cl : TrkrCluster α) (vertex : SvtxVertex α) : SvtxTrack α :=
  let StartPhi := StartCluster.1.phi
  let StartEta := StartCluster.1.eta
  let curv_mean := seq_mean c.curvatureestimates
  let curv_stdev := seq_stdev E c.curvatureestimates
  let pt := BQ / |curv_mean|
  let pterror := BQ * curv_stdev / (curv_mean * curv_mean)
  { id := numberofseeds
    cluskeys := c.cluskeys
    ndf := 2 * (c.cluskeys.length : Int) - 5
    charge := track_charge StartPhi curv_mean
    x := vertex.get_x
    y := vertex.get_y
    z := vertex.get_z
    px := pt * E.cos StartPhi
    py := pt * E.sin StartPhi
    pz := pt / E.tan (2 * E.atan (E.exp (-StartEta)))
    e00 := cl.e00
    e01 := cl.e01
    e02 := cl.e02
    e11 := cl.e11
    e12 := cl.e12
    e22 := cl.e22
    e33 := pterror * pterror * E.cos StartPhi * E.cos StartPhi
    e44 := pterror * pterror * E.sin StartPhi * E.sin StartPhi
    e55 := pterror * pterror / E.tan (2 * E.atan (E.exp (-StartEta))) /
      E.tan (2 * E.atan (E.exp (-StartEta))) }

/-- The call `_cluster_map->findCluster(key)`; `none` is a null result. -/
def findCluster (clusters : List (cluskey × TrkrCluster α)) (key : cluskey) :
    Option (TrkrCluster α) :=
  (clusters.find? (fun e => decide (e.1 = key))).map (fun e => e.2)

/-- The body of the loop over `SecondLayerClusters` (lines 376-533) for one seed pair.
The outer option is `none` when the code runs out of its model (the loop counter wraps,
or a null pointer is dereferenced); the inner option is the track inserted into
`_track_map`, `none` when the pair is skipped by `if (failures > 2) continue`. -/
def process_pair (E : Extern α) (s : Seeder α) (numberofseeds : Nat)
    (StartCluster SecondCluster : pointKey α) : Option (Option (SvtxTrack α)) :=
  match seed_chain E s StartCluster SecondCluster with
  | none => none
  | some c =>
    if c.failures > 2 then some none
    else
      match s._cluster_map, s._vertex with
      | some clusters, some vertex =>
        match findCluster clusters StartCluster.2 with
        | some cl => some (some (build_track E numberofseeds StartCluster c cl vertex))
        | none => none
      | _, _ => none

/-- The seed pairs in the order the two nested loops of `Process` visit them
(lines 352-374): every cluster of the start-layer band, paired with every cluster
`QueryTree` returns for it in the layer below. -/
def seed_pairs (E : Extern α) (s : Seeder α) : List (pointKey α × pointKey α) :=
  let StartLayerClusters := rtree_query s._rtree
    ⟨0, -3, (s._start_layer : α) - 1 / 2⟩ ⟨2 * E.M_PI, 3, (s._start_layer : α) + 1 / 2⟩
  StartLayerClusters.flatMap fun StartCluster =>
    let StartPhi := StartCluster.1.phi
    let StartEta := StartCluster.1.eta
    let SecondLayerClusters := QueryTree E.M_PI s._rtree
      (StartPhi - s.phisr) (StartEta - s.etasr) ((s._start_layer : α) - 3 / 2)
      (StartPhi + s.phisr) (StartEta + s.etasr) ((s._start_layer : α) - 1 / 2) []
    SecondLayerClusters.map fun SecondCluster => (StartCluster, SecondCluster)

/-- The two nested loops of `Process` over the seed pairs still to visit; the state is
`numberofseeds` and the tracks inserted so far. -/
def process_pairs (E : Extern α) (s : Seeder α) :
    List (pointKey α × pointKey α) → Nat × List (SvtxTrack α) →
      Option (Nat × List (SvtxTrack α))
  | [], st => some st
  | pair :: pairs, st =>
    match process_pair E s st.1 pair.1 pair.2 with
    | none => none
    | some none => process_pairs E s pairs st
    | some (some track) => process_pairs E s pairs (st.1 + 1, st.2 ++ [track])

/-- The opening statements of `Process` (lines 324-343): `_vertex` is read from the
vertex map, the four tolerances are recomputed from the scales, and the R-tree is
cleared. -/
def Process_begin (s : Seeder α) : Seeder α :=
  { s with
    _vertex := (s._vertex_map.find? (fun e => decide (e.1 = 0))).map (fun e => e.2)
    phisr := 5 / 1000 * s._phi_scale
    etasr := 35 / 10000 * s._z_scale
    phist := 1 / 1000 * s._phi_scale
    etast := 3 / 1000 * s._z_scale
    _rtree := [] }

section Floor

variable [FloorRing α]

/-- `PHCASeeding::Process`: the object afterwards and the tracks inserted into
`_track_map`, in order. The single pass of the `iteration` loop is unrolled (its
`_start_layer -= 7` is guarded by `iteration == 1` and never runs); the ntuple file,
the timers and the printing are left out. -/
def Process (E : Extern α) (s : Seeder α) : Option (Seeder α × List (SvtxTrack α)) :=
  match FillTree E (Process_begin s) with
  | none => none
  | some s2 =>
    match process_pairs E s2 (seed_pairs E s2) (0, []) with
    | none => none
    | some st => some (s2, st.2)

end Floor

/-- The number of non-empty layer lookups the extension loop performs over a list of
layers: the walk ends with the empty lookup that brings the failure counter above 2. -/
def successful_lookups (E : Extern α) (s : Seeder α) : List Nat → Chain α → Nat
  | [], _ => 0
  | newlayer :: layers, c =>
    if (lookup_layer E s c newlayer).isEmpty then
      if c.failures + 1 > 2 then 0
      else successful_lookups E s layers (extend_body E s c newlayer).1
    else 1 + successful_lookups E s layers (extend_body E s c newlayer).1

/-- The value passed to `set_pz` (line 521): `pt / tan(2 * atan(exp(-StartEta)))`. -/
def track_pz (E : Extern α) (pt StartEta : α) : α :=
  pt / E.tan (2 * E.atan (E.exp (-StartEta)))

/-- The single-pass form of the sample variance of a sequence: the sum of squares minus
the square of the sum over `n`, divided by `n - 1`. -/
def single_pass_variance (v : List α) : α :=
  ((v.map fun x => x * x).sum - v.sum ^ 2 / (v.length : α)) / ((v.length : α) - 1)

end Defs

/-! ## Concrete inputs -/

/-- The value of the `double` constant `M_PI` (0x400921FB54442D18). -/
def M_PI_double : ℚ := 884279719003555 / 281474976710656

/-- An index holding one point, at azimuth 6 (about 0.283 below 2π), layer 40. -/
def seamIndex : List (pointKey ℚ) := [(⟨6, 0, 40⟩, 1)]

/-- An index holding one point, at azimuth 0, layer 40. -/
def zeroIndex : List (pointKey ℚ) := [(⟨0, 0, 40⟩, 1)]

/-- The geometry of the end-to-end scenario: only layers 39..45 are configured (in the
cell geometry container), radii evenly spaced from 20 to 90, thickness 1 each. -/
def scenarioGeometry : PHCompositeNode ℚ :=
  { CYLINDERCELLGEOM_SVTX := some
      [⟨39, 20, 1⟩, ⟨40, 95 / 3, 1⟩, ⟨41, 130 / 3, 1⟩, ⟨42, 55, 1⟩, ⟨43, 200 / 3, 1⟩,
       ⟨44, 235 / 3, 1⟩, ⟨45, 90, 1⟩]
    CYLINDERGEOM_INTT := none
    CYLINDERGEOM_MVTX := none
    TRKR_CLUSTER := none }

/-- Stand-ins for the library functions, used to run the code on concrete inputs over
the rationals: `M_PI` is the `double` constant, a cluster key is `1000 * layer + n`,
and a vector `(x, y, z)` is given azimuth `y` and pseudorapidity `z`, so that the
example clusters below name their azimuth and pseudorapidity directly. The remaining
functions only enter the momentum and error entries of a track. -/
def exampleExtern : Extern ℚ :=
  { M_PI := M_PI_double
    getLayer := fun ckey => ckey / 1000
    Phi := fun _ y _ => y
    Eta := fun _ _ z => z
    sqrt := fun x => x
    cos := fun x => x
    sin := fun x => x
    tan := fun x => x
    atan := fun x => x
    exp := fun x => x }

/-- A cluster with position `(1, phi, eta)` and unit position errors on the diagonal. -/
def exampleCluster (phi eta : ℚ) : TrkrCluster ℚ :=
  { x := 1, y := phi, z := eta, e00 := 1, e01 := 0, e02 := 0, e11 := 1, e12 := 0, e22 := 1 }

/-- An event with eight clusters, one in each of the layers 40..47, on a straight
line in (azimuth, layer) at pseudorapidity 0. -/
def exampleClusters : List (cluskey × TrkrCluster ℚ) :=
  [(40000, exampleCluster (1040 / 1000) 0), (41000, exampleCluster (1041 / 1000) 0),
   (42000, exampleCluster (1042 / 1000) 0), (43000, exampleCluster (1043 / 1000) 0),
   (44000, exampleCluster (1044 / 1000) 0), (45000, exampleCluster (1045 / 1000) 0),
   (46000, exampleCluster (1046 / 1000) 0), (47000, exampleCluster (1047 / 1000) 0)]

/-- A seeder with start layer 47, the clusters of `exampleClusters`, a vertex at the
origin and the radius of layer `i` equal to `i`. -/
def exampleSeeder : Seeder ℚ :=
  { (PHCASeeding_ctor 3 4 48 47 : Seeder ℚ) with
    _cluster_map := some exampleClusters
    _vertex_map := [(0, ⟨0, 0, 0⟩)]
    _radii_all := (List.range 60).map fun i => (i : ℚ) }

/-- The track that `Process` emits for `exampleSeeder` (under `exampleExtern`). -/
def exampleTrack : SvtxTrack ℚ :=
  { id := 0
    cluskeys := [47000, 46000, 45000, 44000, 43000, 42000, 41000, 40000]
    ndf := 11
    charge := -1
    x := 0
    y := 0
    z := 0
    px := 123308098216482892018511163 / 56103790000000000000000
    py := 123308098216482892018511163 / 56103790000000000000000
    pz := 0
    e00 := 1
    e01 := 0
    e02 := 0
    e11 := 1
    e12 := 0
    e22 := 1
    e33 := 80755054349219916232931374692227617449 /
      9448630983281337256087273416519165039062500000000000000
    e44 := 80755054349219916232931374692227617449 /
      9448630983281337256087273416519165039062500000000000000
    e55 := 0 }

/-- The index `FillTree` builds for `exampleSeeder`. -/
def exampleIndex : List (pointKey ℚ) :=
  [(⟨1040 / 1000, 0, 40⟩, 40000), (⟨1041 / 1000, 0, 41⟩, 41000),
   (⟨1042 / 1000, 0, 42⟩, 42000), (⟨1043 / 1000, 0, 43⟩, 43000),
   (⟨1044 / 1000, 0, 44⟩, 44000), (⟨1045 / 1000, 0, 45⟩, 45000),
   (⟨1046 / 1000, 0, 46⟩, 46000), (⟨1047 / 1000, 0, 47⟩, 47000)]

/-- The object `Process` leaves behind for `exampleSeeder`. -/
def exampleSeederAfter : Seeder ℚ :=
  { exampleSeeder with
    _vertex := some ⟨0, 0, 0⟩
    phisr := 1 / 100
    etasr := 7 / 1000
    phist := 2 / 1000
    etast := 6 / 1000
    _rtree := exampleIndex }

/-- Two clusters of layer 40 at pseudorapidity 0 on either side of the seam: the one
with the smaller key at azimuth 0, the other at azimuth `-0.00001`, which `FillTree`
normalises to `2π - 0.00001`. -/
def seamClustersZeroFirst : List (cluskey × TrkrCluster ℚ) :=
  [(40001, exampleCluster 0 0), (40002, exampleCluster (-1 / 100000) 0)]

/-- The same two clusters with the keys exchanged, so that the cluster at
`2π - 0.00001` is visited first. -/
def seamClustersZeroLast : List (cluskey × TrkrCluster ℚ) :=
  [(40001, exampleCluster (-1 / 100000) 0), (40002, exampleCluster 0 0)]

/-- A seeder with an empty index, the vertex at the origin and the given clusters. -/
def seamSeeder (clusters : List (cluskey × TrkrCluster ℚ)) : Seeder ℚ :=
  { (PHCASeeding_ctor 3 4 48 47 : Seeder ℚ) with
    _cluster_map := some clusters
    _vertex := some ⟨0, 0, 0⟩ }

/-- An event for the candidate loop: the seed pair of the layers 47 and 46, and two
clusters of layer 45 at the azimuths 2 (smaller key) and 1. -/
def sentinelClusters : List (cluskey × TrkrCluster ℚ) :=
  [(45001, exampleCluster 2 0), (45002, exampleCluster 1 0),
   (46000, exampleCluster 1 0), (47000, exampleCluster (1001 / 1000) 0)]

/-- A seeder with start layer 47 and the clusters of `sentinelClusters`, in a geometry
whose layers 47 and 46 lie `0.00001` apart (radii 50 and 49.99999) and whose other
layers `i` have radius `i`. -/
def sentinelSeeder : Seeder ℚ :=
  { (PHCASeeding_ctor 3 4 48 47 : Seeder ℚ) with
    _cluster_map := some sentinelClusters
    _vertex_map := [(0, ⟨0, 0, 0⟩)]
    _radii_all := (List.range 60).map fun i =>
      if i = 47 then (50 : ℚ) else if i = 46 then 50 - 1 / 100000 else (i : ℚ) }

/-- The object `FillTree` leaves for `sentinelSeeder` after the opening of `Process`. -/
def sentinelSeederAfter : Seeder ℚ :=
  { Process_begin sentinelSeeder with
    _rtree := [(⟨2, 0, 45⟩, 45001), (⟨1, 0, 45⟩, 45002), (⟨1, 0, 46⟩, 46000),
      (⟨1001 / 1000, 0, 47⟩, 47000)] }

/-- An event near the seam: the seed pair of the layers 47 and 46 at the azimuths 0.012
and 0.004, and a cluster of layer 45 whose azimuth `-0.001` is stored as `2π - 0.001`. -/
def windowClusters : List (cluskey × TrkrCluster ℚ) :=
  [(45000, exampleCluster (-1 / 1000) 0), (46000, exampleCluster (4 / 1000) 0),
   (47000, exampleCluster (12 / 1000) 0)]

/-- A seeder with start layer 47, the clusters of `windowClusters`, a vertex at the
origin and the radius of layer `i` equal to `i`. -/
def windowSeeder : Seeder ℚ :=
  { (PHCASeeding_ctor 3 4 48 47 : Seeder ℚ) with
    _cluster_map := some windowClusters
    _vertex_map := [(0, ⟨0, 0, 0⟩)]
    _radii_all := (List.range 60).map fun i => (i : ℚ) }

/-- The object `FillTree` leaves for `windowSeeder` after the opening of `Process`. -/
def windowSeederAfter : Seeder ℚ :=
  { Process_begin windowSeeder with
    _rtree := [(⟨2 * M_PI_double - 1 / 1000, 0, 45⟩, 45000), (⟨4 / 1000, 0, 46⟩, 46000),
      (⟨12 / 1000, 0, 47⟩, 47000)] }

/-- The library functions over the real numbers: `M_PI` is `π`, the `<cmath>` functions
are the real functions, `TVector3::Phi` is the argument of `x + iy` in `(-π, π]` and
`TVector3::Eta` the pseudorapidity `arsinh(z / sqrt(x² + y²))` of a vector off the z
axis. The layer of a cluster key is a parameter. -/
noncomputable def realExtern (getLayer : cluskey → Nat) : Extern ℝ :=
  { M_PI := Real.pi
    getLayer := getLayer
    Phi := fun x y _ => Complex.arg ⟨x, y⟩
    Eta := fun x y z => Real.arsinh (z / Real.sqrt (x * x + y * y))
    sqrt := Real.sqrt
    cos := Real.cos
    sin := Real.sin
    tan := Real.tan
    atan := Real.arctan
    exp := Real.exp }

/-- The example event without its cluster of layer 45: seven clusters on the straight
line `phi = 1 + layer / 1000` at pseudorapidity 0. -/
def gapClusters : List (cluskey × TrkrCluster ℚ) :=
  [(40000, exampleCluster (1040 / 1000) 0), (41000, exampleCluster (1041 / 1000) 0),
   (42000, exampleCluster (1042 / 1000) 0), (43000, exampleCluster (1043 / 1000) 0),
   (44000, exampleCluster (1044 / 1000) 0),
   (46000, exampleCluster (1046 / 1000) 0), (47000, exampleCluster (1047 / 1000) 0)]

/-- A seeder with start layer 47, the clusters of `gapClusters`, a vertex at the origin
and the radius of layer `i` equal to `i`. -/
def gapSeeder : Seeder ℚ :=
  { (PHCASeeding_ctor 3 4 48 47 : Seeder ℚ) with
    _cluster_map := some gapClusters
    _vertex_map := [(0, ⟨0, 0, 0⟩)]
    _radii_all := (List.range 60).map fun i => (i : ℚ) }

/-- The object `FillTree` leaves for `gapSeeder` after the opening of `Process`. -/
def gapSeederAfter : Seeder ℚ :=
  { Process_begin gapSeeder with
    _rtree := [(⟨1040 / 1000, 0, 40⟩, 40000), (⟨1041 / 1000, 0, 41⟩, 41000),
      (⟨1042 / 1000, 0, 42⟩, 42000), (⟨1043 / 1000, 0, 43⟩, 43000),
      (⟨1044 / 1000, 0, 44⟩, 44000),
      (⟨1046 / 1000, 0, 46⟩, 46000), (⟨1047 / 1000, 0, 47⟩, 47000)] }

/-- Three clusters, one in each of the layers 45, 46 and 47, for a geometry in which the
layers 46 and 47 have the same radius: the clusters of these two layers have the same
azimuth. -/
def equalRadiiClusters : List (cluskey × TrkrCluster ℚ) :=
  [(45000, exampleCluster (1045 / 1000) 0), (46000, exampleCluster (1046 / 1000) 0),
   (47000, exampleCluster (1046 / 1000) 0)]

/-- A seeder with start layer 47 and the clusters of `equalRadiiClusters`, in a geometry
whose layer 47 has the radius 46 of layer 46 and whose other layers `i` have radius
`i`. -/
def equalRadiiSeeder : Seeder ℚ :=
  { (PHCASeeding_ctor 3 4 48 47 : Seeder ℚ) with
    _cluster_map := some equalRadiiClusters
    _vertex_map := [(0, ⟨0, 0, 0⟩)]
    _radii_all := (List.range 60).map fun i => if i = 47 then (46 : ℚ) else (i : ℚ) }

/-- The object `FillTree` leaves for `equalRadiiSeeder` after the opening of
`Process`. -/
def equalRadiiSeederAfter : Seeder ℚ :=
  { Process_begin equalRadiiSeeder with
    _rtree := [(⟨1045 / 1000, 0, 45⟩, 45000), (⟨1046 / 1000, 0, 46⟩, 46000),
      (⟨1046 / 1000, 0, 47⟩, 47000)] }


/-- The seed pair of the example event (layers 47 and 46) with two clusters in layer
45: the one with the smaller key at azimuth 1.0455, the other on the line at 1.045. -/
def twoCandidateClusters : List (cluskey × TrkrCluster ℚ) :=
  [(45001, exampleCluster (10455 / 10000) 0), (45002, exampleCluster (1045 / 1000) 0),
   (46000, exampleCluster (1046 / 1000) 0), (47000, exampleCluster (1047 / 1000) 0)]

/-- A seeder with start layer 47, the clusters of `twoCandidateClusters`, a vertex at
the origin and the radius of layer `i` equal to `i`. -/
def twoCandidateSeeder : Seeder ℚ :=
  { (PHCASeeding_ctor 3 4 48 47 : Seeder ℚ) with
    _cluster_map := some twoCandidateClusters
    _vertex_map := [(0, ⟨0, 0, 0⟩)]
    _radii_all := (List.range 60).map fun i => (i : ℚ) }

/-- The object `FillTree` leaves for `twoCandidateSeeder` after the opening of
`Process`. -/
def twoCandidateSeederAfter : Seeder ℚ :=
  { Process_begin twoCandidateSeeder with
    _rtree := [(⟨10455 / 10000, 0, 45⟩, 45001), (⟨1045 / 1000, 0, 45⟩, 45002),
      (⟨1046 / 1000, 0, 46⟩, 46000), (⟨1047 / 1000, 0, 47⟩, 47000)] }


/-- The chain of the seed pair of `twoCandidateSeederAfter` before the extension loop. -/
def twoCandidateChain : Chain ℚ :=
  initial_chain exampleExtern twoCandidateSeederAfter (⟨1047 / 1000, 0, 47⟩, 47000)
    (⟨1046 / 1000, 0, 46⟩, 46000)


/-! ## Theorems -/

section Lemmas

variable {α : Type} [LinearOrderedField α]

theorem mem_rtree_query (rtree : List (pointKey α)) (lo hi : point α) (v : pointKey α) :
    v ∈ rtree_query rtree lo hi ↔
      (v ∈ rtree ∧ lo.eta ≤ v.1.eta ∧ v.1.eta ≤ hi.eta ∧ lo.l ≤ v.1.l ∧ v.1.l ≤ hi.l) ∧
        (lo.phi ≤ v.1.phi ∧ v.1.phi ≤ hi.phi) := by
  simp only [rtree_query, intersects, List.mem_filter, decide_eq_true_eq]
  constructor
  · rintro ⟨h, h1, h2, h3, h4, h5, h6⟩
    exact ⟨⟨h, h3, h4, h5, h6⟩, h1, h2⟩
  · rintro ⟨⟨h, h3, h4, h5, h6⟩, h1, h2⟩
    exact ⟨h, h1, h2, h3, h4, h5, h6⟩

/-- Membership in the result of `QueryTree`, spelled out per sub-query. -/
theorem mem_QueryTree (M_PI : α) (rtree : List (pointKey α))
    (phimin etamin lmin phimax etamax lmax : α) (acc : List (pointKey α))
    (v : pointKey α) :
    v ∈ QueryTree M_PI rtree phimin etamin lmin phimax etamax lmax acc ↔
      v ∈ acc ∨
      ((v ∈ rtree ∧ etamin ≤ v.1.eta ∧ v.1.eta ≤ etamax ∧ lmin ≤ v.1.l ∧ v.1.l ≤ lmax) ∧
        ((phimin ≤ v.1.phi ∧ v.1.phi ≤ phimax) ∨
         (phimin < 0 ∧ 2 * M_PI + phimin ≤ v.1.phi ∧ v.1.phi ≤ 2 * M_PI) ∨
         (phimax > 2 * M_PI ∧ 0 ≤ v.1.phi ∧ v.1.phi ≤ phimax - 2 * M_PI))) := by
  unfold QueryTree
  by_cases h1 : phimin < 0 <;> by_cases h2 : phimax > 2 * M_PI <;>
    simp only [h1, h2, if_true, if_false, List.mem_append, mem_rtree_query, and_or_left,
      or_assoc, true_and, false_and, or_false, false_or, and_false]

end Lemmas

/-! ## QueryTree: wrap-around range queries -/

section QueryTreeClaims

variable {α : Type} [LinearOrderedField α]

/-- Soundness of `QueryTree` for a box that reaches into `[0, 2π]`: when
`0 ≤ phimax` and `phimin ≤ 2π`, every returned point of an index with azimuths in
`[0, 2π)` lies in the eta and layer ranges and has an azimuth that a shift by
`-2π`, `0` or `2π` brings into `[phimin, phimax]`. -/
theorem QueryTree_sound_of_reach (M_PI : α) (rtree : List (pointKey α))
    (phimin etamin lmin phimax etamax lmax : α)
    (hpts : ∀ v ∈ rtree, 0 ≤ v.1.phi ∧ v.1.phi < 2 * M_PI)
    (hmax : 0 ≤ phimax) (hmin : phimin ≤ 2 * M_PI) (v : pointKey α)
    (hv : v ∈ QueryTree M_PI rtree phimin etamin lmin phimax etamax lmax []) :
    etamin ≤ v.1.eta ∧ v.1.eta ≤ etamax ∧ lmin ≤ v.1.l ∧ v.1.l ≤ lmax ∧
      ∃ k : ℤ, (k = -1 ∨ k = 0 ∨ k = 1) ∧
        phimin ≤ v.1.phi + k * (2 * M_PI) ∧ v.1.phi + k * (2 * M_PI) ≤ phimax := by
  rw [mem_QueryTree] at hv
  rcases hv with hv | ⟨⟨hmem, h1, h2, h3, h4⟩, hphi⟩
  · simp at hv
  · refine ⟨h1, h2, h3, h4, ?_⟩
    have hp := hpts v hmem
    rcases hphi with ⟨a, b⟩ | ⟨_, a, b⟩ | ⟨_, a, b⟩
    · exact ⟨0, by simp, by simpa using a, by simpa using b⟩
    · refine ⟨-1, by simp, ?_, ?_⟩ <;> push_cast <;> linarith
    · refine ⟨1, by simp, ?_, ?_⟩ <;> push_cast <;> linarith

/-- Completeness of `QueryTree` away from the boundary case `phimax = 2π < phimin + 2π`:
when `phimax ≠ 2π` or `phimin ≤ 0`, every stored point (azimuth in `[0, 2π)`) in the
eta and layer ranges whose azimuth shifted by `-2π`, `0` or `2π` lies in
`[phimin, phimax]` is returned. -/
theorem QueryTree_complete_of_ne (M_PI : α) (rtree : List (pointKey α))
    (phimin etamin lmin phimax etamax lmax : α)
    (hpts : ∀ v ∈ rtree, 0 ≤ v.1.phi ∧ v.1.phi < 2 * M_PI)
    (hne : phimax ≠ 2 * M_PI ∨ phimin ≤ 0) (v : pointKey α) (hmem : v ∈ rtree)
    (heta : etamin ≤ v.1.eta ∧ v.1.eta ≤ etamax) (hl : lmin ≤ v.1.l ∧ v.1.l ≤ lmax)
    (k : ℤ) (hk : k = -1 ∨ k = 0 ∨ k = 1)
    (hlo : phimin ≤ v.1.phi + k * (2 * M_PI)) (hhi : v.1.phi + k * (2 * M_PI) ≤ phimax) :
    v ∈ QueryTree M_PI rtree phimin etamin lmin phimax etamax lmax [] := by
  rw [mem_QueryTree]
  refine Or.inr ⟨⟨hmem, heta.1, heta.2, hl.1, hl.2⟩, ?_⟩
  have hp := hpts v hmem
  rcases hk with rfl | rfl | rfl
  · push_cast at hlo hhi
    exact Or.inr (Or.inl ⟨by linarith, by linarith, by linarith⟩)
  · push_cast at hlo hhi
    exact Or.inl ⟨by linarith, by linarith⟩
  · push_cast at hlo hhi
    rcases lt_or_eq_of_le (show 2 * M_PI ≤ phimax by linarith) with h | h
    · exact Or.inr (Or.inr ⟨h, hp.1, by linarith⟩)
    · rcases hne with h2 | h2
      · exact absurd h.symm h2
      · exact Or.inl ⟨by linarith, by linarith⟩

/-- C4. Wrap-around shift equivalence: on an index whose azimuths lie in `[0, 2π)`, a
query box with `phimin < 0 < phimax` and the same box shifted by `2π` in azimuth make
`QueryTree` return the same set of points. -/
theorem QueryTree_shift_two_pi (M_PI : α) (rtree : List (pointKey α))
    (phimin etamin lmin phimax etamax lmax : α)
    (hpts : ∀ v ∈ rtree, 0 ≤ v.1.phi ∧ v.1.phi < 2 * M_PI)
    (hmin : phimin < 0) (hmax : 0 < phimax) (v : pointKey α) :
    v ∈ QueryTree M_PI rtree phimin etamin lmin phimax etamax lmax [] ↔
      v ∈ QueryTree M_PI rtree (phimin + 2 * M_PI) etamin lmin (phimax + 2 * M_PI)
        etamax lmax [] := by
  rw [mem_QueryTree, mem_QueryTree]
  constructor
  · rintro (hv | ⟨⟨hmem, hband⟩, hphi⟩)
    · simp at hv
    · refine Or.inr ⟨⟨hmem, hband⟩, ?_⟩
      have hp := hpts v hmem
      rcases hphi with ⟨a, b⟩ | ⟨_, a, b⟩ | ⟨_, a, b⟩
      · exact Or.inr (Or.inr ⟨by linarith, hp.1, by linarith⟩)
      · exact Or.inl ⟨by linarith, by linarith⟩
      · exact Or.inr (Or.inr ⟨by linarith, hp.1, by linarith⟩)
  · rintro (hv | ⟨⟨hmem, hband⟩, hphi⟩)
    · simp at hv
    · refine Or.inr ⟨⟨hmem, hband⟩, ?_⟩
      have hp := hpts v hmem
      rcases hphi with ⟨a, b⟩ | ⟨_, a, b⟩ | ⟨_, a, b⟩
      · exact Or.inr (Or.inl ⟨hmin, by linarith, by linarith⟩)
      · exact Or.inr (Or.inl ⟨hmin, by linarith, by linarith⟩)
      · exact Or.inl ⟨by linarith, by linarith⟩

end QueryTreeClaims

/-- C4, at a concrete input: the index with one point at azimuth 6 and the box
`[-1, 1]`; both the box and its shift by `2π` return that point. -/
theorem QueryTree_shift_two_pi_witness :
    QueryTree M_PI_double seamIndex (-1) (-1) (79 / 2) 1 1 (81 / 2) [] = [(⟨6, 0, 40⟩, 1)] ∧
    QueryTree M_PI_double seamIndex (-1 + 2 * M_PI_double) (-1) (79 / 2)
      (1 + 2 * M_PI_double) 1 (81 / 2) [] = [(⟨6, 0, 40⟩, 1)] ∧
    (((⟨6, 0, 40⟩, 1) : pointKey ℚ) ∈
        QueryTree M_PI_double seamIndex (-1) (-1) (79 / 2) 1 1 (81 / 2) [] ↔
      ((⟨6, 0, 40⟩, 1) : pointKey ℚ) ∈
        QueryTree M_PI_double seamIndex (-1 + 2 * M_PI_double) (-1) (79 / 2)
          (1 + 2 * M_PI_double) 1 (81 / 2) []) :=
  ⟨by decide!, by decide!,
   QueryTree_shift_two_pi M_PI_double seamIndex (-1) (-1) (79 / 2) 1 1 (81 / 2)
     (by decide!) (by decide!) (by decide!) _⟩

/-- C5, the code at a box lying below azimuth 0. The index holds one point at azimuth
6; the box is `[-1, -1/2]` in azimuth. `QueryTree` returns the point, although no shift
of 6 by a multiple of `2π` lies in `[-1, -1/2]` (the nearest, `6 - 2π`, is about
`-0.283`): the reflected query always runs up to `2π`. -/
theorem QueryTree_returns_outside_box :
    (∀ v ∈ seamIndex, (0 : ℚ) ≤ v.1.phi ∧ v.1.phi < 2 * M_PI_double) ∧
    ((-1 : ℚ) ≤ -1 / 2) ∧
    QueryTree M_PI_double seamIndex (-1) (-1) (79 / 2) (-1 / 2) 1 (81 / 2) [] =
      [(⟨6, 0, 40⟩, 1)] ∧
    ¬ ∃ k : ℤ, (-1 : ℚ) ≤ 6 + k * (2 * M_PI_double) ∧
        (6 : ℚ) + k * (2 * M_PI_double) ≤ -1 / 2 := by
  refine ⟨by decide!, by decide!, by decide!, ?_⟩
  rintro ⟨k, h1, h2⟩
  unfold M_PI_double at h1 h2
  have hk : k ≤ -2 ∨ k = -1 ∨ 0 ≤ k := by omega
  rcases hk with hk | rfl | hk
  · have : (k : ℚ) ≤ -2 := by exact_mod_cast hk
    linarith
  · norm_num at h1 h2
  · have : (0 : ℚ) ≤ k := by exact_mod_cast hk
    linarith

/-- C6, the code at the boundary `phimax = 2π`. The index holds one point at azimuth 0;
the box is `[6, 2π]` in azimuth, inside `[-2π, 4π]`. The point shifted by `+2π` lies in
the box and its eta and layer are in range, yet `QueryTree` returns nothing: the
reflected query at the upper seam runs only when `phimax > 2π`. -/
theorem QueryTree_misses_zero_at_two_pi :
    (∀ v ∈ zeroIndex, (0 : ℚ) ≤ v.1.phi ∧ v.1.phi < 2 * M_PI_double) ∧
    (-(2 * M_PI_double) ≤ 6 ∧ (6 : ℚ) ≤ 2 * M_PI_double ∧
      2 * M_PI_double ≤ 4 * M_PI_double) ∧
    (((⟨0, 0, 40⟩, 1) : pointKey ℚ) ∈ zeroIndex ∧
      (6 : ℚ) ≤ 0 + 2 * M_PI_double ∧ (0 : ℚ) + 2 * M_PI_double ≤ 2 * M_PI_double ∧
      ((-1 : ℚ) ≤ 0 ∧ (0 : ℚ) ≤ 1) ∧ ((79 / 2 : ℚ) ≤ 40 ∧ (40 : ℚ) ≤ 81 / 2)) ∧
    QueryTree M_PI_double zeroIndex 6 (-1) (79 / 2) (2 * M_PI_double) 1 (81 / 2) [] = [] := by
  refine ⟨by decide!, by decide!, by decide!, by decide!⟩

/-! ## Setup and geometry -/

section SetupClaims

variable {α : Type} [LinearOrderedField α]

/-- The return value of `Setup` is `EVENT_OK` on every input. -/
theorem Setup_always_EVENT_OK
    (base : Seeder α → PHCompositeNode α → Seeder α × Fun4AllReturnCodes)
    (s : Seeder α) (topNode : PHCompositeNode α) :
    (Setup base s topNode).2 = Fun4AllReturnCodes.EVENT_OK := rfl

/-- C9, the code on a node tree without `TRKR_CLUSTER` (any geometry nodes, any object
state, any base-class setup): `GetNodes` returns `ABORTEVENT`, but `Setup` drops that
value and returns `EVENT_OK`, leaving `_cluster_map` null. -/
theorem Setup_drops_ABORTEVENT
    (base : Seeder α → PHCompositeNode α → Seeder α × Fun4AllReturnCodes)
    (s : Seeder α) (cell intt mvtx : Option (List (PHG4CylinderGeom α))) :
    (GetNodes (base s ⟨cell, intt, mvtx, none⟩).1 ⟨cell, intt, mvtx, none⟩).2 =
        Fun4AllReturnCodes.ABORTEVENT ∧
      (Setup base s ⟨cell, intt, mvtx, none⟩).2 = Fun4AllReturnCodes.EVENT_OK ∧
      (Setup base s ⟨cell, intt, mvtx, none⟩).2 ≠ Fun4AllReturnCodes.ABORTEVENT ∧
      (Setup base s ⟨cell, intt, mvtx, none⟩).1._cluster_map = none := by
  refine ⟨rfl, rfl, ?_, rfl⟩
  simp [Setup]

end SetupClaims

/-- C1, the code on the geometry of the end-to-end scenario (layers 39..45 only, radii
20..90, thickness 1). `InitializeGeometry` stores `radius + thickness / 2` of the seven
layers at the indices 0..6, their ranks by radius, so the entries
`_radii_all[39] .. _radii_all[45]` that `Process` reads for these layer ids are all 0,
not `20.5, ..., 90.5`. -/
theorem InitializeGeometry_scenario_reads_zero :
    ((InitializeGeometry (PHCASeeding_ctor 3 4 48 45) scenarioGeometry).1._radii_all.take 7 =
        [20 + 1 / 2 * 1, 95 / 3 + 1 / 2 * 1, 130 / 3 + 1 / 2 * 1, 55 + 1 / 2 * 1,
         200 / 3 + 1 / 2 * 1, 235 / 3 + 1 / 2 * 1, 90 + 1 / 2 * 1]) ∧
    ((List.range 7).map (fun i =>
        radii_all_at (InitializeGeometry (PHCASeeding_ctor 3 4 48 45) scenarioGeometry).1
          (39 + i)) = [0, 0, 0, 0, 0, 0, 0]) ∧
    radii_all_at (InitializeGeometry (PHCASeeding_ctor 3 4 48 45) scenarioGeometry).1 39 ≠
      20 + 1 / 2 * 1 := by
  refine ⟨by decide!, by decide!, by decide!⟩

/-! ## Filling the index -/

/-- C3, the code at the seam. Two clusters of layer 40 with equal pseudorapidity and
azimuths 0 and `2π - 0.00001`: their azimuths differ by exactly `0.00001` across the
seam. Visited with the cluster at azimuth 0 first, `FillTree` stores both (the box of
the second ends at `phimax = 2π`, which is not `> 2π`, so the reflected query that
would find azimuth 0 does not run); visited in the other order it stores one. -/
theorem FillTree_seam_order_dependent :
    (exampleExtern.getLayer 40001 = 40 ∧ exampleExtern.getLayer 40002 = 40) ∧
    ((0 : ℚ) + 2 * M_PI_double - (2 * M_PI_double - 1 / 100000) ≤ 1 / 100000) ∧
    (FillTree exampleExtern (seamSeeder seamClustersZeroFirst)).map (fun s => s._rtree) =
      some [(⟨0, 0, 40⟩, 40001), (⟨2 * M_PI_double - 1 / 100000, 0, 40⟩, 40002)] ∧
    (FillTree exampleExtern (seamSeeder seamClustersZeroLast)).map (fun s => s._rtree) =
      some [(⟨2 * M_PI_double - 1 / 100000, 0, 40⟩, 40001)] := by
  refine ⟨by decide!, by decide!, by decide!, by decide!⟩

section IndexLemmas

variable {α : Type} [LinearOrderedField α]

/-- A natural number within one half of a natural number is that number. -/
theorem nat_eq_of_band {a n : Nat} (h1 : (n : α) - 1 / 2 ≤ (a : α))
    (h2 : (a : α) ≤ (n : α) + 1 / 2) : a = n := by
  rcases lt_trichotomy a n with h | h | h
  · have h3 : (a : α) + 1 ≤ (n : α) := by exact_mod_cast h
    linarith
  · exact h
  · have h3 : (n : α) + 1 ≤ (a : α) := by exact_mod_cast h
    linarith

/-- A natural number within one half of `n - 1` is the predecessor of `n`. -/
theorem nat_succ_eq_of_band {a n : Nat} (h1 : (n : α) - 3 / 2 ≤ (a : α))
    (h2 : (a : α) ≤ (n : α) - 1 / 2) : a + 1 = n := by
  apply nat_eq_of_band (α := α)
  · push_cast; linarith
  · push_cast; linarith

variable [FloorRing α]

theorem FillTree_step_layers_ok (E : Extern α) (v : SvtxVertex α) (rtree : List (pointKey α))
    (iter : cluskey × TrkrCluster α) (h : index_layers_ok E rtree) :
    index_layers_ok E (FillTree_step E v rtree iter) := by
  unfold FillTree_step
  by_cases hl : E.getLayer iter.1 < 39
  · simp only [hl, if_true]
    exact h
  · simp only [hl, if_false]
    split
    · intro x hx
      rcases List.mem_append.mp hx with hx | hx
      · exact h x hx
      · have hx2 : x = _ := List.mem_singleton.mp hx
        subst hx2
        exact ⟨rfl, by simpa using hl⟩
    · exact h

theorem FillTree_foldl_layers_ok (E : Extern α) (v : SvtxVertex α) :
    ∀ (clusters : List (cluskey × TrkrCluster α)) (rtree : List (pointKey α)),
      index_layers_ok E rtree →
      index_layers_ok E (clusters.foldl (FillTree_step E v) rtree) := by
  intro clusters
  induction clusters with
  | nil => intro rtree h; exact h
  | cons c cs ih =>
    intro rtree h
    exact ih _ (FillTree_step_layers_ok E v rtree c h)

/-- The index `FillTree` leaves, started from an index that is in order (the empty
one in particular), holds layer coordinates equal to the key layers, all 39 or more. -/
theorem FillTree_layers_ok {E : Extern α} {s s' : Seeder α} (h : FillTree E s = some s')
    (h0 : index_layers_ok E s._rtree) : index_layers_ok E s'._rtree := by
  unfold FillTree at h
  cases hm : s._cluster_map with
  | none => simp only [hm] at h; exact absurd h (by simp)
  | some clusrange =>
    cases hv : s._vertex with
    | some v =>
      simp only [hm, hv, Option.some.injEq] at h
      subst h
      exact FillTree_foldl_layers_ok E v clusrange _ h0
    | none =>
      simp only [hm, hv] at h
      split at h
      · simp only [Option.some.injEq] at h
        subst h
        exact h0
      · exact absurd h (by simp)

end IndexLemmas

/-! ### Duplicate suppression away from the boundary case -/

section Duplicates

variable {α : Type} [LinearOrderedField α] [FloorRing α]

/-- The azimuth `FillTree` stores (`clus_phi` after line 299) lies in `[0, 2π)`. -/
theorem normalised_phi_range (M_PI : α) (hpi : 0 < M_PI) (x : α) :
    0 ≤ x - 2 * M_PI * (⌊x / (2 * M_PI)⌋ : α) ∧
      x - 2 * M_PI * (⌊x / (2 * M_PI)⌋ : α) < 2 * M_PI := by
  have h2 : (0 : α) < 2 * M_PI := by linarith
  have hx : x = 2 * M_PI * (x / (2 * M_PI)) := by field_simp
  have h1 := Int.floor_le (x / (2 * M_PI))
  have h3 := Int.lt_floor_add_one (x / (2 * M_PI))
  have h4 := mul_le_mul_of_nonneg_left h1 (le_of_lt h2)
  have h5 := mul_lt_mul_of_pos_left h3 h2
  rw [← hx] at h4
  rw [← hx, mul_add, mul_one] at h5
  constructor <;> linarith

/-- The azimuth, pseudorapidity and key `FillTree` computes for a cluster. -/
theorem FillTree_step_of_empty (E : Extern α) (v : SvtxVertex α)
    (iter : cluskey × TrkrCluster α) (hl : 39 ≤ E.getLayer iter.1) :
    FillTree_step E v [] iter =
      [(⟨E.Phi (iter.2.x - v.get_x) (iter.2.y - v.get_y) (iter.2.z - v.get_z) -
          2 * E.M_PI * (⌊E.Phi (iter.2.x - v.get_x) (iter.2.y - v.get_y)
            (iter.2.z - v.get_z) / (2 * E.M_PI)⌋ : α),
        E.Eta (iter.2.x - v.get_x) (iter.2.y - v.get_y) (iter.2.z - v.get_z),
        (E.getLayer iter.1 : α)⟩, iter.1)] := by
  unfold FillTree_step
  have h39 : ¬ E.getLayer iter.1 < 39 := by omega
  simp only [h39, if_false]
  have hq : ∀ a b c d e f : α, QueryTree E.M_PI ([] : List (pointKey α)) a b c d e f [] = [] := by
    intro a b c d e f
    rw [List.eq_nil_iff_forall_not_mem]
    intro x hx
    rw [mem_QueryTree] at hx
    rcases hx with hx | ⟨⟨hx, _⟩, _⟩ <;> exact absurd hx (List.not_mem_nil _)
  rw [hq]
  rfl

/-- One iteration of `FillTree` on a cluster that has a stored point of its layer within
the tolerance (`0.00001` in pseudorapidity and, up to a shift `k` of `-2π`, 0 or `2π`,
in azimuth) leaves the index as it is, unless the box of the cluster ends exactly at
`phimax = 2π` and starts above 0. -/
theorem FillTree_step_duplicate (E : Extern α) (v : SvtxVertex α) (rtree : List (pointKey α))
    (iter : cluskey × TrkrCluster α)
    (hpts : ∀ p ∈ rtree, 0 ≤ p.1.phi ∧ p.1.phi < 2 * E.M_PI)
    (clus_phi clus_eta : α)
    (hphi : clus_phi = E.Phi (iter.2.x - v.get_x) (iter.2.y - v.get_y) (iter.2.z - v.get_z) -
      2 * E.M_PI * (⌊E.Phi (iter.2.x - v.get_x) (iter.2.y - v.get_y)
        (iter.2.z - v.get_z) / (2 * E.M_PI)⌋ : α))
    (heta : clus_eta = E.Eta (iter.2.x - v.get_x) (iter.2.y - v.get_y) (iter.2.z - v.get_z))
    (hne : clus_phi + 1 / 100000 ≠ 2 * E.M_PI ∨ clus_phi - 1 / 100000 ≤ 0)
    (p : pointKey α) (hp : p ∈ rtree) (hlayer : p.1.l = (E.getLayer iter.1 : α))
    (he : clus_eta - 1 / 100000 ≤ p.1.eta ∧ p.1.eta ≤ clus_eta + 1 / 100000)
    (k : ℤ) (hk : k = -1 ∨ k = 0 ∨ k = 1)
    (hlo : clus_phi - 1 / 100000 ≤ p.1.phi + k * (2 * E.M_PI))
    (hhi : p.1.phi + k * (2 * E.M_PI) ≤ clus_phi + 1 / 100000) :
    FillTree_step E v rtree iter = rtree := by
  unfold FillTree_step
  by_cases hl : E.getLayer iter.1 < 39
  · simp only [hl, if_true]
  · simp only [hl, if_false]
    rw [← hphi, ← heta]
    have hmem := QueryTree_complete_of_ne E.M_PI rtree (clus_phi - 1 / 100000)
      (clus_eta - 1 / 100000) ((E.getLayer iter.1 : α) - 1 / 2) (clus_phi + 1 / 100000)
      (clus_eta + 1 / 100000) ((E.getLayer iter.1 : α) + 1 / 2) hpts hne p hp he
      (by rw [hlayer]; constructor <;> linarith) k hk hlo hhi
    have hemp : (QueryTree E.M_PI rtree (clus_phi - 1 / 100000) (clus_eta - 1 / 100000)
        ((E.getLayer iter.1 : α) - 1 / 2) (clus_phi + 1 / 100000) (clus_eta + 1 / 100000)
        ((E.getLayer iter.1 : α) + 1 / 2) []).isEmpty = false := by
      cases hq : QueryTree E.M_PI rtree (clus_phi - 1 / 100000) (clus_eta - 1 / 100000)
        ((E.getLayer iter.1 : α) - 1 / 2) (clus_phi + 1 / 100000) (clus_eta + 1 / 100000)
        ((E.getLayer iter.1 : α) + 1 / 2) [] with
      | nil => rw [hq] at hmem; exact absurd hmem (List.not_mem_nil _)
      | cons a as => rfl
    rw [hemp]
    rfl

end Duplicates

/-! ## The driver: tracks and their provenance -/

section ProcessLemmas

variable {α : Type} [LinearOrderedField α]

theorem track_charge_eq (StartPhi curv_mean : α) :
    track_charge StartPhi curv_mean = if StartPhi * curv_mean < 0 then 1 else -1 := by
  unfold track_charge
  split <;> rfl

/-- A track comes out of `process_pair` only for a chain that passed the failure test,
and is the record `build_track` fills in for it. -/
theorem process_pair_some {E : Extern α} {s : Seeder α} {n : Nat}
    {StartCluster SecondCluster : pointKey α} {t : SvtxTrack α}
    (h : process_pair E s n StartCluster SecondCluster = some (some t)) :
    ∃ c cl v, seed_chain E s StartCluster SecondCluster = some c ∧ c.failures ≤ 2 ∧
      t = build_track E n StartCluster c cl v := by
  unfold process_pair at h
  cases hc : seed_chain E s StartCluster SecondCluster with
  | none => rw [hc] at h; exact absurd h (by simp)
  | some c =>
    rw [hc] at h
    by_cases hf : c.failures > 2
    · simp only [hf, if_true] at h
      exact absurd h (by simp)
    · simp only [hf, if_false] at h
      cases hm : s._cluster_map with
      | none => rw [hm] at h; exact absurd h (by simp)
      | some clusters =>
        cases hv : s._vertex with
        | none => rw [hm, hv] at h; exact absurd h (by simp)
        | some vertex =>
          rw [hm, hv] at h
          cases hcl : findCluster clusters StartCluster.2 with
          | none => simp only [hcl] at h; exact absurd h (by simp)
          | some cl =>
            simp only [hcl, Option.some.injEq] at h
            exact ⟨c, cl, vertex, rfl, by omega, h.symm⟩

theorem process_pairs_nil (E : Extern α) (s : Seeder α) (st : Nat × List (SvtxTrack α)) :
    process_pairs E s [] st = some st := rfl

theorem process_pairs_cons (E : Extern α) (s : Seeder α) (pair : pointKey α × pointKey α)
    (pairs : List (pointKey α × pointKey α)) (st : Nat × List (SvtxTrack α)) :
    process_pairs E s (pair :: pairs) st =
      match process_pair E s st.1 pair.1 pair.2 with
      | none => none
      | some none => process_pairs E s pairs st
      | some (some track) => process_pairs E s pairs (st.1 + 1, st.2 ++ [track]) := rfl

/-- Every track in the result of `process_pairs` was there before or was produced by
`process_pair` for one of the pairs. -/
theorem process_pairs_mem (E : Extern α) (s : Seeder α) :
    ∀ (pairs : List (pointKey α × pointKey α)) (st st' : Nat × List (SvtxTrack α)),
      process_pairs E s pairs st = some st' →
      ∀ t ∈ st'.2, t ∈ st.2 ∨
        ∃ p ∈ pairs, ∃ n, process_pair E s n p.1 p.2 = some (some t) := by
  intro pairs
  induction pairs with
  | nil =>
    intro st st' h t ht
    rw [process_pairs_nil, Option.some.injEq] at h
    subst h
    exact Or.inl ht
  | cons p ps ih =>
    intro st st' h t ht
    rw [process_pairs_cons] at h
    cases hpp : process_pair E s st.1 p.1 p.2 with
    | none => rw [hpp] at h; exact absurd h (by simp)
    | some o =>
      cases o with
      | none =>
        rw [hpp] at h
        rcases ih st st' h t ht with h1 | ⟨q, hq, n, hn⟩
        · exact Or.inl h1
        · exact Or.inr ⟨q, List.mem_cons_of_mem _ hq, n, hn⟩
      | some track =>
        rw [hpp] at h
        rcases ih _ st' h t ht with h1 | ⟨q, hq, n, hn⟩
        · rcases List.mem_append.mp h1 with h2 | h2
          · exact Or.inl h2
          · have h3 : t = track := List.mem_singleton.mp h2
            subst h3
            exact Or.inr ⟨p, List.mem_cons_self _ _, st.1, hpp⟩
        · exact Or.inr ⟨q, List.mem_cons_of_mem _ hq, n, hn⟩

end ProcessLemmas

section ProcessClaims

variable {α : Type} [LinearOrderedField α] [FloorRing α]

/-- `FillTree` changes no member but the R-tree. -/
theorem FillTree_fields {E : Extern α} {s s' : Seeder α} (h : FillTree E s = some s') :
    s' = { s with _rtree := s'._rtree } := by
  unfold FillTree at h
  cases hm : s._cluster_map with
  | none => simp only [hm] at h; exact absurd h (by simp)
  | some clusrange =>
    cases hv : s._vertex with
    | some v =>
      simp only [hm, hv, Option.some.injEq] at h
      subst h
      rw [← hm, ← hv]
    | none =>
      simp only [hm, hv] at h
      split at h
      · simp only [Option.some.injEq] at h
        subst h
        rw [← hm, ← hv]
      · exact absurd h (by simp)

/-- What `Process` returns: the object is the one `FillTree` leaves from the cleared
state, and the tracks are those `process_pairs` collects over its seed pairs. -/
theorem Process_eq_some {E : Extern α} {s : Seeder α} {r : Seeder α × List (SvtxTrack α)}
    (h : Process E s = some r) :
    FillTree E (Process_begin s) = some r.1 ∧
      ∃ n, process_pairs E r.1 (seed_pairs E r.1) (0, []) = some (n, r.2) := by
  unfold Process at h
  cases hF : FillTree E (Process_begin s) with
  | none => simp only [hF] at h; exact absurd h (by simp)
  | some s2 =>
    simp only [hF] at h
    cases hp : process_pairs E s2 (seed_pairs E s2) (0, []) with
    | none => simp only [hp] at h; exact absurd h (by simp)
    | some st =>
      simp only [hp, Option.some.injEq] at h
      subst h
      exact ⟨rfl, st.1, hp⟩

/-- Every track `Process` emits is the record built for a seed pair of the rebuilt
index whose chain passed the failure test. -/
theorem Process_track_origin {E : Extern α} {s : Seeder α}
    {r : Seeder α × List (SvtxTrack α)} (h : Process E s = some r)
    {t : SvtxTrack α} (ht : t ∈ r.2) :
    ∃ StartCluster SecondCluster c cl v n,
      (StartCluster, SecondCluster) ∈ seed_pairs E r.1 ∧
      seed_chain E r.1 StartCluster SecondCluster = some c ∧ c.failures ≤ 2 ∧
      t = build_track E n StartCluster c cl v := by
  obtain ⟨_, n, hp⟩ := Process_eq_some h
  rcases process_pairs_mem E r.1 _ _ _ hp t ht with h1 | ⟨p, hpm, m, hm⟩
  · exact absurd h1 (List.not_mem_nil _)
  · obtain ⟨c, cl, v, hc, hf, rfl⟩ := process_pair_some hm
    exact ⟨p.1, p.2, c, cl, v, m, hpm, hc, hf, rfl⟩

/-- C10. Charge of an emitted track: every track `Process` emits has charge `+1` or
`-1`; with `StartPhi` the azimuth of the first hit of its chain and `curv_mean` the
mean of the chain's curvature estimates, the charge is `+1` exactly when
`StartPhi * curv_mean < 0`, and `-1` otherwise. -/
theorem Process_charge (E : Extern α) (s : Seeder α) (r : Seeder α × List (SvtxTrack α))
    (h : Process E s = some r) (t : SvtxTrack α) (ht : t ∈ r.2) :
    (t.charge = 1 ∨ t.charge = -1) ∧
      ∃ StartCluster SecondCluster c,
        (StartCluster, SecondCluster) ∈ seed_pairs E r.1 ∧
        seed_chain E r.1 StartCluster SecondCluster = some c ∧
        t.cluskeys = c.cluskeys ∧
        (t.charge = 1 ↔ StartCluster.1.phi * seq_mean c.curvatureestimates < 0) ∧
        (t.charge = -1 ↔ ¬ StartCluster.1.phi * seq_mean c.curvatureestimates < 0) := by
  obtain ⟨sc, sc2, c, cl, v, n, hmem, hc, _, rfl⟩ := Process_track_origin h ht
  have hq : (build_track E n sc c cl v).charge =
      if sc.1.phi * seq_mean c.curvatureestimates < 0 then 1 else -1 :=
    track_charge_eq _ _
  by_cases hlt : sc.1.phi * seq_mean c.curvatureestimates < 0
  · rw [if_pos hlt] at hq
    refine ⟨Or.inl hq, sc, sc2, c, hmem, hc, rfl, ?_, ?_⟩
    · simp [hq, hlt]
    · simp [hq, hlt]
  · rw [if_neg hlt] at hq
    refine ⟨Or.inr hq, sc, sc2, c, hmem, hc, rfl, ?_, ?_⟩
    · simp [hq, hlt]
    · simp [hq, hlt]

/-- C8. Idempotence of the driver: running `Process` again on the object the first run
leaves behind gives the same result as the first run (the same tracks in the same
order, and the same object); the result does not depend on what the index held
before; and a run changes none of the start layer, the scales the tolerances are
recomputed from, the radius table, the cluster map and the vertex map. -/
theorem Process_idempotent (E : Extern α) (s : Seeder α) :
    ((Process E s).bind fun r => Process E r.1) = Process E s ∧
      (∀ index, Process E { s with _rtree := index } = Process E s) ∧
      (∀ r, Process E s = some r →
        r.1._start_layer = s._start_layer ∧ r.1._phi_scale = s._phi_scale ∧
        r.1._z_scale = s._z_scale ∧ r.1._radii_all = s._radii_all ∧
        r.1._cluster_map = s._cluster_map ∧ r.1._vertex_map = s._vertex_map ∧
        Process_begin r.1 = Process_begin s) := by
  have key : ∀ r, Process E s = some r → Process_begin r.1 = Process_begin s := by
    intro r h
    have hF := FillTree_fields (Process_eq_some h).1
    rw [hF]
    rfl
  refine ⟨?_, fun _ => rfl, ?_⟩
  · cases h : Process E s with
    | none => rfl
    | some r =>
      simp only [Option.bind]
      have hb := key r h
      have h2 := h
      unfold Process at h2 ⊢
      rw [hb]
      exact h2
  · intro r h
    have hF := FillTree_fields (Process_eq_some h).1
    refine ⟨?_, ?_, ?_, ?_, ?_, ?_, key r h⟩ <;> (rw [hF]; rfl)

end ProcessClaims

/-! ## Chains: layers of the hit keys -/

section ChainLemmas

variable {α : Type} [LinearOrderedField α]

theorem select_step_subset (dist : pointKey α → α) (orig : List (pointKey α))
    (st : List (pointKey α) × α) (i : Nat) (h : ∀ x ∈ st.1, x ∈ orig) :
    ∀ x ∈ (select_step dist st i).1, x ∈ orig := by
  unfold select_step
  cases hget : st.1[i]? with
  | none => exact h
  | some it =>
    by_cases hd : dist it < st.2
    · simp only [hd, if_true]
      intro x hx
      rcases List.mem_or_eq_of_mem_set hx with hx | hx
      · exact h x hx
      · subst hx
        exact h _ (List.getElem?_mem hget)
    · simp only [hd, if_false]
      exact h

theorem select_foldl_subset (dist : pointKey α → α) (orig : List (pointKey α)) :
    ∀ (idxs : List Nat) (st : List (pointKey α) × α), (∀ x ∈ st.1, x ∈ orig) →
      ∀ x ∈ (idxs.foldl (select_step dist) st).1, x ∈ orig := by
  intro idxs
  induction idxs with
  | nil => intro st h; exact h
  | cons i is ih =>
    intro st h
    exact ih _ (select_step_subset dist orig st i h)

/-- The candidate loop leaves in the vector only values that were in it. -/
theorem select_xinkey_subset (dist : pointKey α → α) (l : List (pointKey α)) :
    ∀ x ∈ (select_xinkey dist l).1, x ∈ l :=
  select_foldl_subset dist l _ _ (fun _ hx => hx)

theorem headD_mem_of_subset {β : Type} (l orig : List β) (d : β) (hd : d ∈ orig)
    (h : ∀ x ∈ l, x ∈ orig) : l.headD d ∈ orig := by
  cases l with
  | nil => exact hd
  | cons a as => exact h a (List.mem_cons_self _ _)

/-- One run of the loop body leaves the hit keys alone (empty lookup) or appends the
key of one of the candidates the lookup returned. -/
theorem extend_body_cluskeys (E : Extern α) (s : Seeder α) (c : Chain α) (newlayer : Nat) :
    (lookup_layer E s c newlayer = [] ∧
        (extend_body E s c newlayer).1.cluskeys = c.cluskeys) ∨
      ∃ v ∈ lookup_layer E s c newlayer,
        (extend_body E s c newlayer).1.cluskeys = c.cluskeys ++ [v.2] := by
  unfold extend_body
  cases hl : lookup_layer E s c newlayer with
  | nil => exact Or.inl ⟨rfl, rfl⟩
  | cons first rest =>
    refine Or.inr ⟨_, ?_, rfl⟩
    exact headD_mem_of_subset _ _ first (List.mem_cons_self _ _)
      (select_xinkey_subset _ _)

/-- Every candidate of a layer lookup on an index that is in order has a key of the
layer that was searched. -/
theorem lookup_layer_getLayer {E : Extern α} {s : Seeder α} (hwf : index_layers_ok E s._rtree)
    (c : Chain α) (newlayer : Nat) {v : pointKey α} (hv : v ∈ lookup_layer E s c newlayer) :
    E.getLayer v.2 = newlayer := by
  unfold lookup_layer at hv
  rw [mem_QueryTree] at hv
  rcases hv with hv | ⟨⟨hmem, _, _, h3, h4⟩, _⟩
  · exact absurd hv (List.not_mem_nil _)
  · rw [(hwf v hmem).1] at h3 h4
    exact nat_eq_of_band h3 h4

theorem extend_loop_zero (E : Extern α) (s : Seeder α) (bound : Nat) (c : Chain α) :
    extend_loop E s bound 0 c =
      if bound ≤ 0 then
        if (extend_body E s c 0).2 then some (extend_body E s c 0).1 else none
      else some c := rfl

theorem extend_loop_succ (E : Extern α) (s : Seeder α) (bound newlayer : Nat) (c : Chain α) :
    extend_loop E s bound (newlayer + 1) c =
      if bound ≤ newlayer + 1 then
        if (extend_body E s c (newlayer + 1)).2 then some (extend_body E s c (newlayer + 1)).1
        else extend_loop E s bound newlayer (extend_body E s c (newlayer + 1)).1
      else some c := rfl

/-- One run of the loop body keeps the key layers strictly decreasing, provided all
keys so far lie above the layer searched. -/
theorem extend_body_decreasing {E : Extern α} {s : Seeder α}
    (hwf : index_layers_ok E s._rtree) (c : Chain α) (newlayer : Nat)
    (hp : List.Pairwise (fun a b => E.getLayer b < E.getLayer a) c.cluskeys)
    (hlo : ∀ k ∈ c.cluskeys, newlayer < E.getLayer k) :
    List.Pairwise (fun a b => E.getLayer b < E.getLayer a)
        (extend_body E s c newlayer).1.cluskeys ∧
      ∀ k ∈ (extend_body E s c newlayer).1.cluskeys, newlayer ≤ E.getLayer k := by
  rcases extend_body_cluskeys E s c newlayer with ⟨_, h⟩ | ⟨v, hv, h⟩
  · rw [h]
    exact ⟨hp, fun k hk => Nat.le_of_lt (hlo k hk)⟩
  · rw [h]
    have hlay := lookup_layer_getLayer hwf c newlayer hv
    refine ⟨List.pairwise_append.mpr ⟨hp, List.pairwise_singleton _ _, ?_⟩, ?_⟩
    · intro a ha b hb
      have hb2 : b = v.2 := List.mem_singleton.mp hb
      subst hb2
      rw [hlay]
      exact hlo a ha
    · intro k hk
      rcases List.mem_append.mp hk with hk | hk
      · exact Nat.le_of_lt (hlo k hk)
      · have hk2 : k = v.2 := List.mem_singleton.mp hk
        subst hk2
        exact Nat.le_of_eq hlay.symm

/-- The extension loop keeps the key layers strictly decreasing. -/
theorem extend_loop_decreasing {E : Extern α} {s : Seeder α}
    (hwf : index_layers_ok E s._rtree) (bound : Nat) :
    ∀ (newlayer : Nat) (c c' : Chain α),
      List.Pairwise (fun a b => E.getLayer b < E.getLayer a) c.cluskeys →
      (∀ k ∈ c.cluskeys, newlayer < E.getLayer k) →
      extend_loop E s bound newlayer c = some c' →
      List.Pairwise (fun a b => E.getLayer b < E.getLayer a) c'.cluskeys := by
  intro newlayer
  induction newlayer with
  | zero =>
    intro c c' hp hlo h
    rw [extend_loop_zero] at h
    split at h
    · split at h
      · simp only [Option.some.injEq] at h
        subst h
        exact (extend_body_decreasing hwf c 0 hp hlo).1
      · exact absurd h (by simp)
    · simp only [Option.some.injEq] at h
      subst h
      exact hp
  | succ n ih =>
    intro c c' hp hlo h
    rw [extend_loop_succ] at h
    have hb := extend_body_decreasing hwf c (n + 1) hp hlo
    split at h
    · split at h
      · simp only [Option.some.injEq] at h
        subst h
        exact hb.1
      · exact ih _ c' hb.1 (fun k hk => hb.2 k hk) h
    · simp only [Option.some.injEq] at h
      subst h
      exact hp

theorem mem_seed_pairs (E : Extern α) (s : Seeder α) (StartCluster SecondCluster : pointKey α) :
    (StartCluster, SecondCluster) ∈ seed_pairs E s ↔
      StartCluster ∈ rtree_query s._rtree ⟨0, -3, (s._start_layer : α) - 1 / 2⟩
          ⟨2 * E.M_PI, 3, (s._start_layer : α) + 1 / 2⟩ ∧
        SecondCluster ∈ QueryTree E.M_PI s._rtree
          (StartCluster.1.phi - s.phisr) (StartCluster.1.eta - s.etasr)
          ((s._start_layer : α) - 3 / 2)
          (StartCluster.1.phi + s.phisr) (StartCluster.1.eta + s.etasr)
          ((s._start_layer : α) - 1 / 2) [] := by
  unfold seed_pairs
  simp only [List.mem_flatMap, List.mem_map, Prod.mk.injEq]
  constructor
  · rintro ⟨a, ha, b, hb, rfl, rfl⟩
    exact ⟨ha, hb⟩
  · rintro ⟨h1, h2⟩
    exact ⟨StartCluster, h1, SecondCluster, h2, rfl, rfl⟩

/-- The two keys of a seed pair of an index that is in order lie in the start layer and
in the layer below it, and the start layer is 40 or more. -/
theorem seed_pair_layers {E : Extern α} {s : Seeder α} (hwf : index_layers_ok E s._rtree)
    {StartCluster SecondCluster : pointKey α}
    (h : (StartCluster, SecondCluster) ∈ seed_pairs E s) :
    E.getLayer StartCluster.2 = s._start_layer ∧
      E.getLayer SecondCluster.2 + 1 = s._start_layer ∧ 40 ≤ s._start_layer := by
  rw [mem_seed_pairs, mem_rtree_query, mem_QueryTree] at h
  obtain ⟨⟨⟨hm1, _, _, a1, a2⟩, _⟩, h2⟩ := h
  rcases h2 with h2 | ⟨⟨hm2, _, _, b1, b2⟩, _⟩
  · exact absurd h2 (List.not_mem_nil _)
  · simp only at a1 a2
    rw [(hwf _ hm1).1] at a1 a2
    rw [(hwf _ hm2).1] at b1 b2
    have e1 := nat_eq_of_band a1 a2
    have e2 := nat_succ_eq_of_band b1 b2
    have := (hwf _ hm2).2
    exact ⟨e1, e2, by omega⟩

end ChainLemmas

section ChainClaims

variable {α : Type} [LinearOrderedField α]

theorem unsigned_sub_of_le {a b : Nat} (h : b ≤ a) : unsigned_sub a b = a - b := by
  unfold unsigned_sub
  rw [if_pos h]

/-- Strictly decreasing layers along the chain of every seed pair of an index that is
in order. -/
theorem seed_chain_decreasing {E : Extern α} {s : Seeder α}
    (hwf : index_layers_ok E s._rtree) {StartCluster SecondCluster : pointKey α}
    (hmem : (StartCluster, SecondCluster) ∈ seed_pairs E s) {c : Chain α}
    (hc : seed_chain E s StartCluster SecondCluster = some c) :
    List.Pairwise (fun a b => E.getLayer b < E.getLayer a) c.cluskeys := by
  obtain ⟨e1, e2, e3⟩ := seed_pair_layers hwf hmem
  unfold seed_chain at hc
  refine extend_loop_decreasing hwf _ _ _ c ?_ ?_ hc
  · show List.Pairwise _ [StartCluster.2, SecondCluster.2]
    rw [List.pairwise_pair]
    omega
  · intro k hk
    rw [unsigned_sub_of_le (by omega)]
    have hk2 : k = StartCluster.2 ∨ k = SecondCluster.2 := by
      simpa [initial_chain] using hk
    rcases hk2 with rfl | rfl <;> omega

variable [FloorRing α]

/-- The index `Process` rebuilds is in order. -/
theorem Process_layers_ok {E : Extern α} {s : Seeder α} {r : Seeder α × List (SvtxTrack α)}
    (h : Process E s = some r) : index_layers_ok E r.1._rtree := by
  refine FillTree_layers_ok (Process_eq_some h).1 ?_
  intro v hv
  exact absurd hv (List.not_mem_nil _)

/-- C2. For every track `Process` emits, the layer of each hit key is strictly smaller
than the layer of the key before it, and of every earlier key; hence no layer and no
key occurs twice in the hit-key list. -/
theorem Process_layers_strictly_decreasing (E : Extern α) (s : Seeder α)
    (r : Seeder α × List (SvtxTrack α)) (h : Process E s = some r)
    (t : SvtxTrack α) (ht : t ∈ r.2) :
    List.Chain' (fun a b => E.getLayer b < E.getLayer a) t.cluskeys ∧
      List.Pairwise (fun a b => E.getLayer b < E.getLayer a) t.cluskeys ∧
      (t.cluskeys.map E.getLayer).Nodup ∧ t.cluskeys.Nodup := by
  obtain ⟨sc, sc2, c, cl, v, n, hmem, hc, _, rfl⟩ := Process_track_origin h ht
  have hp : List.Pairwise (fun a b => E.getLayer b < E.getLayer a) c.cluskeys :=
    seed_chain_decreasing (Process_layers_ok h) hmem hc
  have hnd : (c.cluskeys.map E.getLayer).Nodup := by
    rw [List.Nodup, List.pairwise_map]
    exact hp.imp (fun hab => (Nat.ne_of_lt hab).symm)
  exact ⟨hp.chain', hp, hnd, List.Nodup.of_map _ hnd⟩

end ChainClaims

/-! ## Failure policy of the extension -/

section FailurePolicy

variable {α : Type} [LinearOrderedField α]

theorem extend_body_of_nil {E : Extern α} {s : Seeder α} {c : Chain α} {newlayer : Nat}
    (hl : lookup_layer E s c newlayer = []) :
    extend_body E s c newlayer =
      ({ c with failures := c.failures + 1 }, decide (c.failures + 1 > 2)) := by
  unfold extend_body
  simp only [hl]

theorem extend_body_of_cons {E : Extern α} {s : Seeder α} {c : Chain α} {newlayer : Nat}
    {first : pointKey α} {rest : List (pointKey α)}
    (hl : lookup_layer E s c newlayer = first :: rest) :
    (extend_body E s c newlayer).2 = false ∧
      (extend_body E s c newlayer).1.failures = c.failures := by
  unfold extend_body
  simp only [hl, and_self]

/-- The failure counter never goes down in the loop body: it goes up by one on an empty
lookup and stays as it is on a successful step. -/
theorem extend_body_failures (E : Extern α) (s : Seeder α) (c : Chain α) (newlayer : Nat) :
    (extend_body E s c newlayer).1.failures =
      c.failures + (if (lookup_layer E s c newlayer).isEmpty then 1 else 0) := by
  cases hl : lookup_layer E s c newlayer with
  | nil => rw [extend_body_of_nil hl]; rfl
  | cons first rest => rw [(extend_body_of_cons hl).2]; rfl

theorem loop_layers_zero (bound : Nat) :
    loop_layers bound 0 = if bound ≤ 0 then [0] else [] := rfl

theorem loop_layers_succ (bound newlayer : Nat) :
    loop_layers bound (newlayer + 1) =
      if bound ≤ newlayer + 1 then (newlayer + 1) :: loop_layers bound newlayer else [] := rfl

theorem empty_lookups_cons (E : Extern α) (s : Seeder α) (newlayer : Nat) (layers : List Nat)
    (c : Chain α) :
    empty_lookups E s (newlayer :: layers) c =
      (if (lookup_layer E s c newlayer).isEmpty then 1 else 0) +
        empty_lookups E s layers (extend_body E s c newlayer).1 := rfl

theorem visit_all_cons (E : Extern α) (s : Seeder α) (newlayer : Nat) (layers : List Nat)
    (c : Chain α) :
    visit_all E s (newlayer :: layers) c =
      visit_all E s layers (extend_body E s c newlayer).1 := rfl

/-- The extension loop with a positive lower bound ends without wrapping; its failure
counter is the number of empty lookups of the walk over all layers, capped at 3 by the
`break`; and when the counter ends at 2 or less the loop has walked over all layers. -/
theorem extend_loop_count (E : Extern α) (s : Seeder α) (bound : Nat) (hb : 1 ≤ bound) :
    ∀ (newlayer : Nat) (c : Chain α), c.failures ≤ 2 →
      ∃ r, extend_loop E s bound newlayer c = some r ∧
        r.failures = min 3 (c.failures + empty_lookups E s (loop_layers bound newlayer) c) ∧
        (r.failures ≤ 2 → r = visit_all E s (loop_layers bound newlayer) c) := by
  intro newlayer
  induction newlayer with
  | zero =>
    intro c hc
    have h0 : ¬ bound ≤ 0 := by omega
    rw [extend_loop_zero, loop_layers_zero, if_neg h0, if_neg h0]
    refine ⟨c, rfl, ?_, fun _ => rfl⟩
    simp only [empty_lookups, Nat.add_zero]
    omega
  | succ n ih =>
    intro c hc
    by_cases hbn : bound ≤ n + 1
    · rw [extend_loop_succ, loop_layers_succ, if_pos hbn, if_pos hbn, empty_lookups_cons,
        visit_all_cons]
      have hfail := extend_body_failures E s c (n + 1)
      cases hl : lookup_layer E s c (n + 1) with
      | nil =>
        rw [hl] at hfail
        simp only [List.isEmpty_nil, if_true] at hfail ⊢
        by_cases hbrk : c.failures + 1 > 2
        · have h2 : (extend_body E s c (n + 1)).2 = true := by
            rw [extend_body_of_nil hl]
            simpa using hbrk
          rw [if_pos h2]
          refine ⟨_, rfl, ?_, ?_⟩
          · rw [hfail]; omega
          · intro h; rw [hfail] at h; omega
        · have h2 : ¬ (extend_body E s c (n + 1)).2 = true := by
            rw [extend_body_of_nil hl]
            simpa using hbrk
          rw [if_neg h2]
          obtain ⟨r, hr, hcount, hvisit⟩ := ih (extend_body E s c (n + 1)).1 (by omega)
          refine ⟨r, hr, ?_, hvisit⟩
          rw [hcount, hfail]
          omega
      | cons first rest =>
        rw [hl] at hfail
        simp only [List.isEmpty_cons, Bool.false_eq_true, if_false, Nat.add_zero,
          Nat.zero_add] at hfail ⊢
        have h2 : ¬ (extend_body E s c (n + 1)).2 = true := by
          rw [(extend_body_of_cons hl).1]
          simp
        rw [if_neg h2]
        obtain ⟨r, hr, hcount, hvisit⟩ := ih (extend_body E s c (n + 1)).1 (by omega)
        refine ⟨r, hr, ?_, hvisit⟩
        rw [hcount, hfail]
    · rw [extend_loop_succ, loop_layers_succ, if_neg hbn, if_neg hbn]
      refine ⟨c, rfl, ?_, fun _ => rfl⟩
      simp only [empty_lookups, Nat.add_zero]
      omega

/-- From start layer 8 on, the loop header runs through the six layers
`_start_layer - 2` down to `_start_layer - 7`. -/
theorem loop_layers_eq_extension_layers (start_layer : Nat) (h : 8 ≤ start_layer) :
    loop_layers (start_layer - 7) (start_layer - 2) = extension_layers start_layer := by
  obtain ⟨k, rfl⟩ : ∃ k, start_layer = k + 8 := ⟨start_layer - 8, by omega⟩
  have e : ∀ m, loop_layers (k + 1) (k + (m + 1)) =
      (k + (m + 1)) :: loop_layers (k + 1) (k + m) := by
    intro m
    rw [show k + (m + 1) = (k + m) + 1 by omega, loop_layers_succ, if_pos (by omega)]
  have e0 : loop_layers (k + 1) k = [] := by
    cases k with
    | zero => rfl
    | succ j => rw [loop_layers_succ, if_neg (by omega)]
  show loop_layers (k + 1) (k + 6) = [k + 6, k + 5, k + 4, k + 3, k + 2, k + 1]
  have e0' : loop_layers (k + 1) (k + 0) = [] := e0
  rw [e 5, e 4, e 3, e 2, e 1, e 0, e0']

theorem empty_lookups_of_all_empty (E : Extern α) (s : Seeder α) :
    ∀ (layers : List Nat) (c : Chain α),
      (∀ l ∈ layers, ∀ c' : Chain α, lookup_layer E s c' l = []) →
      empty_lookups E s layers c = layers.length := by
  intro layers
  induction layers with
  | nil => intro c _; rfl
  | cons l ls ih =>
    intro c h
    rw [empty_lookups_cons, h l (List.mem_cons_self _ _) c,
      ih _ (fun l' hl' => h l' (List.mem_cons_of_mem _ hl'))]
    simp only [List.isEmpty_nil, if_true, List.length_cons]
    omega

/-- C7. Failure policy. For a start layer of 8 or more and any seed pair, the extension
loop ends with a chain `c` after running through the layers `start-2` down to
`start-7`; its failure counter is the number of those layer lookups that come back
empty (counted over the whole walk, never reset, and capped at 3 by the `break`); a
chain that passes has visited all six layers; the pair is skipped exactly when three or
more lookups are empty and yields its track exactly when fewer than three are; in
particular a pair with no stored point in the six layers is skipped. -/
theorem seed_pair_failure_policy (E : Extern α) (s : Seeder α)
    (StartCluster SecondCluster : pointKey α) (hstart : 8 ≤ s._start_layer) :
    ∃ c, seed_chain E s StartCluster SecondCluster = some c ∧
      c.failures = min 3 (empty_lookups E s (extension_layers s._start_layer)
        (initial_chain E s StartCluster SecondCluster)) ∧
      (c.failures ≤ 2 → c = visit_all E s (extension_layers s._start_layer)
        (initial_chain E s StartCluster SecondCluster)) ∧
      (∀ n, process_pair E s n StartCluster SecondCluster = some none ↔
        3 ≤ empty_lookups E s (extension_layers s._start_layer)
          (initial_chain E s StartCluster SecondCluster)) ∧
      (∀ n clusters v cl, s._cluster_map = some clusters → s._vertex = some v →
        findCluster clusters StartCluster.2 = some cl →
        (process_pair E s n StartCluster SecondCluster =
            some (some (build_track E n StartCluster c cl v)) ↔
          empty_lookups E s (extension_layers s._start_layer)
            (initial_chain E s StartCluster SecondCluster) < 3)) ∧
      ((∀ p ∈ s._rtree, ¬ ((s._start_layer : α) - 7 - 1 / 2 ≤ p.1.l ∧
          p.1.l ≤ (s._start_layer : α) - 2 + 1 / 2)) →
        ∀ n, process_pair E s n StartCluster SecondCluster = some none) := by
  obtain ⟨c, hc, hcount, hvisit⟩ := extend_loop_count E s (s._start_layer - 7) (by omega)
    (s._start_layer - 2) (initial_chain E s StartCluster SecondCluster) (Nat.zero_le 2)
  rw [loop_layers_eq_extension_layers _ hstart] at hcount hvisit
  have hfail0 : (initial_chain E s StartCluster SecondCluster).failures = 0 := rfl
  rw [hfail0, Nat.zero_add] at hcount
  have hsc : seed_chain E s StartCluster SecondCluster = some c := by
    unfold seed_chain
    rw [unsigned_sub_of_le (by omega), unsigned_sub_of_le (by omega)]
    exact hc
  have hskip : ∀ n, process_pair E s n StartCluster SecondCluster = some none ↔
      3 ≤ empty_lookups E s (extension_layers s._start_layer)
        (initial_chain E s StartCluster SecondCluster) := by
    intro n
    unfold process_pair
    rw [hsc]
    by_cases hf : c.failures > 2
    · simp only [hf, if_true, true_iff]
      omega
    · simp only [hf, if_false]
      constructor
      · intro h
        exfalso
        cases hm : s._cluster_map with
        | none => simp only [hm] at h; exact absurd h (by simp)
        | some clusters =>
          cases hv : s._vertex with
          | none => simp only [hm, hv] at h; exact absurd h (by simp)
          | some vertex =>
            simp only [hm, hv] at h
            cases hcl : findCluster clusters StartCluster.2 with
            | none => simp only [hcl] at h; exact absurd h (by simp)
            | some cl => simp only [hcl] at h; exact absurd h (by simp)
      · intro h
        omega
  refine ⟨c, hsc, hcount, hvisit, hskip, ?_, ?_⟩
  · intro n clusters v cl hm hv hcl
    unfold process_pair
    rw [hsc]
    by_cases hf : c.failures > 2
    · simp only [hf, if_true]
      constructor
      · intro h; exact absurd h (by simp)
      · intro h; omega
    · simp only [hf, if_false, hm, hv, hcl, true_iff]
      omega
  · intro hnone n
    rw [hskip n, empty_lookups_of_all_empty]
    · simp [extension_layers]
    · intro l hl c'
      rw [List.eq_nil_iff_forall_not_mem]
      intro p hp
      unfold lookup_layer at hp
      rw [mem_QueryTree] at hp
      rcases hp with hp | ⟨⟨hmem, _, _, h3, h4⟩, _⟩
      · exact absurd hp (List.not_mem_nil _)
      · apply hnone p hmem
        have hl2 : s._start_layer - 7 ≤ l ∧ l ≤ s._start_layer - 2 := by
          simp only [extension_layers, List.mem_cons, List.mem_singleton,
            List.not_mem_nil, or_false] at hl
          omega
        have h5 : ((s._start_layer - 7 : Nat) : α) ≤ (l : α) := by exact_mod_cast hl2.1
        have h6 : (l : α) ≤ ((s._start_layer - 2 : Nat) : α) := by exact_mod_cast hl2.2
        rw [Nat.cast_sub (by omega)] at h5 h6
        push_cast at h5 h6
        constructor <;> linarith

end FailurePolicy

/-! ## The driver returns -/

section ProcessReturns

variable {α : Type} [LinearOrderedField α]

omit [LinearOrderedField α] in
theorem findCluster_of_mem {clusters : List (cluskey × TrkrCluster α)} {key : cluskey}
    (h : ∃ e ∈ clusters, e.1 = key) : ∃ cl, findCluster clusters key = some cl := by
  unfold findCluster
  have hs : (clusters.find? (fun e => decide (e.1 = key))).isSome = true := by
    rw [List.find?_isSome]
    obtain ⟨e, he, hk⟩ := h
    exact ⟨e, he, by simpa using hk⟩
  cases hf : clusters.find? (fun e => decide (e.1 = key)) with
  | none => rw [hf] at hs; exact absurd hs (by simp)
  | some e => exact ⟨e.2, rfl⟩

/-- With a start layer of 8 or more, valid cluster-map and vertex pointers and a start
key that is in the cluster map, the body of the pair loop stays inside the model. -/
theorem process_pair_ne_none {E : Extern α} {s : Seeder α} (hstart : 8 ≤ s._start_layer)
    {clusters : List (cluskey × TrkrCluster α)} {v : SvtxVertex α}
    (hm : s._cluster_map = some clusters) (hv : s._vertex = some v)
    (StartCluster SecondCluster : pointKey α)
    (hk : ∃ e ∈ clusters, e.1 = StartCluster.2) (n : Nat) :
    process_pair E s n StartCluster SecondCluster ≠ none := by
  obtain ⟨c, hc, _, _⟩ := extend_loop_count E s (s._start_layer - 7) (by omega)
    (s._start_layer - 2) (initial_chain E s StartCluster SecondCluster) (Nat.zero_le 2)
  have hsc : seed_chain E s StartCluster SecondCluster = some c := by
    unfold seed_chain
    rw [unsigned_sub_of_le (by omega), unsigned_sub_of_le (by omega)]
    exact hc
  obtain ⟨cl, hcl⟩ := findCluster_of_mem hk
  unfold process_pair
  rw [hsc]
  by_cases hf : c.failures > 2
  · simp only [hf, if_true]
    exact fun h => absurd h (by simp)
  · simp only [hf, if_false, hm, hv, hcl]
    exact fun h => absurd h (by simp)

theorem process_pairs_returns (E : Extern α) (s : Seeder α) :
    ∀ (pairs : List (pointKey α × pointKey α)) (st : Nat × List (SvtxTrack α)),
      (∀ p ∈ pairs, ∀ n, process_pair E s n p.1 p.2 ≠ none) →
      ∃ st', process_pairs E s pairs st = some st' := by
  intro pairs
  induction pairs with
  | nil => intro st _; exact ⟨st, rfl⟩
  | cons p ps ih =>
    intro st h
    have hps : ∀ q ∈ ps, ∀ n, process_pair E s n q.1 q.2 ≠ none :=
      fun q hq => h q (List.mem_cons_of_mem _ hq)
    rw [process_pairs_cons]
    cases hpp : process_pair E s st.1 p.1 p.2 with
    | none => exact absurd hpp (h p (List.mem_cons_self _ _) st.1)
    | some o =>
      cases o with
      | none => exact ih st hps
      | some track => exact ih _ hps

variable [FloorRing α]

theorem FillTree_step_keys (E : Extern α) (v : SvtxVertex α) (rtree : List (pointKey α))
    (iter : cluskey × TrkrCluster α) (clusters : List (cluskey × TrkrCluster α))
    (hi : iter ∈ clusters) (h : ∀ p ∈ rtree, ∃ e ∈ clusters, e.1 = p.2) :
    ∀ p ∈ FillTree_step E v rtree iter, ∃ e ∈ clusters, e.1 = p.2 := by
  unfold FillTree_step
  by_cases hl : E.getLayer iter.1 < 39
  · simp only [hl, if_true]
    exact h
  · simp only [hl, if_false]
    split
    · intro x hx
      rcases List.mem_append.mp hx with hx | hx
      · exact h x hx
      · have hx2 : x = _ := List.mem_singleton.mp hx
        subst hx2
        exact ⟨iter, hi, rfl⟩
    · exact h

theorem FillTree_foldl_keys (E : Extern α) (v : SvtxVertex α)
    (clusters : List (cluskey × TrkrCluster α)) :
    ∀ (todo : List (cluskey × TrkrCluster α)) (rtree : List (pointKey α)),
      (∀ c ∈ todo, c ∈ clusters) → (∀ p ∈ rtree, ∃ e ∈ clusters, e.1 = p.2) →
      ∀ p ∈ todo.foldl (FillTree_step E v) rtree, ∃ e ∈ clusters, e.1 = p.2 := by
  intro todo
  induction todo with
  | nil => intro rtree _ h; exact h
  | cons c cs ih =>
    intro rtree hsub h
    exact ih _ (fun d hd => hsub d (List.mem_cons_of_mem _ hd))
      (FillTree_step_keys E v rtree c clusters (hsub c (List.mem_cons_self _ _)) h)

/-- `Process` returns whenever the cluster map is there and the vertex map has a vertex
with id 0: the loop counter never wraps (seed pairs exist only from start layer 40 on)
and `findCluster` finds every key of the index. -/
theorem Process_returns (E : Extern α) (s : Seeder α)
    (clusters : List (cluskey × TrkrCluster α)) (v : SvtxVertex α)
    (hm : s._cluster_map = some clusters)
    (hv : (s._vertex_map.find? (fun e => decide (e.1 = 0))).map (fun e => e.2) = some v) :
    ∃ r, Process E s = some r := by
  have hm1 : (Process_begin s)._cluster_map = some clusters := hm
  have hv1 : (Process_begin s)._vertex = some v := hv
  obtain ⟨s2, hs2⟩ : ∃ s2 : Seeder α, s2 = { Process_begin s with
      _rtree := clusters.foldl (FillTree_step E v) (Process_begin s)._rtree } := ⟨_, rfl⟩
  have hF : FillTree E (Process_begin s) = some s2 := by
    unfold FillTree
    simp only [hm1, hv1, hs2]
  have hm2 : s2._cluster_map = some clusters := by rw [hs2]; exact hm
  have hv2 : s2._vertex = some v := by rw [hs2]; exact hv
  have hwf : index_layers_ok E s2._rtree :=
    FillTree_layers_ok hF (fun p hp => absurd hp (List.not_mem_nil _))
  have hkeys : ∀ p ∈ s2._rtree, ∃ e ∈ clusters, e.1 = p.2 := by
    rw [hs2]
    exact FillTree_foldl_keys E v clusters clusters (Process_begin s)._rtree
      (fun _ hc => hc) (fun p hp => absurd hp (List.not_mem_nil _))
  have hall : ∀ p ∈ seed_pairs E s2, ∀ n, process_pair E s2 n p.1 p.2 ≠ none := by
    intro p hp n
    have hp2 : (p.1, p.2) ∈ seed_pairs E s2 := hp
    have hlay := seed_pair_layers hwf hp2
    have hin := ((mem_rtree_query _ _ _ _).mp ((mem_seed_pairs _ _ _ _).mp hp2).1).1.1
    have h8 : 8 ≤ s2._start_layer := le_trans (by decide) hlay.2.2
    exact process_pair_ne_none h8 hm2 hv2 p.1 p.2 (hkeys p.1 hin) n
  obtain ⟨st', hst⟩ := process_pairs_returns E s2 (seed_pairs E s2) (0, []) hall
  unfold Process
  rw [hF]
  simp only [hst]
  exact ⟨_, rfl⟩

end ProcessReturns

/-- The result of `Process` on the example event: one track through all eight clusters. -/
theorem Process_example :
    Process exampleExtern exampleSeeder = some (exampleSeederAfter, [exampleTrack]) := by
  decide!

/-- C10, at the example event: the emitted track has charge `-1`, and its `StartPhi`
(1.047) times its mean curvature is not negative. -/
theorem Process_charge_witness :
    exampleTrack ∈ [exampleTrack] ∧ exampleTrack.charge = -1 ∧
    ((exampleTrack.charge = 1 ∨ exampleTrack.charge = -1) ∧
      ∃ StartCluster SecondCluster c,
        (StartCluster, SecondCluster) ∈ seed_pairs exampleExtern exampleSeederAfter ∧
        seed_chain exampleExtern exampleSeederAfter StartCluster SecondCluster = some c ∧
        exampleTrack.cluskeys = c.cluskeys ∧
        (exampleTrack.charge = 1 ↔
          StartCluster.1.phi * seq_mean c.curvatureestimates < 0) ∧
        (exampleTrack.charge = -1 ↔
          ¬ StartCluster.1.phi * seq_mean c.curvatureestimates < 0)) :=
  ⟨List.mem_singleton.mpr rfl, rfl,
   Process_charge exampleExtern exampleSeeder (exampleSeederAfter, [exampleTrack])
     Process_example exampleTrack (List.mem_singleton.mpr rfl)⟩

/-- C8, at the example event: a second run on the object left by the first returns the
same object and the same single track. -/
theorem Process_idempotent_witness :
    Process exampleExtern exampleSeederAfter = some (exampleSeederAfter, [exampleTrack]) ∧
    ((Process exampleExtern exampleSeeder).bind fun r => Process exampleExtern r.1) =
      Process exampleExtern exampleSeeder :=
  ⟨by decide!, (Process_idempotent exampleExtern exampleSeeder).1⟩

/-- C2, at the example event: the emitted track runs through the layers 47 down to 40. -/
theorem Process_layers_strictly_decreasing_witness :
    exampleTrack.cluskeys.map exampleExtern.getLayer = [47, 46, 45, 44, 43, 42, 41, 40] ∧
    (List.Chain' (fun a b => exampleExtern.getLayer b < exampleExtern.getLayer a)
        exampleTrack.cluskeys ∧
      List.Pairwise (fun a b => exampleExtern.getLayer b < exampleExtern.getLayer a)
        exampleTrack.cluskeys ∧
      (exampleTrack.cluskeys.map exampleExtern.getLayer).Nodup ∧
      exampleTrack.cluskeys.Nodup) :=
  ⟨by decide!,
   Process_layers_strictly_decreasing exampleExtern exampleSeeder
     (exampleSeederAfter, [exampleTrack]) Process_example exampleTrack
     (List.mem_singleton.mpr rfl)⟩

/-- C7, at the example event: start layer 47, the seed pair of layers 47 and 46. None of
the six lookups is empty, and the chain ends with no failure. -/
theorem seed_pair_failure_policy_witness :
    8 ≤ exampleSeederAfter._start_layer ∧
    empty_lookups exampleExtern exampleSeederAfter (extension_layers 47)
      (initial_chain exampleExtern exampleSeederAfter (⟨1047 / 1000, 0, 47⟩, 47000)
        (⟨1046 / 1000, 0, 46⟩, 46000)) = 0 ∧
    ∃ c, seed_chain exampleExtern exampleSeederAfter (⟨1047 / 1000, 0, 47⟩, 47000)
        (⟨1046 / 1000, 0, 46⟩, 46000) = some c ∧
      c.failures = min 3 (empty_lookups exampleExtern exampleSeederAfter
        (extension_layers exampleSeederAfter._start_layer)
        (initial_chain exampleExtern exampleSeederAfter (⟨1047 / 1000, 0, 47⟩, 47000)
          (⟨1046 / 1000, 0, 46⟩, 46000))) :=
  ⟨by decide, by decide!,
   (seed_pair_failure_policy exampleExtern exampleSeederAfter (⟨1047 / 1000, 0, 47⟩, 47000)
      (⟨1046 / 1000, 0, 46⟩, 46000) (by decide)).imp fun _ h => ⟨h.1, h.2.1⟩⟩

/-! ## Indexed points and the circular difference -/

section IndexedPoints

variable {α : Type} [LinearOrderedField α] [FloorRing α]

/-- One iteration of `FillTree` adds at most the point computed for its cluster, and
only for a cluster of layer 39 or more. -/
theorem FillTree_step_mem (E : Extern α) (v : SvtxVertex α) (rtree : List (pointKey α))
    (iter : cluskey × TrkrCluster α) (x : pointKey α)
    (hx : x ∈ FillTree_step E v rtree iter) :
    x ∈ rtree ∨ (39 ≤ E.getLayer iter.1 ∧
      x = (⟨E.Phi (iter.2.x - v.get_x) (iter.2.y - v.get_y) (iter.2.z - v.get_z) -
          2 * E.M_PI * (⌊E.Phi (iter.2.x - v.get_x) (iter.2.y - v.get_y)
            (iter.2.z - v.get_z) / (2 * E.M_PI)⌋ : α),
        E.Eta (iter.2.x - v.get_x) (iter.2.y - v.get_y) (iter.2.z - v.get_z),
        (E.getLayer iter.1 : α)⟩, iter.1)) := by
  unfold FillTree_step at hx
  by_cases hl : E.getLayer iter.1 < 39
  · simp only [hl, if_true] at hx
    exact Or.inl hx
  · simp only [hl, if_false] at hx
    split at hx
    · rcases List.mem_append.mp hx with hx | hx
      · exact Or.inl hx
      · exact Or.inr ⟨by omega, List.mem_singleton.mp hx⟩
    · exact Or.inl hx

theorem FillTree_foldl_well_formed (E : Extern α) (hpi : 0 < E.M_PI) (v : SvtxVertex α) :
    ∀ (clusters : List (cluskey × TrkrCluster α)) (rtree : List (pointKey α)),
      (∀ p ∈ rtree, 0 ≤ p.1.phi ∧ p.1.phi < 2 * E.M_PI ∧
        p.1.l = (E.getLayer p.2 : α) ∧ 39 ≤ E.getLayer p.2) →
      ∀ p ∈ clusters.foldl (FillTree_step E v) rtree,
        0 ≤ p.1.phi ∧ p.1.phi < 2 * E.M_PI ∧
          p.1.l = (E.getLayer p.2 : α) ∧ 39 ≤ E.getLayer p.2 := by
  intro clusters
  induction clusters with
  | nil => intro rtree h; exact h
  | cons c cs ih =>
    intro rtree h
    apply ih
    intro p hp
    rcases FillTree_step_mem E v rtree c p hp with hp | ⟨h39, rfl⟩
    · exact h p hp
    · exact ⟨(normalised_phi_range E.M_PI hpi _).1, (normalised_phi_range E.M_PI hpi _).2,
        rfl, h39⟩

/-- C11. Indexed-point well-formedness: with `M_PI` positive, `FillTree` run on an index
whose points are well formed (the empty index that `Process` hands it, in particular)
leaves an index in which every point has its azimuth in `[0, 2π)`, its layer coordinate
equal to the layer of its key, and a key of layer 39 or more; an iteration on a cluster
of a layer below 39 leaves the index untouched. -/
theorem FillTree_points_well_formed (E : Extern α) (hpi : 0 < E.M_PI) (s s' : Seeder α)
    (h : FillTree E s = some s')
    (h0 : ∀ p ∈ s._rtree, 0 ≤ p.1.phi ∧ p.1.phi < 2 * E.M_PI ∧
      p.1.l = (E.getLayer p.2 : α) ∧ 39 ≤ E.getLayer p.2) :
    (∀ p ∈ s'._rtree, 0 ≤ p.1.phi ∧ p.1.phi < 2 * E.M_PI ∧
        p.1.l = (E.getLayer p.2 : α) ∧ 39 ≤ E.getLayer p.2) ∧
      (∀ (v : SvtxVertex α) (rtree : List (pointKey α)) (iter : cluskey × TrkrCluster α),
        E.getLayer iter.1 < 39 → FillTree_step E v rtree iter = rtree) := by
  constructor
  · unfold FillTree at h
    cases hm : s._cluster_map with
    | none => simp only [hm] at h; exact absurd h (by simp)
    | some clusrange =>
      cases hv : s._vertex with
      | some v =>
        simp only [hm, hv, Option.some.injEq] at h
        subst h
        exact FillTree_foldl_well_formed E hpi v clusrange _ h0
      | none =>
        simp only [hm, hv] at h
        split at h
        · simp only [Option.some.injEq] at h
          subst h
          exact h0
        · exact absurd h (by simp)
  · intro v rtree iter hl
    unfold FillTree_step
    simp only [hl, if_true]

end IndexedPoints

/-- C11, at the example event: `FillTree` run on the cleared object builds
`exampleIndex`, eight points of the layers 40..47 with azimuths between 1.040 and 1.047. -/
theorem FillTree_points_well_formed_witness :
    FillTree exampleExtern (Process_begin exampleSeeder) = some exampleSeederAfter ∧
    ((∀ p ∈ exampleSeederAfter._rtree, 0 ≤ p.1.phi ∧ p.1.phi < 2 * exampleExtern.M_PI ∧
        p.1.l = (exampleExtern.getLayer p.2 : ℚ) ∧ 39 ≤ exampleExtern.getLayer p.2) ∧
      (∀ (v : SvtxVertex ℚ) (rtree : List (pointKey ℚ)) (iter : cluskey × TrkrCluster ℚ),
        exampleExtern.getLayer iter.1 < 39 →
          FillTree_step exampleExtern v rtree iter = rtree)) :=
  ⟨by decide!,
   FillTree_points_well_formed exampleExtern (by decide!) (Process_begin exampleSeeder)
     exampleSeederAfter (by decide!) (fun p hp => absurd hp (List.not_mem_nil _))⟩

section CircularDifference

variable {α : Type} [LinearOrderedField α]

/-- C12, as amended. For azimuths `phi1`, `phi2` in `[0, 2π)`, `phidiff phi1 phi2` lies
in the closed interval `[-π, π]`; it is `-π` exactly when `phi1 - phi2 = -π`, and lies in
the half-open interval `(-π, π]` otherwise; and it differs from `phi1 - phi2` by `-2π`,
0 or `2π`. -/
theorem phidiff_range (M_PI phi1 phi2 : α)
    (h1 : 0 ≤ phi1 ∧ phi1 < 2 * M_PI) (h2 : 0 ≤ phi2 ∧ phi2 < 2 * M_PI) :
    (-M_PI ≤ phidiff M_PI phi1 phi2 ∧ phidiff M_PI phi1 phi2 ≤ M_PI) ∧
      (phidiff M_PI phi1 phi2 = -M_PI ↔ phi1 - phi2 = -M_PI) ∧
      (phi1 - phi2 ≠ -M_PI →
        -M_PI < phidiff M_PI phi1 phi2 ∧ phidiff M_PI phi1 phi2 ≤ M_PI) ∧
      ∃ k : ℤ, (k = -1 ∨ k = 0 ∨ k = 1) ∧
        phidiff M_PI phi1 phi2 = phi1 - phi2 + k * (2 * M_PI) := by
  obtain ⟨h1a, h1b⟩ := h1
  obtain ⟨h2a, h2b⟩ := h2
  have hpi : 0 < M_PI := by linarith
  unfold phidiff
  by_cases ha : phi1 - phi2 > M_PI
  · simp only [ha, if_true]
    refine ⟨⟨by linarith, by linarith⟩, ⟨fun h => by linarith, fun h => by linarith⟩,
      fun _ => ⟨by linarith, by linarith⟩, -1, by simp, ?_⟩
    push_cast
    ring
  · by_cases hb : phi1 - phi2 < -M_PI
    · simp only [ha, hb, if_true, if_false]
      refine ⟨⟨by linarith, by linarith⟩, ⟨fun h => by linarith, fun h => by linarith⟩,
        fun _ => ⟨by linarith, by linarith⟩, 1, by simp, ?_⟩
      push_cast
      ring
    · simp only [ha, hb, if_false]
      refine ⟨⟨by linarith, by linarith⟩, trivial, ?_, 0, by simp, by simp⟩
      intro hne
      exact ⟨lt_of_le_of_ne (by linarith) (Ne.symm hne), by linarith⟩

end CircularDifference

/-- C12, as stated, fails at `phi1 = 0`, `phi2 = π`: both lie in `[0, 2π)`, and
`phidiff` returns `-π`, which is not in the half-open interval `(-π, π]`. -/
theorem phidiff_attains_minus_pi :
    ((0 : ℚ) ≤ 0 ∧ (0 : ℚ) < 2 * M_PI_double) ∧
    ((0 : ℚ) ≤ M_PI_double ∧ M_PI_double < 2 * M_PI_double) ∧
    phidiff M_PI_double 0 M_PI_double = -M_PI_double ∧
    ¬ (-M_PI_double < phidiff M_PI_double 0 M_PI_double ∧
        phidiff M_PI_double 0 M_PI_double ≤ M_PI_double) := by
  refine ⟨by decide!, by decide!, by decide!, by decide!⟩

/-- C12 as amended, at `phi1 = 6`, `phi2 = 1/2`: the difference 5.5 exceeds `π` and
`phidiff` returns `5.5 - 2π`, which is above `-π`; and at `phi1 = 0`, `phi2 = π`, where
the difference is `-π`, `phidiff` returns `-π`. -/
theorem phidiff_range_witness :
    phidiff M_PI_double 6 (1 / 2) = 11 / 2 - 2 * M_PI_double ∧
    ((-M_PI_double ≤ phidiff M_PI_double 6 (1 / 2) ∧
        phidiff M_PI_double 6 (1 / 2) ≤ M_PI_double) ∧
      (phidiff M_PI_double 6 (1 / 2) = -M_PI_double ↔ (6 : ℚ) - 1 / 2 = -M_PI_double) ∧
      ((6 : ℚ) - 1 / 2 ≠ -M_PI_double →
        -M_PI_double < phidiff M_PI_double 6 (1 / 2) ∧
          phidiff M_PI_double 6 (1 / 2) ≤ M_PI_double) ∧
      ∃ k : ℤ, (k = -1 ∨ k = 0 ∨ k = 1) ∧
        phidiff M_PI_double 6 (1 / 2) = 6 - 1 / 2 + k * (2 * M_PI_double)) ∧
    (phidiff M_PI_double 0 M_PI_double = -M_PI_double ↔ (0 : ℚ) - M_PI_double = -M_PI_double) :=
  ⟨by decide!, phidiff_range M_PI_double 6 (1 / 2) (by decide!) (by decide!),
   (phidiff_range M_PI_double 0 M_PI_double (by decide!) (by decide!)).2.1⟩

/-! ## Best-candidate selection -/

section Selection

variable {α : Type} [LinearOrderedField α]

/-- The state of the candidate loop after its first `i` iterations: only slot 0 of the
vector has changed; either no candidate so far beat the initial record 100 and the
vector is as it was returned, or slot 0 holds a candidate of the returned list whose
distance is the record, below 100 and not above that of any candidate visited. -/
theorem select_range_invariant (dist : pointKey α → α) (orig : List (pointKey α)) :
    ∀ i, i ≤ orig.length →
      ((List.range i).foldl (select_step dist) (orig, 100)).1.length = orig.length ∧
      (∀ j, 1 ≤ j →
        ((List.range i).foldl (select_step dist) (orig, 100)).1[j]? = orig[j]?) ∧
      ((((List.range i).foldl (select_step dist) (orig, 100)).2 = 100 ∧
          ((List.range i).foldl (select_step dist) (orig, 100)).1 = orig ∧
          ∀ j < i, ∀ y, orig[j]? = some y → ¬ dist y < 100) ∨
        (1 ≤ i ∧ ∃ x,
          ((List.range i).foldl (select_step dist) (orig, 100)).1[0]? = some x ∧
          x ∈ orig ∧ ((List.range i).foldl (select_step dist) (orig, 100)).2 = dist x ∧
          dist x < 100 ∧ ∀ j < i, ∀ y, orig[j]? = some y → dist x ≤ dist y)) := by
  intro i
  induction i with
  | zero =>
    intro _
    refine ⟨rfl, fun _ _ => rfl, Or.inl ⟨rfl, rfl, ?_⟩⟩
    intro j hj
    exact absurd hj (Nat.not_lt_zero j)
  | succ i ih =>
    intro hi
    obtain ⟨hlen, hslots, hcase⟩ := ih (by omega)
    rw [List.range_succ, List.foldl_append, List.foldl_cons, List.foldl_nil]
    generalize (List.range i).foldl (select_step dist) (orig, 100) = st at hlen hslots hcase
    have hy : orig[i]? = some orig[i] := List.getElem?_eq_getElem (by omega)
    have hread : st.1[i]? = some orig[i] := by
      rcases hcase with ⟨_, h, _⟩ | ⟨h, _⟩
      · rw [h]; exact hy
      · rw [hslots i h]; exact hy
    have hstep : select_step dist st i =
        if dist orig[i] < st.2 then (st.1.set 0 orig[i], dist orig[i]) else st := by
      unfold select_step
      simp only [hread]
    rw [hstep]
    by_cases hd : dist orig[i] < st.2
    · simp only [hd, if_true]
      refine ⟨by rw [List.length_set]; exact hlen, ?_, Or.inr ⟨by omega, orig[i], ?_,
        List.getElem?_mem hy, rfl, ?_, ?_⟩⟩
      · intro j hj
        rw [List.getElem?_set_ne (by omega)]
        exact hslots j hj
      · exact List.getElem?_set_self (by omega)
      · rcases hcase with ⟨h, _, _⟩ | ⟨_, x, _, _, h2, h3, _⟩
        · rw [h] at hd; exact hd
        · rw [h2] at hd; exact lt_trans hd h3
      · intro j hj y hjy
        rcases Nat.lt_succ_iff_lt_or_eq.mp hj with hj | hj
        · rcases hcase with ⟨h, _, h4⟩ | ⟨_, x, _, _, h2, _, h4⟩
          · rw [h] at hd
            exact le_of_lt (lt_of_lt_of_le hd (not_lt.mp (h4 j hj y hjy)))
          · rw [h2] at hd
            exact le_of_lt (lt_of_lt_of_le hd (h4 j hj y hjy))
        · subst hj
          rw [hy] at hjy
          rw [← Option.some.inj hjy]
    · simp only [hd, if_false]
      refine ⟨hlen, hslots, ?_⟩
      rcases hcase with ⟨h, h1, h4⟩ | ⟨_, x, h0, h1, h2, h3, h4⟩
      · refine Or.inl ⟨h, h1, ?_⟩
        intro j hj y hjy
        rcases Nat.lt_succ_iff_lt_or_eq.mp hj with hj | hj
        · exact h4 j hj y hjy
        · subst hj
          rw [hy] at hjy
          rw [← Option.some.inj hjy, ← h]
          exact hd
      · refine Or.inr ⟨by omega, x, h0, h1, h2, h3, ?_⟩
        intro j hj y hjy
        rcases Nat.lt_succ_iff_lt_or_eq.mp hj with hj | hj
        · exact h4 j hj y hjy
        · subst hj
          rw [hy] at hjy
          rw [← Option.some.inj hjy, ← h2]
          exact not_lt.mp hd

/-- What the candidate loop leaves in `*xinkey` for a non-empty vector: a candidate of
the returned list; one of least distance if some candidate has a distance below 100;
the first of the list if none has. -/
theorem select_xinkey_spec (dist : pointKey α → α) (first : pointKey α)
    (rest : List (pointKey α)) :
    (select_xinkey dist (first :: rest)).1.headD first ∈ first :: rest ∧
      ((∃ y ∈ first :: rest, dist y < 100) →
        ∀ y ∈ first :: rest,
          dist ((select_xinkey dist (first :: rest)).1.headD first) ≤ dist y) ∧
      ((∀ y ∈ first :: rest, ¬ dist y < 100) →
        (select_xinkey dist (first :: rest)).1.headD first = first) := by
  obtain ⟨_, _, hcase⟩ :=
    select_range_invariant dist (first :: rest) (first :: rest).length (Nat.le_refl _)
  unfold select_xinkey
  generalize (List.range (first :: rest).length).foldl (select_step dist)
    (first :: rest, 100) = st at hcase
  rcases hcase with ⟨_, h1, h4⟩ | ⟨_, x, h0, h1, _, h3, h4⟩
  · rw [h1]
    refine ⟨List.mem_cons_self _ _, ?_, fun _ => rfl⟩
    rintro ⟨y, hy, hlt⟩
    obtain ⟨j, hj⟩ := List.getElem?_of_mem hy
    have hjlt : j < (first :: rest).length := (List.getElem?_eq_some.mp hj).1
    exact absurd hlt (h4 j hjlt y hj)
  · have hx : st.1.headD first = x := by
      rw [List.headD_eq_head?_getD, List.head?_eq_getElem?, h0]
      rfl
    rw [hx]
    refine ⟨h1, ?_, ?_⟩
    · intro _ y hy
      obtain ⟨j, hj⟩ := List.getElem?_of_mem hy
      have hjlt : j < (first :: rest).length := (List.getElem?_eq_some.mp hj).1
      exact h4 j hjlt y hj
    · intro hall
      exact absurd h3 (hall x h1)

/-- The selection of a successful step. For every non-empty list of candidates a layer
lookup returns, the hit appended to the chain is an element of that list as it was
returned; if at least one candidate has a score below 100 (the initial value of
`xinrecord`), its score
`|phidiff(candidate_phi, predicted_phi)| + |candidate_eta - current_eta|` is less than
or equal to the score of every candidate; if none has, it is the first of the list. -/
theorem extend_body_best_candidate (E : Extern α) (s : Seeder α) (c : Chain α)
    (newlayer : Nat) (first : pointKey α) (rest : List (pointKey α))
    (hl : lookup_layer E s c newlayer = first :: rest) :
    ∃ x ∈ first :: rest,
      (extend_body E s c newlayer).1.cluskeys = c.cluskeys ++ [x.2] ∧
      (extend_body E s c newlayer).1.currentphi = x.1.phi ∧
      ((∃ y ∈ first :: rest,
          |phidiff E.M_PI y.1.phi (predicted_phi s c newlayer)| +
            |y.1.eta - c.currenteta| < 100) →
        ∀ y ∈ first :: rest,
          |phidiff E.M_PI x.1.phi (predicted_phi s c newlayer)| + |x.1.eta - c.currenteta| ≤
            |phidiff E.M_PI y.1.phi (predicted_phi s c newlayer)| +
              |y.1.eta - c.currenteta|) ∧
      ((∀ y ∈ first :: rest,
          ¬ |phidiff E.M_PI y.1.phi (predicted_phi s c newlayer)| +
            |y.1.eta - c.currenteta| < 100) → x = first) := by
  obtain ⟨hmem, hmin, hfirst⟩ := select_xinkey_spec
    (fun it => |phidiff E.M_PI it.1.phi (predicted_phi s c newlayer)| +
      |it.1.eta - c.currenteta|) first rest
  refine ⟨_, hmem, ?_, ?_, hmin, hfirst⟩
  · unfold extend_body
    simp only [hl]
  · unfold extend_body
    simp only [hl]

end Selection

/-- C13, the code on `sentinelSeeder`. For its seed pair the slope is 100 per unit of
radius and the predicted azimuth in layer 45 is `-498.999`, so the window lies wholly
below 0 and the reflected query of `QueryTree` returns both clusters of layer 45, at
azimuth 2 and then at azimuth 1, with scores of about 494.7 and 493.7. Neither is below
100, the initial value of `xinrecord`, so no candidate replaces `*xinkey` and the first
one is appended although the second has the smaller score. -/
theorem extend_body_keeps_first_above_sentinel :
    FillTree exampleExtern (Process_begin sentinelSeeder) = some sentinelSeederAfter ∧
    (((⟨1001 / 1000, 0, 47⟩, 47000), (⟨1, 0, 46⟩, 46000)) ∈
      seed_pairs exampleExtern sentinelSeederAfter) ∧
    lookup_layer exampleExtern sentinelSeederAfter
      (initial_chain exampleExtern sentinelSeederAfter (⟨1001 / 1000, 0, 47⟩, 47000)
        (⟨1, 0, 46⟩, 46000)) 45 = [(⟨2, 0, 45⟩, 45001), (⟨1, 0, 45⟩, 45002)] ∧
    (extend_body exampleExtern sentinelSeederAfter
      (initial_chain exampleExtern sentinelSeederAfter (⟨1001 / 1000, 0, 47⟩, 47000)
        (⟨1, 0, 46⟩, 46000)) 45).1.cluskeys = [47000, 46000, 45001] ∧
    ¬ (|phidiff exampleExtern.M_PI 2 (-498999 / 1000)| + |(0 : ℚ) - 0| ≤
        |phidiff exampleExtern.M_PI 1 (-498999 / 1000)| + |(0 : ℚ) - 0|) ∧
    predicted_phi sentinelSeederAfter
      (initial_chain exampleExtern sentinelSeederAfter (⟨1001 / 1000, 0, 47⟩, 47000)
        (⟨1, 0, 46⟩, 46000)) 45 = -498999 / 1000 ∧
    -498999 / 1000 + sentinelSeederAfter.phist < 0 ∧
    ¬ (|phidiff exampleExtern.M_PI 2 (-498999 / 1000)| + |(0 : ℚ) - 0| < 100) ∧
    ¬ (|phidiff exampleExtern.M_PI 1 (-498999 / 1000)| + |(0 : ℚ) - 0| < 100) := by
  refine ⟨by decide!, by decide!, by decide!, by decide!, by decide!, by decide!,
    by decide!, by decide!, by decide!⟩

/-- The selection at work on `twoCandidateSeeder`: the lookup in layer 45 for the seed
pair of the layers 47 and 46 (predicted azimuth 1.045) returns the clusters at the
azimuths 1.0455 and 1.045, in this order, with the scores 0.0005 and 0; the second one
is appended, and its score is less than or equal to the score of either candidate. -/
theorem extend_body_best_candidate_witness :
    FillTree exampleExtern (Process_begin twoCandidateSeeder) =
      some twoCandidateSeederAfter ∧
    (((⟨1047 / 1000, 0, 47⟩, 47000), (⟨1046 / 1000, 0, 46⟩, 46000)) ∈
      seed_pairs exampleExtern twoCandidateSeederAfter) ∧
    predicted_phi twoCandidateSeederAfter twoCandidateChain 45 = 1045 / 1000 ∧
    lookup_layer exampleExtern twoCandidateSeederAfter twoCandidateChain 45 =
      [(⟨10455 / 10000, 0, 45⟩, 45001), (⟨1045 / 1000, 0, 45⟩, 45002)] ∧
    (extend_body exampleExtern twoCandidateSeederAfter twoCandidateChain 45).1.cluskeys =
      [47000, 46000, 45002] ∧
    ∃ x ∈ [((⟨10455 / 10000, 0, 45⟩, 45001) : pointKey ℚ), (⟨1045 / 1000, 0, 45⟩, 45002)],
      (extend_body exampleExtern twoCandidateSeederAfter twoCandidateChain 45).1.cluskeys =
        twoCandidateChain.cluskeys ++ [x.2] ∧
      ∀ y ∈ [((⟨10455 / 10000, 0, 45⟩, 45001) : pointKey ℚ),
          (⟨1045 / 1000, 0, 45⟩, 45002)],
        |phidiff exampleExtern.M_PI x.1.phi
              (predicted_phi twoCandidateSeederAfter twoCandidateChain 45)| +
            |x.1.eta - twoCandidateChain.currenteta| ≤
          |phidiff exampleExtern.M_PI y.1.phi
              (predicted_phi twoCandidateSeederAfter twoCandidateChain 45)| +
            |y.1.eta - twoCandidateChain.currenteta| :=
  ⟨by decide!, by decide!, by decide!, by decide!, by decide!,
   (extend_body_best_candidate exampleExtern twoCandidateSeederAfter twoCandidateChain 45
      (⟨10455 / 10000, 0, 45⟩, 45001) [(⟨1045 / 1000, 0, 45⟩, 45002)] (by decide!)).imp
     fun _ h => ⟨h.1, h.2.1, h.2.2.2.1 (by decide!)⟩⟩

/-! ## Shape of a chain -/

section ChainShape

variable {α : Type} [LinearOrderedField α]

theorem successful_lookups_nil (E : Extern α) (s : Seeder α) (c : Chain α) :
    successful_lookups E s [] c = 0 := rfl

theorem successful_lookups_cons (E : Extern α) (s : Seeder α) (newlayer : Nat)
    (layers : List Nat) (c : Chain α) :
    successful_lookups E s (newlayer :: layers) c =
      if (lookup_layer E s c newlayer).isEmpty then
        if c.failures + 1 > 2 then 0
        else successful_lookups E s layers (extend_body E s c newlayer).1
      else 1 + successful_lookups E s layers (extend_body E s c newlayer).1 := rfl

theorem successful_lookups_le_length (E : Extern α) (s : Seeder α) :
    ∀ (layers : List Nat) (c : Chain α), successful_lookups E s layers c ≤ layers.length := by
  intro layers
  induction layers with
  | nil => intro c; exact Nat.le_refl 0
  | cons l ls ih =>
    intro c
    rw [successful_lookups_cons, List.length_cons]
    have h := ih (extend_body E s c l).1
    split
    · split <;> omega
    · omega

/-- An empty lookup leaves the hit keys and the three sequences as they are. -/
theorem extend_body_lengths_of_nil {E : Extern α} {s : Seeder α} {c : Chain α}
    {newlayer : Nat} (hl : lookup_layer E s c newlayer = []) :
    (extend_body E s c newlayer).1.cluskeys = c.cluskeys ∧
      (extend_body E s c newlayer).1.curvatureestimates = c.curvatureestimates ∧
      (extend_body E s c newlayer).1.phi_zigzag = c.phi_zigzag ∧
      (extend_body E s c newlayer).1.z_zigzag = c.z_zigzag := by
  rw [extend_body_of_nil hl]
  exact ⟨rfl, rfl, rfl, rfl⟩

/-- A non-empty lookup appends one hit key and one entry to each of the three
sequences. -/
theorem extend_body_lengths_of_cons {E : Extern α} {s : Seeder α} {c : Chain α}
    {newlayer : Nat} {first : pointKey α} {rest : List (pointKey α)}
    (hl : lookup_layer E s c newlayer = first :: rest) :
    (extend_body E s c newlayer).1.cluskeys.length = c.cluskeys.length + 1 ∧
      (extend_body E s c newlayer).1.curvatureestimates.length =
        c.curvatureestimates.length + 1 ∧
      (extend_body E s c newlayer).1.phi_zigzag.length = c.phi_zigzag.length + 1 ∧
      (extend_body E s c newlayer).1.z_zigzag.length = c.z_zigzag.length + 1 := by
  unfold extend_body
  simp only [hl, List.length_append, List.length_singleton, and_self]

/-- The extension loop with a positive lower bound adds one hit key, and one entry to
each sequence, per non-empty lookup it performs. -/
theorem extend_loop_shape (E : Extern α) (s : Seeder α) (bound : Nat) (hb : 1 ≤ bound) :
    ∀ (newlayer : Nat) (c : Chain α),
      ∃ r, extend_loop E s bound newlayer c = some r ∧
        r.cluskeys.length =
          c.cluskeys.length + successful_lookups E s (loop_layers bound newlayer) c ∧
        r.curvatureestimates.length =
          c.curvatureestimates.length +
            successful_lookups E s (loop_layers bound newlayer) c ∧
        r.phi_zigzag.length =
          c.phi_zigzag.length + successful_lookups E s (loop_layers bound newlayer) c ∧
        r.z_zigzag.length =
          c.z_zigzag.length + successful_lookups E s (loop_layers bound newlayer) c := by
  intro newlayer
  induction newlayer with
  | zero =>
    intro c
    have h0 : ¬ bound ≤ 0 := by omega
    rw [extend_loop_zero, loop_layers_zero, if_neg h0, if_neg h0, successful_lookups_nil]
    exact ⟨c, rfl, rfl, rfl, rfl, rfl⟩
  | succ n ih =>
    intro c
    by_cases hbn : bound ≤ n + 1
    · rw [extend_loop_succ, loop_layers_succ, if_pos hbn, if_pos hbn,
        successful_lookups_cons]
      cases hl : lookup_layer E s c (n + 1) with
      | nil =>
        obtain ⟨k1, k2, k3, k4⟩ := extend_body_lengths_of_nil hl
        simp only [List.isEmpty_nil, if_true]
        by_cases hbrk : c.failures + 1 > 2
        · have h2 : (extend_body E s c (n + 1)).2 = true := by
            rw [extend_body_of_nil hl]
            simpa using hbrk
          rw [if_pos h2, if_pos hbrk]
          exact ⟨_, rfl, by rw [k1]; rfl, by rw [k2]; rfl, by rw [k3]; rfl, by rw [k4]; rfl⟩
        · have h2 : ¬ (extend_body E s c (n + 1)).2 = true := by
            rw [extend_body_of_nil hl]
            simpa using hbrk
          rw [if_neg h2, if_neg hbrk]
          obtain ⟨r, hr, e1, e2, e3, e4⟩ := ih (extend_body E s c (n + 1)).1
          rw [k1] at e1
          rw [k2] at e2
          rw [k3] at e3
          rw [k4] at e4
          exact ⟨r, hr, e1, e2, e3, e4⟩
      | cons first rest =>
        obtain ⟨k1, k2, k3, k4⟩ := extend_body_lengths_of_cons hl
        simp only [List.isEmpty_cons, Bool.false_eq_true, if_false]
        have h2 : ¬ (extend_body E s c (n + 1)).2 = true := by
          rw [(extend_body_of_cons hl).1]
          simp
        rw [if_neg h2]
        obtain ⟨r, hr, e1, e2, e3, e4⟩ := ih (extend_body E s c (n + 1)).1
        exact ⟨r, hr, by omega, by omega, by omega, by omega⟩
    · rw [extend_loop_succ, loop_layers_succ, if_neg hbn, if_neg hbn, successful_lookups_nil]
      exact ⟨c, rfl, rfl, rfl, rfl, rfl⟩

/-- C14. Chain shape. For a start layer of 8 or more and any seed pair, the extension
loop ends with a chain whose number of hit keys is 2 plus the number of non-empty layer
lookups it performed, is at most 8, and whose curvature, azimuth-slope and eta-slope
sequences each have one entry fewer than there are hit keys. -/
theorem seed_chain_shape (E : Extern α) (s : Seeder α)
    (StartCluster SecondCluster : pointKey α) (hstart : 8 ≤ s._start_layer) :
    ∃ c, seed_chain E s StartCluster SecondCluster = some c ∧
      c.cluskeys.length = 2 + successful_lookups E s (extension_layers s._start_layer)
        (initial_chain E s StartCluster SecondCluster) ∧
      c.cluskeys.length ≤ 8 ∧
      c.curvatureestimates.length = c.cluskeys.length - 1 ∧
      c.phi_zigzag.length = c.cluskeys.length - 1 ∧
      c.z_zigzag.length = c.cluskeys.length - 1 := by
  obtain ⟨c, hc, e1, e2, e3, e4⟩ := extend_loop_shape E s (s._start_layer - 7) (by omega)
    (s._start_layer - 2) (initial_chain E s StartCluster SecondCluster)
  rw [loop_layers_eq_extension_layers _ hstart] at e1 e2 e3 e4
  have hle := successful_lookups_le_length E s (extension_layers s._start_layer)
    (initial_chain E s StartCluster SecondCluster)
  have h6 : (extension_layers s._start_layer).length = 6 := rfl
  have i1 : (initial_chain E s StartCluster SecondCluster).cluskeys.length = 2 := rfl
  have i2 : (initial_chain E s StartCluster SecondCluster).curvatureestimates.length = 1 := rfl
  have i3 : (initial_chain E s StartCluster SecondCluster).phi_zigzag.length = 1 := rfl
  have i4 : (initial_chain E s StartCluster SecondCluster).z_zigzag.length = 1 := rfl
  refine ⟨c, ?_, by omega, by omega, by omega, by omega, by omega⟩
  unfold seed_chain
  rw [unsigned_sub_of_le (by omega), unsigned_sub_of_le (by omega)]
  exact hc

end ChainShape

/-- C14, at the example event: all six lookups of the seed pair of layers 47 and 46 are
non-empty, and the chain ends with 8 hit keys. -/
theorem seed_chain_shape_witness :
    8 ≤ exampleSeederAfter._start_layer ∧
    successful_lookups exampleExtern exampleSeederAfter (extension_layers 47)
      (initial_chain exampleExtern exampleSeederAfter (⟨1047 / 1000, 0, 47⟩, 47000)
        (⟨1046 / 1000, 0, 46⟩, 46000)) = 6 ∧
    ∃ c, seed_chain exampleExtern exampleSeederAfter (⟨1047 / 1000, 0, 47⟩, 47000)
        (⟨1046 / 1000, 0, 46⟩, 46000) = some c ∧
      c.cluskeys.length = 2 + successful_lookups exampleExtern exampleSeederAfter
        (extension_layers exampleSeederAfter._start_layer)
        (initial_chain exampleExtern exampleSeederAfter (⟨1047 / 1000, 0, 47⟩, 47000)
          (⟨1046 / 1000, 0, 46⟩, 46000)) ∧
      c.cluskeys.length ≤ 8 ∧
      c.curvatureestimates.length = c.cluskeys.length - 1 ∧
      c.phi_zigzag.length = c.cluskeys.length - 1 ∧
      c.z_zigzag.length = c.cluskeys.length - 1 :=
  ⟨by decide, by decide!,
   seed_chain_shape exampleExtern exampleSeederAfter (⟨1047 / 1000, 0, 47⟩, 47000)
     (⟨1046 / 1000, 0, 46⟩, 46000) (by decide)⟩

/-! ## Curvature estimates and the search window -/

section CurvatureWindow

variable {α : Type} [LinearOrderedField α]

/-- For a non-negative magnitude, `copysign` is the magnitude times the sign. -/
theorem copysign_of_nonneg (x y : α) (hx : 0 ≤ x) :
    copysign x y = (if y < 0 then -1 else 1) * x := by
  unfold copysign
  rw [abs_of_nonneg hx]
  split <;> ring

/-- The curvature estimate of the seed pair: with `s` the slope just computed and `rbar`
the midpoint `(r_start + r_{start-1}) / 2`, it is `copysign(2 / sqrt(rbar² + 1/s²), s)`,
that is `sign(s) * 2 / sqrt(rbar² + 1/s²)` when `sqrt` is non-negative. -/
theorem initial_chain_curvature (E : Extern α) (s : Seeder α)
    (StartCluster SecondCluster : pointKey α) (hsqrt : ∀ x, 0 ≤ E.sqrt x) :
    (initial_chain E s StartCluster SecondCluster).ther =
        (radii_all_at s s._start_layer + radii_all_at s (unsigned_sub s._start_layer 1)) / 2 ∧
      (initial_chain E s StartCluster SecondCluster).curvatureestimates =
        [(if (initial_chain E s StartCluster SecondCluster).dphidr < 0 then -1 else 1) *
          (2 / E.sqrt
            ((radii_all_at s s._start_layer +
                radii_all_at s (unsigned_sub s._start_layer 1)) / 2 *
              ((radii_all_at s s._start_layer +
                radii_all_at s (unsigned_sub s._start_layer 1)) / 2) +
              1 / (initial_chain E s StartCluster SecondCluster).dphidr /
                (initial_chain E s StartCluster SecondCluster).dphidr))] := by
  refine ⟨rfl, ?_⟩
  rw [← copysign_of_nonneg _ _ (div_nonneg (by norm_num) (hsqrt _))]
  rfl

/-- The curvature estimate of an extension step: with `s` the slope just computed, it is
`copysign(2 / sqrt(ther² + 1/s²), s)` where `ther` is half the difference
`(r_lastgood - r_new) / 2` of the two radii (line 453), not their midpoint. -/
theorem extend_body_curvature (E : Extern α) (s : Seeder α) (c : Chain α) (newlayer : Nat)
    (first : pointKey α) (rest : List (pointKey α))
    (hl : lookup_layer E s c newlayer = first :: rest) :
    (extend_body E s c newlayer).1.ther =
        (radii_all_at s c.lastgoodlayer - radii_all_at s newlayer) / 2 ∧
      (extend_body E s c newlayer).1.curvatureestimates =
        c.curvatureestimates ++
          [copysign (2 / E.sqrt
            ((radii_all_at s c.lastgoodlayer - radii_all_at s newlayer) / 2 *
              ((radii_all_at s c.lastgoodlayer - radii_all_at s newlayer) / 2) +
              1 / (extend_body E s c newlayer).1.dphidr /
                (extend_body E s c newlayer).1.dphidr))
            (extend_body E s c newlayer).1.dphidr] := by
  unfold extend_body
  simp only [hl, and_self]

end CurvatureWindow

/-- C15, the code at an extension step. In the example event the step from layer 46
(radius 46) to layer 45 (radius 45) computes the slope `s = 0.001` and sets
`ther = (46 - 45) / 2 = 0.5`, where the midpoint radius is `(46 + 45) / 2 = 45.5`; the
estimate it appends is `copysign(2 / sqrt(0.5² + 1/s²), s)`, which differs from the
value with the midpoint, `copysign(2 / sqrt(45.5² + 1/s²), s)`. The seed pair, in
contrast, is given the midpoint `(47 + 46) / 2 = 46.5`. -/
theorem extend_body_curvature_uses_half_difference :
    lookup_layer exampleExtern exampleSeederAfter
      (initial_chain exampleExtern exampleSeederAfter (⟨1047 / 1000, 0, 47⟩, 47000)
        (⟨1046 / 1000, 0, 46⟩, 46000)) 45 = [(⟨1045 / 1000, 0, 45⟩, 45000)] ∧
    (initial_chain exampleExtern exampleSeederAfter (⟨1047 / 1000, 0, 47⟩, 47000)
      (⟨1046 / 1000, 0, 46⟩, 46000)).ther = (47 + 46) / 2 ∧
    (extend_body exampleExtern exampleSeederAfter
      (initial_chain exampleExtern exampleSeederAfter (⟨1047 / 1000, 0, 47⟩, 47000)
        (⟨1046 / 1000, 0, 46⟩, 46000)) 45).1.dphidr = 1 / 1000 ∧
    (extend_body exampleExtern exampleSeederAfter
      (initial_chain exampleExtern exampleSeederAfter (⟨1047 / 1000, 0, 47⟩, 47000)
        (⟨1046 / 1000, 0, 46⟩, 46000)) 45).1.ther = (46 - 45) / 2 ∧
    (radii_all_at exampleSeederAfter 46 + radii_all_at exampleSeederAfter 45) / 2 = 91 / 2 ∧
    (extend_body exampleExtern exampleSeederAfter
      (initial_chain exampleExtern exampleSeederAfter (⟨1047 / 1000, 0, 47⟩, 47000)
        (⟨1046 / 1000, 0, 46⟩, 46000)) 45).1.curvatureestimates.getLast? =
      some (copysign (2 / exampleExtern.sqrt (1 / 2 * (1 / 2) + 1 / (1 / 1000) / (1 / 1000)))
        (1 / 1000)) ∧
    copysign (2 / exampleExtern.sqrt (1 / 2 * (1 / 2) + 1 / (1 / 1000) / (1 / 1000)))
        (1 / 1000 : ℚ) ≠
      copysign (2 / exampleExtern.sqrt (91 / 2 * (91 / 2) + 1 / (1 / 1000) / (1 / 1000)))
        (1 / 1000) := by
  refine ⟨by decide!, by decide!, by decide!, by decide!, by decide!, by decide!, by decide!⟩

section SearchWindow

variable {α : Type} [LinearOrderedField α]

/-- An azimuth that a shift by `-2π`, 0 or `2π` brings within `tol < π` of a
target has a circular difference from the target of at most `tol`. -/
theorem abs_phidiff_le_of_shift (M_PI phi target tol : α)
    (htol : tol < M_PI) (k : ℤ) (hk : k = -1 ∨ k = 0 ∨ k = 1)
    (hlo : target - tol ≤ phi + k * (2 * M_PI)) (hhi : phi + k * (2 * M_PI) ≤ target + tol) :
    |phidiff M_PI phi target| ≤ tol := by
  have hpi : 0 < M_PI := by linarith
  rw [abs_le]
  unfold phidiff
  rcases hk with rfl | rfl | rfl
  · push_cast at hlo hhi
    have ha : phi - target > M_PI := by linarith
    simp only [ha, if_true]
    constructor <;> linarith
  · push_cast at hlo hhi
    have ha : ¬ phi - target > M_PI := by intro h; linarith
    have hb : ¬ phi - target < -M_PI := by intro h; linarith
    simp only [ha, hb, if_false]
    constructor <;> linarith
  · push_cast at hlo hhi
    have ha : ¬ phi - target > M_PI := by intro h; linarith
    have hb : phi - target < -M_PI := by linarith
    simp only [ha, hb, if_true, if_false]
    constructor <;> linarith

/-- The hit an extension step appends lies in the layer searched and within the eta
tolerance of `currenteta`; when the azimuth window reaches into `[0, 2π]` (and the
tolerance is below `π`) it also lies within the phi tolerance of the predicted azimuth,
as a circular difference. -/
theorem extend_body_hit_in_window (E : Extern α) (s : Seeder α) (c : Chain α)
    (newlayer : Nat) (first : pointKey α) (rest : List (pointKey α))
    (hl : lookup_layer E s c newlayer = first :: rest)
    (hpts : ∀ p ∈ s._rtree, 0 ≤ p.1.phi ∧ p.1.phi < 2 * E.M_PI)
    (hwf : index_layers_ok E s._rtree) :
    ∃ x ∈ first :: rest,
      (extend_body E s c newlayer).1.cluskeys = c.cluskeys ++ [x.2] ∧
      E.getLayer x.2 = newlayer ∧ |x.1.eta - c.currenteta| ≤ s.etast ∧
      (s.phist < E.M_PI → 0 ≤ predicted_phi s c newlayer + s.phist →
        predicted_phi s c newlayer - s.phist ≤ 2 * E.M_PI →
        |phidiff E.M_PI x.1.phi (predicted_phi s c newlayer)| ≤ s.phist) := by
  rcases extend_body_cluskeys E s c newlayer with ⟨hnil, _⟩ | ⟨x, hx, hkeys⟩
  · rw [hl] at hnil
    exact absurd hnil (List.cons_ne_nil _ _)
  · have hlay := lookup_layer_getLayer hwf c newlayer hx
    have hx2 := hx
    rw [hl] at hx2
    refine ⟨x, hx2, hkeys, hlay, ?_, ?_⟩
    · unfold lookup_layer at hx
      rw [mem_QueryTree] at hx
      rcases hx with hx | ⟨⟨_, e1, e2, _, _⟩, _⟩
      · exact absurd hx (List.not_mem_nil _)
      · rw [abs_le]
        constructor <;> linarith
    · intro htol h0 h2
      unfold lookup_layer at hx
      obtain ⟨_, _, _, _, k, hk, hlo, hhi⟩ :=
        QueryTree_sound_of_reach E.M_PI s._rtree _ _ _ _ _ _ hpts h0 h2 x hx
      exact abs_phidiff_le_of_shift E.M_PI x.1.phi _ s.phist htol k hk hlo hhi

end SearchWindow

/-- C16, the code on `windowSeeder`. For the seed pair at the azimuths 0.012 and 0.004
the predicted azimuth in layer 45 is `-0.004` and the tolerance `phist` is 0.002, so the
window `[-0.006, -0.002]` lies wholly below 0. The lookup returns the cluster stored at
`2π - 0.001`, and the step appends it, although its circular difference from the
predicted azimuth is 0.003, above the tolerance. -/
theorem extend_body_hit_outside_window :
    FillTree exampleExtern (Process_begin windowSeeder) = some windowSeederAfter ∧
    (((⟨12 / 1000, 0, 47⟩, 47000), (⟨4 / 1000, 0, 46⟩, 46000)) ∈
      seed_pairs exampleExtern windowSeederAfter) ∧
    predicted_phi windowSeederAfter
      (initial_chain exampleExtern windowSeederAfter (⟨12 / 1000, 0, 47⟩, 47000)
        (⟨4 / 1000, 0, 46⟩, 46000)) 45 = -4 / 1000 ∧
    windowSeederAfter.phist = 2 / 1000 ∧
    lookup_layer exampleExtern windowSeederAfter
      (initial_chain exampleExtern windowSeederAfter (⟨12 / 1000, 0, 47⟩, 47000)
        (⟨4 / 1000, 0, 46⟩, 46000)) 45 = [(⟨2 * M_PI_double - 1 / 1000, 0, 45⟩, 45000)] ∧
    (extend_body exampleExtern windowSeederAfter
      (initial_chain exampleExtern windowSeederAfter (⟨12 / 1000, 0, 47⟩, 47000)
        (⟨4 / 1000, 0, 46⟩, 46000)) 45).1.cluskeys = [47000, 46000, 45000] ∧
    phidiff exampleExtern.M_PI (2 * M_PI_double - 1 / 1000) (-4 / 1000) = 3 / 1000 ∧
    ¬ (|phidiff exampleExtern.M_PI (2 * M_PI_double - 1 / 1000) (-4 / 1000)| ≤
        windowSeederAfter.phist) := by
  refine ⟨by decide!, by decide!, by decide!, by decide!, by decide!, by decide!,
    by decide!, by decide!⟩

/-! ## Longitudinal momentum -/

/-- C17. Longitudinal momentum over the reals: for every `pt` and every nonzero
`StartEta`, the value `pt / tan(2 * atan(exp(-StartEta)))` set as `pz` equals
`pt * sinh(StartEta)`; so for `pt > 0` it has the sign of `StartEta`; and the `pz` of a
track record is this value at `pt = BQ / |curv_mean|` and the pseudorapidity of the
first hit. -/
theorem track_pz_eq_sinh (getLayer : cluskey → Nat) (pt StartEta : ℝ) (hne : StartEta ≠ 0) :
    track_pz (realExtern getLayer) pt StartEta = pt * Real.sinh StartEta ∧
      (0 < pt → (0 < StartEta → 0 < track_pz (realExtern getLayer) pt StartEta) ∧
        (StartEta < 0 → track_pz (realExtern getLayer) pt StartEta < 0)) ∧
      (∀ (n : Nat) (StartCluster : pointKey ℝ) (c : Chain ℝ) (cl : TrkrCluster ℝ)
        (v : SvtxVertex ℝ), StartCluster.1.eta = StartEta →
        (build_track (realExtern getLayer) n StartCluster c cl v).pz =
          track_pz (realExtern getLayer) (BQ / |seq_mean c.curvatureestimates|) StartEta) := by
  have hpz : track_pz (realExtern getLayer) pt StartEta = pt * Real.sinh StartEta := by
    show pt / Real.tan (2 * Real.arctan (Real.exp (-StartEta))) = pt * Real.sinh StartEta
    have hpos : 0 < Real.exp (-StartEta) := Real.exp_pos _
    have hexp : Real.exp StartEta = (Real.exp (-StartEta))⁻¹ := by
      rw [Real.exp_neg, inv_inv]
    rw [Real.tan_two_mul, Real.tan_arctan, Real.sinh_eq, hexp]
    have hne2 : Real.exp (-StartEta) ≠ 0 := ne_of_gt hpos
    have hne1 : Real.exp (-StartEta) ≠ 1 := by
      intro h
      have h0 : -StartEta = 0 := (Real.exp_eq_one_iff _).mp h
      exact hne (by linarith)
    have h1 : 1 - Real.exp (-StartEta) ^ 2 ≠ 0 := by
      intro h
      have h2 : (Real.exp (-StartEta) - 1) * (Real.exp (-StartEta) + 1) = 0 := by
        ring_nf
        ring_nf at h
        linarith
      rcases mul_eq_zero.mp h2 with h3 | h3
      · exact hne1 (by linarith)
      · linarith
    field_simp
    ring
  refine ⟨hpz, ?_, ?_⟩
  · intro hpt
    rw [hpz]
    constructor
    · intro h
      exact mul_pos hpt (Real.sinh_pos_iff.mpr h)
    · intro h
      exact mul_neg_of_pos_of_neg hpt (Real.sinh_neg_iff.mpr h)
  · intro n sc c cl v h
    rw [← h]
    rfl

/-- C17, at `pt = 1`, `StartEta = 1`. -/
theorem track_pz_eq_sinh_witness :
    (1 : ℝ) ≠ 0 ∧
    track_pz (realExtern exampleExtern.getLayer) 1 1 = 1 * Real.sinh 1 :=
  ⟨one_ne_zero, (track_pz_eq_sinh exampleExtern.getLayer 1 1 one_ne_zero).1⟩

/-! ## Statistics of a chain -/

section Statistics

variable {α : Type} [LinearOrderedField α]

theorem foldl_add_eq_sum (v : List α) :
    ∀ acc : α, v.foldl (fun acc x => acc + x) acc = acc + v.sum := by
  induction v with
  | nil => intro acc; simp
  | cons x xs ih =>
    intro acc
    rw [List.foldl_cons, ih, List.sum_cons]
    ring

theorem accumulate_eq_sum (v : List α) : accumulate v = v.sum := by
  unfold accumulate
  rw [foldl_add_eq_sum, zero_add]

theorem foldl_zip_self_eq_sum (a : List α) :
    ∀ acc : α, (a.zip a).foldl (fun acc p => acc + p.1 * p.2) acc =
      acc + (a.map fun x => x * x).sum := by
  induction a with
  | nil => intro acc; simp
  | cons x xs ih =>
    intro acc
    rw [List.zip_cons_cons, List.foldl_cons, ih, List.map_cons, List.sum_cons]
    ring

theorem inner_product_self (a : List α) :
    inner_product a a = (a.map fun x => x * x).sum := by
  unfold inner_product
  rw [foldl_zip_self_eq_sum, zero_add]

theorem sum_sq_deviations (v : List α) (m : α) :
    ((v.map fun x => x - m).map fun x => x * x).sum =
      (v.map fun x => x * x).sum - 2 * m * v.sum + (v.length : α) * m ^ 2 := by
  induction v with
  | nil => simp
  | cons x xs ih =>
    simp only [List.map_cons, List.sum_cons, List.length_cons, Nat.cast_succ] at ih ⊢
    rw [ih]
    ring

theorem sum_squares_nonneg (v : List α) : 0 ≤ (v.map fun x => x * x).sum := by
  induction v with
  | nil => simp
  | cons x xs ih =>
    rw [List.map_cons, List.sum_cons]
    exact add_nonneg (mul_self_nonneg x) ih

/-- C18. Statistics accumulator equivalence: for a sequence of `n ≥ 2` numbers, the
two-pass quantity of `Process` (the mean is the sum over `n`; the deviations from the
mean, their inner product with themselves, divided by `n - 1`) equals the single-pass
form `(sum of squares - sum² / n) / (n - 1)`; that quantity is non-negative; and the
standard deviation `Process` computes is `sqrt` of it. -/
theorem seq_stdev_single_pass (E : Extern α) (v : List α) (hn : 2 ≤ v.length) :
    seq_mean v = v.sum / (v.length : α) ∧
      inner_product (v.map fun x => x - seq_mean v) (v.map fun x => x - seq_mean v) /
          ((v.length - 1 : Nat) : α) = single_pass_variance v ∧
      0 ≤ single_pass_variance v ∧
      seq_stdev E v = E.sqrt (single_pass_variance v) := by
  have hmean : seq_mean v = v.sum / (v.length : α) := by
    unfold seq_mean
    rw [accumulate_eq_sum]
  have hcast : ((v.length - 1 : Nat) : α) = (v.length : α) - 1 := by
    rw [Nat.cast_sub (by omega), Nat.cast_one]
  have hlen : (2 : α) ≤ (v.length : α) := by exact_mod_cast hn
  have hn0 : (v.length : α) ≠ 0 := by
    intro h
    rw [h] at hlen
    linarith
  have hnum : inner_product (v.map fun x => x - seq_mean v) (v.map fun x => x - seq_mean v) =
      (v.map fun x => x * x).sum - v.sum ^ 2 / (v.length : α) := by
    rw [inner_product_self, sum_sq_deviations, hmean]
    field_simp
    ring
  have heq : inner_product (v.map fun x => x - seq_mean v) (v.map fun x => x - seq_mean v) /
      ((v.length - 1 : Nat) : α) = single_pass_variance v := by
    unfold single_pass_variance
    rw [hnum, hcast]
  refine ⟨hmean, heq, ?_, ?_⟩
  · rw [← heq, inner_product_self, hcast]
    exact div_nonneg (sum_squares_nonneg _) (by linarith)
  · unfold seq_stdev
    simp only
    rw [heq]

end Statistics

/-- C18, at the sequence 1, 2, 4: the mean is 7/3 and both forms give 7/3. -/
theorem seq_stdev_single_pass_witness :
    2 ≤ ([1, 2, 4] : List ℚ).length ∧ single_pass_variance ([1, 2, 4] : List ℚ) = 7 / 3 ∧
    (seq_mean ([1, 2, 4] : List ℚ) = ([1, 2, 4] : List ℚ).sum / (([1, 2, 4] : List ℚ).length : ℚ) ∧
      inner_product (([1, 2, 4] : List ℚ).map fun x => x - seq_mean [1, 2, 4])
          (([1, 2, 4] : List ℚ).map fun x => x - seq_mean [1, 2, 4]) /
          ((([1, 2, 4] : List ℚ).length - 1 : Nat) : ℚ) = single_pass_variance [1, 2, 4] ∧
      0 ≤ single_pass_variance ([1, 2, 4] : List ℚ) ∧
      seq_stdev exampleExtern [1, 2, 4] = exampleExtern.sqrt (single_pass_variance [1, 2, 4])) :=
  ⟨by decide, by decide!, seq_stdev_single_pass exampleExtern [1, 2, 4] (by decide)⟩

/-! ## Length of an accepted chain -/

section AcceptedChain

variable {α : Type} [LinearOrderedField α]

/-- On a walk over a list of layers with no early exit, every layer either appends a
hit key and an entry to each sequence or counts as an empty lookup. -/
theorem visit_all_lengths (E : Extern α) (s : Seeder α) :
    ∀ (layers : List Nat) (c : Chain α),
      (visit_all E s layers c).cluskeys.length + empty_lookups E s layers c =
          c.cluskeys.length + layers.length ∧
        (visit_all E s layers c).curvatureestimates.length + empty_lookups E s layers c =
          c.curvatureestimates.length + layers.length ∧
        (visit_all E s layers c).phi_zigzag.length + empty_lookups E s layers c =
          c.phi_zigzag.length + layers.length ∧
        (visit_all E s layers c).z_zigzag.length + empty_lookups E s layers c =
          c.z_zigzag.length + layers.length := by
  intro layers
  induction layers with
  | nil => intro c; exact ⟨rfl, rfl, rfl, rfl⟩
  | cons l ls ih =>
    intro c
    rw [visit_all_cons, empty_lookups_cons, List.length_cons]
    obtain ⟨e1, e2, e3, e4⟩ := ih (extend_body E s c l).1
    cases hl : lookup_layer E s c l with
    | nil =>
      obtain ⟨k1, k2, k3, k4⟩ := extend_body_lengths_of_nil hl
      rw [k1] at e1
      rw [k2] at e2
      rw [k3] at e3
      rw [k4] at e4
      simp only [List.isEmpty_nil, if_true]
      exact ⟨by omega, by omega, by omega, by omega⟩
    | cons first rest =>
      obtain ⟨k1, k2, k3, k4⟩ := extend_body_lengths_of_cons hl
      simp only [List.isEmpty_cons, Bool.false_eq_true, if_false]
      exact ⟨by omega, by omega, by omega, by omega⟩

/-- A chain that passes the failure test, for a start layer of 8 or more, has at least
6 hit keys and at least 5 entries in each sequence. -/
theorem accepted_chain_lengths {E : Extern α} {s : Seeder α}
    {StartCluster SecondCluster : pointKey α} {c : Chain α} (hstart : 8 ≤ s._start_layer)
    (hc : seed_chain E s StartCluster SecondCluster = some c) (hf : c.failures ≤ 2) :
    6 ≤ c.cluskeys.length ∧ 5 ≤ c.curvatureestimates.length ∧
      5 ≤ c.phi_zigzag.length ∧ 5 ≤ c.z_zigzag.length := by
  obtain ⟨r, hr, hcount, hvisit⟩ := extend_loop_count E s (s._start_layer - 7) (by omega)
    (s._start_layer - 2) (initial_chain E s StartCluster SecondCluster) (Nat.zero_le 2)
  rw [loop_layers_eq_extension_layers _ hstart] at hcount hvisit
  unfold seed_chain at hc
  rw [unsigned_sub_of_le (by omega), unsigned_sub_of_le (by omega), hr,
    Option.some.injEq] at hc
  subst hc
  have hfail0 : (initial_chain E s StartCluster SecondCluster).failures = 0 := rfl
  rw [hfail0, Nat.zero_add] at hcount
  obtain ⟨e1, e2, e3, e4⟩ := visit_all_lengths E s (extension_layers s._start_layer)
    (initial_chain E s StartCluster SecondCluster)
  rw [← hvisit hf] at e1 e2 e3 e4
  have h6 : (extension_layers s._start_layer).length = 6 := rfl
  have i1 : (initial_chain E s StartCluster SecondCluster).cluskeys.length = 2 := rfl
  have i2 : (initial_chain E s StartCluster SecondCluster).curvatureestimates.length = 1 := rfl
  have i3 : (initial_chain E s StartCluster SecondCluster).phi_zigzag.length = 1 := rfl
  have i4 : (initial_chain E s StartCluster SecondCluster).z_zigzag.length = 1 := rfl
  have hemp : empty_lookups E s (extension_layers s._start_layer)
      (initial_chain E s StartCluster SecondCluster) ≤ 2 := by omega
  exact ⟨by omega, by omega, by omega, by omega⟩

variable [FloorRing α]

/-- C19. Every track `Process` emits, whatever the start layer, has at least 6 hit keys;
the curvature, azimuth-slope and eta-slope sequences of its chain have at least 5
entries each, so the `n - 1` denominator of the sample standard deviation is not zero. -/
theorem Process_track_at_least_six_keys (E : Extern α) (s : Seeder α)
    (r : Seeder α × List (SvtxTrack α)) (h : Process E s = some r)
    (t : SvtxTrack α) (ht : t ∈ r.2) :
    6 ≤ t.cluskeys.length ∧
      ∃ StartCluster SecondCluster c,
        (StartCluster, SecondCluster) ∈ seed_pairs E r.1 ∧
        seed_chain E r.1 StartCluster SecondCluster = some c ∧
        t.cluskeys = c.cluskeys ∧
        5 ≤ c.curvatureestimates.length ∧ 5 ≤ c.phi_zigzag.length ∧
        5 ≤ c.z_zigzag.length ∧
        ((c.curvatureestimates.length - 1 : Nat) : α) ≠ 0 ∧
        ((c.phi_zigzag.length - 1 : Nat) : α) ≠ 0 ∧
        ((c.z_zigzag.length - 1 : Nat) : α) ≠ 0 := by
  obtain ⟨sc, sc2, c, cl, v, n, hmem, hc, hf, rfl⟩ := Process_track_origin h ht
  have hlay := seed_pair_layers (Process_layers_ok h) hmem
  have h8 : 8 ≤ r.1._start_layer := le_trans (by decide) hlay.2.2
  obtain ⟨l1, l2, l3, l4⟩ := accepted_chain_lengths h8 hc hf
  refine ⟨l1, sc, sc2, c, hmem, hc, rfl, l2, l3, l4, ?_, ?_, ?_⟩
  · exact Nat.cast_ne_zero.mpr (by omega)
  · exact Nat.cast_ne_zero.mpr (by omega)
  · exact Nat.cast_ne_zero.mpr (by omega)

end AcceptedChain

/-- C19, at the example event: the emitted track has 8 hit keys. -/
theorem Process_track_at_least_six_keys_witness :
    exampleTrack.cluskeys.length = 8 ∧
    (6 ≤ exampleTrack.cluskeys.length ∧
      ∃ StartCluster SecondCluster c,
        (StartCluster, SecondCluster) ∈ seed_pairs exampleExtern exampleSeederAfter ∧
        seed_chain exampleExtern exampleSeederAfter StartCluster SecondCluster = some c ∧
        exampleTrack.cluskeys = c.cluskeys ∧
        5 ≤ c.curvatureestimates.length ∧ 5 ≤ c.phi_zigzag.length ∧
        5 ≤ c.z_zigzag.length ∧
        ((c.curvatureestimates.length - 1 : Nat) : ℚ) ≠ 0 ∧
        ((c.phi_zigzag.length - 1 : Nat) : ℚ) ≠ 0 ∧
        ((c.z_zigzag.length - 1 : Nat) : ℚ) ≠ 0) :=
  ⟨rfl,
   Process_track_at_least_six_keys exampleExtern exampleSeeder
     (exampleSeederAfter, [exampleTrack]) Process_example exampleTrack
     (List.mem_singleton.mpr rfl)⟩

/-! ## Radius differences along the extension -/

section Denominators

variable {α : Type} [LinearOrderedField α]

theorem visit_all_nil (E : Extern α) (s : Seeder α) (c : Chain α) :
    visit_all E s [] c = c := rfl

/-- The loop body leaves `lastgoodlayer` as it is or sets it to the layer searched. -/
theorem extend_body_lastgoodlayer (E : Extern α) (s : Seeder α) (c : Chain α)
    (newlayer : Nat) :
    (extend_body E s c newlayer).1.lastgoodlayer = c.lastgoodlayer ∨
      (extend_body E s c newlayer).1.lastgoodlayer = newlayer := by
  cases hl : lookup_layer E s c newlayer with
  | nil => rw [extend_body_of_nil hl]; exact Or.inl rfl
  | cons first rest =>
    refine Or.inr ?_
    unfold extend_body
    simp only [hl]

/-- After a walk over some layers, `lastgoodlayer` is what it was or one of them. -/
theorem visit_all_lastgoodlayer (E : Extern α) (s : Seeder α) :
    ∀ (layers : List Nat) (c : Chain α),
      (visit_all E s layers c).lastgoodlayer = c.lastgoodlayer ∨
        (visit_all E s layers c).lastgoodlayer ∈ layers := by
  intro layers
  induction layers with
  | nil => intro c; exact Or.inl rfl
  | cons l ls ih =>
    intro c
    rw [visit_all_cons]
    rcases ih (extend_body E s c l).1 with h | h
    · rcases extend_body_lastgoodlayer E s c l with h2 | h2
      · exact Or.inl (h.trans h2)
      · exact Or.inr (by rw [h, h2]; exact List.mem_cons_self _ _)
    · exact Or.inr (List.mem_cons_of_mem _ h)

/-- A `break` leaves the failure counter above 2. -/
theorem extend_body_break_failures {E : Extern α} {s : Seeder α} {c : Chain α}
    {newlayer : Nat} (h : (extend_body E s c newlayer).2 = true) :
    2 < (extend_body E s c newlayer).1.failures := by
  cases hl : lookup_layer E s c newlayer with
  | nil =>
    rw [extend_body_of_nil hl] at h ⊢
    simpa using h
  | cons first rest =>
    rw [(extend_body_of_cons hl).1] at h
    exact absurd h (by simp)

/-- When the loop header lists `newlayer` after the layers `pre`, the loop has either
left through `break` before (with more than 2 failures), or goes on from `newlayer`
with the chain the walk over `pre` leaves. -/
theorem extend_loop_prefix (E : Extern α) (s : Seeder α) (bound : Nat) (hb : 1 ≤ bound) :
    ∀ (pre : List Nat) (n : Nat) (c : Chain α) (newlayer : Nat) (post : List Nat),
      loop_layers bound n = pre ++ newlayer :: post →
      extend_loop E s bound n c = extend_loop E s bound newlayer (visit_all E s pre c) ∨
        ∃ r, extend_loop E s bound n c = some r ∧ 2 < r.failures := by
  intro pre
  induction pre with
  | nil =>
    intro n c newlayer post hsplit
    cases n with
    | zero =>
      rw [loop_layers_zero, if_neg (by omega)] at hsplit
      exact absurd hsplit (by simp)
    | succ m =>
      rw [loop_layers_succ] at hsplit
      by_cases hbn : bound ≤ m + 1
      · rw [if_pos hbn, List.nil_append, List.cons.injEq] at hsplit
        rw [← hsplit.1]
        exact Or.inl rfl
      · rw [if_neg hbn] at hsplit
        exact absurd hsplit (by simp)
  | cons a pre ih =>
    intro n c newlayer post hsplit
    cases n with
    | zero =>
      rw [loop_layers_zero, if_neg (by omega)] at hsplit
      exact absurd hsplit (by simp)
    | succ m =>
      rw [loop_layers_succ] at hsplit
      by_cases hbn : bound ≤ m + 1
      · rw [if_pos hbn, List.cons_append, List.cons.injEq] at hsplit
        obtain ⟨ha, hrest⟩ := hsplit
        subst ha
        rw [extend_loop_succ, if_pos hbn, visit_all_cons]
        by_cases hbrk : (extend_body E s c (m + 1)).2 = true
        · rw [if_pos hbrk]
          exact Or.inr ⟨_, rfl, extend_body_break_failures hbrk⟩
        · rw [if_neg hbrk]
          exact ih m (extend_body E s c (m + 1)).1 newlayer post hrest
      · rw [if_neg hbn] at hsplit
        exact absurd hsplit (by simp)

theorem extension_layers_decreasing (start_layer : Nat) (h : 8 ≤ start_layer) :
    List.Pairwise (fun a b => b < a) (extension_layers start_layer) := by
  obtain ⟨k, rfl⟩ : ∃ k, start_layer = k + 8 := ⟨start_layer - 8, by omega⟩
  show List.Pairwise (fun a b => b < a) [k + 6, k + 5, k + 4, k + 3, k + 2, k + 1]
  simp only [List.pairwise_cons, List.mem_cons, List.mem_singleton, List.not_mem_nil,
    List.Pairwise.nil, and_true, forall_eq_or_imp, forall_eq, false_imp_iff, implies_true]
  omega

/-- C20. Radius-difference denominators. For a start layer of 8 or more and a radius
table strictly increasing over the layers `start-7 .. start`, the denominator
`r_start - r_{start-1}` of the seed pair is positive; and at every layer `newlayer` of
the extension (listed by the loop header after the layers `pre`), the loop has either
left before through `break`, or runs its body with the chain the walk over `pre`
leaves, for which `lastgoodlayer` is greater than `newlayer` and the denominator
`r_lastgood - r_new` is positive. -/
theorem extension_denominators_positive (E : Extern α) (s : Seeder α)
    (StartCluster SecondCluster : pointKey α) (hstart : 8 ≤ s._start_layer)
    (hmono : ∀ i j, s._start_layer - 7 ≤ i → i < j → j ≤ s._start_layer →
      radii_all_at s i < radii_all_at s j) :
    0 < radii_all_at s s._start_layer - radii_all_at s (unsigned_sub s._start_layer 1) ∧
      ∀ pre newlayer post, extension_layers s._start_layer = pre ++ newlayer :: post →
        (seed_chain E s StartCluster SecondCluster =
            extend_loop E s (s._start_layer - 7) newlayer
              (visit_all E s pre (initial_chain E s StartCluster SecondCluster)) ∨
          ∃ r, seed_chain E s StartCluster SecondCluster = some r ∧ 2 < r.failures) ∧
        newlayer < (visit_all E s pre
          (initial_chain E s StartCluster SecondCluster)).lastgoodlayer ∧
        0 < radii_all_at s (visit_all E s pre
              (initial_chain E s StartCluster SecondCluster)).lastgoodlayer -
            radii_all_at s newlayer := by
  have hsub1 : unsigned_sub s._start_layer 1 = s._start_layer - 1 :=
    unsigned_sub_of_le (by omega)
  constructor
  · rw [hsub1]
    have := hmono (s._start_layer - 1) s._start_layer (by omega) (by omega) (Nat.le_refl _)
    linarith
  · intro pre newlayer post hsplit
    have hpw := extension_layers_decreasing s._start_layer hstart
    rw [hsplit, List.pairwise_append] at hpw
    have hmem : ∀ x ∈ extension_layers s._start_layer,
        s._start_layer - 7 ≤ x ∧ x ≤ s._start_layer - 2 := by
      intro x hx
      simp only [extension_layers, List.mem_cons, List.mem_singleton, List.not_mem_nil,
        or_false] at hx
      omega
    have hnew := hmem newlayer (by rw [hsplit]; simp)
    have hlast : newlayer < (visit_all E s pre
          (initial_chain E s StartCluster SecondCluster)).lastgoodlayer ∧
        (visit_all E s pre
          (initial_chain E s StartCluster SecondCluster)).lastgoodlayer ≤ s._start_layer := by
      rcases visit_all_lastgoodlayer E s pre
        (initial_chain E s StartCluster SecondCluster) with h | h
      · rw [h]
        show newlayer < unsigned_sub s._start_layer 1 ∧ unsigned_sub s._start_layer 1 ≤ _
        rw [hsub1]
        omega
      · have h1 := hpw.2.2 _ h newlayer (List.mem_cons_self _ _)
        have h2 := hmem _ (by rw [hsplit]; exact List.mem_append_left _ h)
        omega
    refine ⟨?_, hlast.1, ?_⟩
    · unfold seed_chain
      rw [unsigned_sub_of_le (by omega), unsigned_sub_of_le (by omega)]
      exact extend_loop_prefix E s (s._start_layer - 7) (by omega) pre (s._start_layer - 2)
        _ newlayer post (by rw [loop_layers_eq_extension_layers _ hstart]; exact hsplit)
    · have := hmono newlayer _ hnew.1 hlast.1 hlast.2
      linarith

end Denominators

/-- C20, at the example event (radius of layer `i` equal to `i`, start layer 47): the
seed-pair denominator is 1, and at layer 44, reached after the layers 45, the last good
layer is 45. -/
theorem extension_denominators_positive_witness :
    8 ≤ exampleSeederAfter._start_layer ∧
    (visit_all exampleExtern exampleSeederAfter [45]
      (initial_chain exampleExtern exampleSeederAfter (⟨1047 / 1000, 0, 47⟩, 47000)
        (⟨1046 / 1000, 0, 46⟩, 46000))).lastgoodlayer = 45 ∧
    (0 < radii_all_at exampleSeederAfter exampleSeederAfter._start_layer -
        radii_all_at exampleSeederAfter (unsigned_sub exampleSeederAfter._start_layer 1) ∧
      44 < (visit_all exampleExtern exampleSeederAfter [45]
        (initial_chain exampleExtern exampleSeederAfter (⟨1047 / 1000, 0, 47⟩, 47000)
          (⟨1046 / 1000, 0, 46⟩, 46000))).lastgoodlayer ∧
      0 < radii_all_at exampleSeederAfter (visit_all exampleExtern exampleSeederAfter [45]
            (initial_chain exampleExtern exampleSeederAfter (⟨1047 / 1000, 0, 47⟩, 47000)
              (⟨1046 / 1000, 0, 46⟩, 46000))).lastgoodlayer -
          radii_all_at exampleSeederAfter 44) :=
  ⟨by decide, by decide!,
   (extension_denominators_positive exampleExtern exampleSeederAfter
      (⟨1047 / 1000, 0, 47⟩, 47000) (⟨1046 / 1000, 0, 46⟩, 46000) (by decide)
      (by
        intro i j h1 h2 h3
        have e : ∀ k, k ≤ 47 → radii_all_at exampleSeederAfter k = (k : ℚ) := by
          intro k hk
          interval_cases k <;> decide!
        rw [e i (by simp only [exampleSeederAfter, exampleSeeder, PHCASeeding_ctor] at h3; omega),
          e j (by simpa only [exampleSeederAfter, exampleSeeder, PHCASeeding_ctor] using h3)]
        exact_mod_cast h2)).1,
   ((extension_denominators_positive exampleExtern exampleSeederAfter
      (⟨1047 / 1000, 0, 47⟩, 47000) (⟨1046 / 1000, 0, 46⟩, 46000) (by decide)
      (by
        intro i j h1 h2 h3
        have e : ∀ k, k ≤ 47 → radii_all_at exampleSeederAfter k = (k : ℚ) := by
          intro k hk
          interval_cases k <;> decide!
        rw [e i (by simp only [exampleSeederAfter, exampleSeeder, PHCASeeding_ctor] at h3; omega),
          e j (by simpa only [exampleSeederAfter, exampleSeeder, PHCASeeding_ctor] using h3)]
        exact_mod_cast h2)).2 [45] 44 [43, 42, 41, 40] rfl).2⟩

/-! ## Charge and the starting azimuth -/

section ChargeSign

variable {α : Type} [LinearOrderedField α]

/-- C22, as amended. For a starting azimuth above 0 (in particular in the open interval
`(0, 2π)`), the charge assigned to a track is `+1` if and only if the mean curvature is
negative, and `-1` otherwise, so that two such starting azimuths give the same charge
for the same mean curvature; at `StartPhi = 0` the charge is `-1` whatever the mean
curvature. The charge of a track record is this value at the azimuth of its first hit
and the mean of its curvature estimates. -/
theorem track_charge_of_pos (StartPhi curv_mean : α) (hpos : 0 < StartPhi) :
    (track_charge StartPhi curv_mean = 1 ↔ curv_mean < 0) ∧
      (track_charge StartPhi curv_mean = -1 ↔ ¬ curv_mean < 0) ∧
      (∀ StartPhi2 : α, 0 < StartPhi2 →
        track_charge StartPhi2 curv_mean = track_charge StartPhi curv_mean) ∧
      track_charge 0 curv_mean = -1 ∧
      (∀ (E : Extern α) (n : Nat) (StartCluster : pointKey α) (c : Chain α)
        (cl : TrkrCluster α) (v : SvtxVertex α),
        (build_track E n StartCluster c cl v).charge =
          track_charge StartCluster.1.phi (seq_mean c.curvatureestimates)) := by
  have key : ∀ p : α, 0 < p →
      track_charge p curv_mean = if curv_mean < 0 then 1 else -1 := by
    intro p hp
    rw [track_charge_eq]
    by_cases hc : curv_mean < 0
    · rw [if_pos (mul_neg_of_pos_of_neg hp hc), if_pos hc]
    · rw [if_neg (not_lt.mpr (mul_nonneg (le_of_lt hp) (not_lt.mp hc))), if_neg hc]
  refine ⟨?_, ?_, ?_, ?_, fun _ _ _ _ _ _ => rfl⟩
  · rw [key StartPhi hpos]
    by_cases hc : curv_mean < 0 <;> simp [hc]
  · rw [key StartPhi hpos]
    by_cases hc : curv_mean < 0 <;> simp [hc]
  · intro p hp
    rw [key p hp, key StartPhi hpos]
  · rw [track_charge_eq, zero_mul, if_neg (lt_irrefl 0)]

end ChargeSign

/-- C22, as stated, fails at `StartPhi = 0`: for the mean curvature `-1` the starting
azimuths 0 and 1, both in `[0, 2π)`, are given the charges `-1` and `+1`; at
`StartPhi = 0` the charge is not `+1` although the mean curvature is negative. -/
theorem track_charge_differs_at_zero :
    ((0 : ℚ) ≤ 0 ∧ (0 : ℚ) < 2 * M_PI_double) ∧
    ((0 : ℚ) ≤ 1 ∧ (1 : ℚ) < 2 * M_PI_double) ∧ ((-1 : ℚ) ≠ 0 ∧ (-1 : ℚ) < 0) ∧
    track_charge (0 : ℚ) (-1) = -1 ∧ track_charge (1 : ℚ) (-1) = 1 ∧
    track_charge (0 : ℚ) (-1) ≠ track_charge (1 : ℚ) (-1) ∧
    ¬ (track_charge (0 : ℚ) (-1) = 1 ↔ (-1 : ℚ) < 0) := by
  refine ⟨by decide!, by decide!, by decide!, by decide!, by decide!, by decide!, by decide!⟩

/-- C22 as amended, at `StartPhi = 1`, mean curvature `-1`: the charge is `+1`. -/
theorem track_charge_of_pos_witness :
    (0 : ℚ) < 1 ∧ track_charge (1 : ℚ) (-1) = 1 ∧
    (track_charge (1 : ℚ) (-1) = 1 ↔ (-1 : ℚ) < 0) :=
  ⟨by decide!, by decide!, (track_charge_of_pos (1 : ℚ) (-1) (by decide!)).1⟩

/-! ## Prediction on a straight line -/

section StraightLine

variable {α : Type} [LinearOrderedField α]

/-- Without wrap-around the circular difference is the plain difference. -/
theorem phidiff_of_abs_lt (M_PI phi1 phi2 : α) (h : |phi1 - phi2| < M_PI) :
    phidiff M_PI phi1 phi2 = phi1 - phi2 := by
  obtain ⟨h1, h2⟩ := abs_lt.mp h
  unfold phidiff
  simp only [gt_iff_lt, not_lt.mpr (le_of_lt h2), not_lt.mpr (le_of_lt h1), if_false]

/-- The fields of the chain that a successful step sets from the hit it appends. -/
theorem extend_body_fields_of_cons {E : Extern α} {s : Seeder α} {c : Chain α}
    {newlayer : Nat} {first : pointKey α} {rest : List (pointKey α)}
    (hl : lookup_layer E s c newlayer = first :: rest) :
    (extend_body E s c newlayer).1.dphidr =
        phidiff E.M_PI c.currentphi
          ((select_xinkey
            (fun it => |phidiff E.M_PI it.1.phi (predicted_phi s c newlayer)| +
              |it.1.eta - c.currenteta|) (first :: rest)).1.headD first).1.phi /
          (radii_all_at s c.lastgoodlayer - radii_all_at s newlayer) ∧
      (extend_body E s c newlayer).1.lastgoodlayer = newlayer ∧
      (extend_body E s c newlayer).1.currentphi =
        ((select_xinkey
          (fun it => |phidiff E.M_PI it.1.phi (predicted_phi s c newlayer)| +
            |it.1.eta - c.currenteta|) (first :: rest)).1.headD first).1.phi := by
  unfold extend_body
  simp only [hl, and_self]

/-- Every candidate of a layer lookup is a point of the index. -/
theorem lookup_layer_mem (E : Extern α) (s : Seeder α) (c : Chain α) (newlayer : Nat)
    {v : pointKey α} (hv : v ∈ lookup_layer E s c newlayer) : v ∈ s._rtree := by
  unfold lookup_layer at hv
  rw [mem_QueryTree] at hv
  rcases hv with hv | ⟨⟨hmem, _⟩, _⟩
  · exact absurd hv (List.not_mem_nil _)
  · exact hmem

/-- One step on a straight line. On an index in order whose hits lie on the line
`phi = a + b * r(layer)` without wrap-around, a chain that stands on a hit of its last
good layer with the slope `b` does so again after the loop body has run for a layer of
another radius. -/
theorem extend_body_on_line {E : Extern α} {s : Seeder α} {a b : α}
    (hwf : index_layers_ok E s._rtree)
    (hline : ∀ p ∈ s._rtree, p.1.phi = a + b * radii_all_at s (E.getLayer p.2))
    (hnowrap : ∀ p ∈ s._rtree, ∀ q ∈ s._rtree,
      s._start_layer - 7 ≤ E.getLayer p.2 → E.getLayer p.2 ≤ s._start_layer →
      s._start_layer - 7 ≤ E.getLayer q.2 → E.getLayer q.2 ≤ s._start_layer →
      |p.1.phi - q.1.phi| < E.M_PI)
    (c : Chain α) (newlayer : Nat)
    (hnew : s._start_layer - 7 ≤ newlayer ∧ newlayer ≤ s._start_layer)
    (hlast : s._start_layer - 7 ≤ c.lastgoodlayer ∧ c.lastgoodlayer ≤ s._start_layer)
    (hne : radii_all_at s c.lastgoodlayer ≠ radii_all_at s newlayer)
    (hslope : c.dphidr = b)
    (hhit : ∃ p ∈ s._rtree, E.getLayer p.2 = c.lastgoodlayer ∧ c.currentphi = p.1.phi) :
    (extend_body E s c newlayer).1.dphidr = b ∧
      ∃ p ∈ s._rtree, E.getLayer p.2 = (extend_body E s c newlayer).1.lastgoodlayer ∧
        (extend_body E s c newlayer).1.currentphi = p.1.phi := by
  cases hl : lookup_layer E s c newlayer with
  | nil =>
    rw [extend_body_of_nil hl]
    exact ⟨hslope, hhit⟩
  | cons first rest =>
    obtain ⟨hmem, -, -⟩ := select_xinkey_spec
      (fun it => |phidiff E.M_PI it.1.phi (predicted_phi s c newlayer)| +
        |it.1.eta - c.currenteta|) first rest
    obtain ⟨h1, h2, h3⟩ := extend_body_fields_of_cons hl
    generalize (select_xinkey
      (fun it => |phidiff E.M_PI it.1.phi (predicted_phi s c newlayer)| +
        |it.1.eta - c.currenteta|) (first :: rest)).1.headD first = x at hmem h1 h3
    rw [← hl] at hmem
    have hxl : E.getLayer x.2 = newlayer := lookup_layer_getLayer hwf c newlayer hmem
    have hxr : x ∈ s._rtree := lookup_layer_mem E s c newlayer hmem
    obtain ⟨p, hp, hpl, hpc⟩ := hhit
    refine ⟨?_, x, hxr, by rw [h2, hxl], h3⟩
    have hd : |p.1.phi - x.1.phi| < E.M_PI :=
      hnowrap p hp x hxr (by rw [hpl]; exact hlast.1) (by rw [hpl]; exact hlast.2)
        (by rw [hxl]; exact hnew.1) (by rw [hxl]; exact hnew.2)
    rw [h1, hpc, phidiff_of_abs_lt _ _ _ hd, hline p hp, hline x hxr, hpl, hxl]
    have hz : radii_all_at s c.lastgoodlayer - radii_all_at s newlayer ≠ 0 :=
      sub_ne_zero.mpr hne
    field_simp
    ring

/-- A walk on a straight line. Under the hypotheses of `extend_body_on_line` and for
radii that are pairwise distinct over the layers `start-7 .. start`, a chain that stands
on a hit of its last good layer with the slope `b` does so again after a walk over
decreasing layers below its last good layer. -/
theorem visit_all_on_line {E : Extern α} {s : Seeder α} {a b : α}
    (hwf : index_layers_ok E s._rtree)
    (hline : ∀ p ∈ s._rtree, p.1.phi = a + b * radii_all_at s (E.getLayer p.2))
    (hnowrap : ∀ p ∈ s._rtree, ∀ q ∈ s._rtree,
      s._start_layer - 7 ≤ E.getLayer p.2 → E.getLayer p.2 ≤ s._start_layer →
      s._start_layer - 7 ≤ E.getLayer q.2 → E.getLayer q.2 ≤ s._start_layer →
      |p.1.phi - q.1.phi| < E.M_PI)
    (hdistinct : ∀ i j, s._start_layer - 7 ≤ i → i < j → j ≤ s._start_layer →
      radii_all_at s i ≠ radii_all_at s j) :
    ∀ (layers : List Nat) (c : Chain α),
      List.Pairwise (fun x y => y < x) layers →
      (∀ x ∈ layers, s._start_layer - 7 ≤ x ∧ x < c.lastgoodlayer) →
      c.lastgoodlayer ≤ s._start_layer →
      c.dphidr = b →
      (∃ p ∈ s._rtree, E.getLayer p.2 = c.lastgoodlayer ∧ c.currentphi = p.1.phi) →
      (visit_all E s layers c).dphidr = b ∧
        ∃ p ∈ s._rtree, E.getLayer p.2 = (visit_all E s layers c).lastgoodlayer ∧
          (visit_all E s layers c).currentphi = p.1.phi := by
  intro layers
  induction layers with
  | nil =>
    intro c _ _ _ hslope hhit
    exact ⟨hslope, hhit⟩
  | cons l ls ih =>
    intro c hpw hlayers hle hslope hhit
    rw [visit_all_cons]
    rw [List.pairwise_cons] at hpw
    have hl := hlayers l (List.mem_cons_self _ _)
    obtain ⟨hs1, hh1⟩ := extend_body_on_line hwf hline hnowrap c l
      ⟨hl.1, by omega⟩ ⟨by omega, hle⟩
      (fun h => hdistinct l c.lastgoodlayer hl.1 hl.2 hle h.symm) hslope hhit
    have hlg := extend_body_lastgoodlayer E s c l
    refine ih (extend_body E s c l).1 hpw.2 ?_ ?_ hs1 hh1
    · intro x hx
      have h1 := hlayers x (List.mem_cons_of_mem _ hx)
      have h2 := hpw.1 x hx
      rcases hlg with h | h <;> rw [h] <;> omega
    · rcases hlg with h | h <;> rw [h] <;> omega

/-- Where the radius difference of the seed pair is not 0, the slope of line 382 is the
quotient of the field, and the first predicted azimuth is the one of the chain before
the loop. -/
theorem first_predicted_phi_of_ne (E : Extern α) (s : Seeder α)
    (StartCluster SecondCluster : pointKey α)
    (hne : radii_all_at s s._start_layer - radii_all_at s (unsigned_sub s._start_layer 1) ≠ 0) :
    seed_dphidr E s StartCluster SecondCluster =
        some (initial_chain E s StartCluster SecondCluster).dphidr ∧
      first_predicted_phi E s StartCluster SecondCluster =
        some (predicted_phi s (initial_chain E s StartCluster SecondCluster)
          (unsigned_sub s._start_layer 2)) := by
  have h1 : seed_dphidr E s StartCluster SecondCluster =
      some (initial_chain E s StartCluster SecondCluster).dphidr := by
    unfold seed_dphidr quotient_value
    rw [if_neg hne]
    rfl
  refine ⟨h1, ?_⟩
  unfold first_predicted_phi
  rw [h1]
  rfl

/-- C21, as amended. Prediction on a straight line in (phi, r). Let the index be in
order (each point has the layer of its key as its layer coordinate, none below layer
39), let every hit of the index satisfy `phi = a + b * r(layer)`, let the azimuths of
any two hits of the layers `start-7 .. start` differ by less than `π` in absolute value,
and let the radii of the layers `start-7 .. start` be pairwise distinct. Then for every
seed pair of the index the slope of line 382 is a quotient by a radius difference other
than 0 and the first predicted azimuth is the number `a + b * r(start-2)`; and for
every layer `newlayer` of the extension (listed by the loop header after the layers
`pre`), the loop has either left before through `break`, or runs its body with the
chain the walk over `pre` leaves; for that chain the radius difference
`r_lastgood - r_new`, by which the step divides, is not 0, and the predicted azimuth
`currentphi - dphidr * (r_lastgood - r_new)` equals `a + b * r(newlayer)`, whether or
not lookups of layers of `pre` came back empty. -/
theorem predicted_phi_on_line (E : Extern α) (s : Seeder α) (a b : α)
    (StartCluster SecondCluster : pointKey α)
    (hwf : index_layers_ok E s._rtree)
    (hline : ∀ p ∈ s._rtree, p.1.phi = a + b * radii_all_at s (E.getLayer p.2))
    (hnowrap : ∀ p ∈ s._rtree, ∀ q ∈ s._rtree,
      s._start_layer - 7 ≤ E.getLayer p.2 → E.getLayer p.2 ≤ s._start_layer →
      s._start_layer - 7 ≤ E.getLayer q.2 → E.getLayer q.2 ≤ s._start_layer →
      |p.1.phi - q.1.phi| < E.M_PI)
    (hdistinct : ∀ i j, s._start_layer - 7 ≤ i → i < j → j ≤ s._start_layer →
      radii_all_at s i ≠ radii_all_at s j)
    (hpair : (StartCluster, SecondCluster) ∈ seed_pairs E s) :
    (radii_all_at s s._start_layer - radii_all_at s (s._start_layer - 1) ≠ 0 ∧
      seed_dphidr E s StartCluster SecondCluster = some b ∧
      first_predicted_phi E s StartCluster SecondCluster =
        some (a + b * radii_all_at s (s._start_layer - 2))) ∧
    ∀ pre newlayer post, extension_layers s._start_layer = pre ++ newlayer :: post →
      (seed_chain E s StartCluster SecondCluster =
          extend_loop E s (s._start_layer - 7) newlayer
            (visit_all E s pre (initial_chain E s StartCluster SecondCluster)) ∨
        ∃ r, seed_chain E s StartCluster SecondCluster = some r ∧ 2 < r.failures) ∧
      radii_all_at s (visit_all E s pre
          (initial_chain E s StartCluster SecondCluster)).lastgoodlayer -
        radii_all_at s newlayer ≠ 0 ∧
      predicted_phi s (visit_all E s pre (initial_chain E s StartCluster SecondCluster))
        newlayer = a + b * radii_all_at s newlayer := by
  obtain ⟨hl1, hl2, h40⟩ := seed_pair_layers hwf hpair
  have hstart : 8 ≤ s._start_layer := by omega
  have hsub1 : unsigned_sub s._start_layer 1 = s._start_layer - 1 :=
    unsigned_sub_of_le (by omega)
  have hsub2 : unsigned_sub s._start_layer 2 = s._start_layer - 2 :=
    unsigned_sub_of_le (by omega)
  have hm1 : StartCluster ∈ s._rtree := by
    rw [mem_seed_pairs, mem_rtree_query] at hpair
    exact hpair.1.1.1
  have hm2 : SecondCluster ∈ s._rtree := by
    rw [mem_seed_pairs, mem_QueryTree] at hpair
    rcases hpair.2 with h | ⟨⟨h, _⟩, _⟩
    · exact absurd h (List.not_mem_nil _)
    · exact h
  have hmem : ∀ x ∈ extension_layers s._start_layer,
      s._start_layer - 7 ≤ x ∧ x ≤ s._start_layer - 2 := by
    intro x hx
    simp only [extension_layers, List.mem_cons, List.mem_singleton, List.not_mem_nil,
      or_false] at hx
    omega
  have hl2' : E.getLayer SecondCluster.2 = s._start_layer - 1 := by omega
  have hz : radii_all_at s s._start_layer - radii_all_at s (s._start_layer - 1) ≠ 0 :=
    sub_ne_zero.mpr
      (fun h => hdistinct (s._start_layer - 1) s._start_layer (by omega) (by omega)
        (Nat.le_refl _) h.symm)
  -- the chain before the loop stands on the second hit with the slope `b`
  have hslope0 : (initial_chain E s StartCluster SecondCluster).dphidr = b := by
    show phidiff E.M_PI StartCluster.1.phi SecondCluster.1.phi /
      (radii_all_at s s._start_layer - radii_all_at s (unsigned_sub s._start_layer 1)) = b
    have hd : |StartCluster.1.phi - SecondCluster.1.phi| < E.M_PI :=
      hnowrap _ hm1 _ hm2 (by omega) (by omega) (by omega) (by omega)
    rw [phidiff_of_abs_lt _ _ _ hd, hline _ hm1, hline _ hm2, hl1, hl2', hsub1]
    field_simp
    ring
  have hlast0 : (initial_chain E s StartCluster SecondCluster).lastgoodlayer =
      s._start_layer - 1 := hsub1
  have hsteps : ∀ pre newlayer post,
      extension_layers s._start_layer = pre ++ newlayer :: post →
      radii_all_at s (visit_all E s pre
          (initial_chain E s StartCluster SecondCluster)).lastgoodlayer -
        radii_all_at s newlayer ≠ 0 ∧
      predicted_phi s (visit_all E s pre (initial_chain E s StartCluster SecondCluster))
        newlayer = a + b * radii_all_at s newlayer := by
    intro pre newlayer post hsplit
    have hpw := extension_layers_decreasing s._start_layer hstart
    rw [hsplit, List.pairwise_append] at hpw
    have hnew := hmem newlayer (by rw [hsplit]; simp)
    have hlast : newlayer < (visit_all E s pre
          (initial_chain E s StartCluster SecondCluster)).lastgoodlayer ∧
        (visit_all E s pre
          (initial_chain E s StartCluster SecondCluster)).lastgoodlayer ≤ s._start_layer := by
      rcases visit_all_lastgoodlayer E s pre
        (initial_chain E s StartCluster SecondCluster) with h | h
      · rw [h, hlast0]
        omega
      · have h1 := hpw.2.2 _ h newlayer (List.mem_cons_self _ _)
        have h2 := hmem _ (by rw [hsplit]; exact List.mem_append_left _ h)
        omega
    obtain ⟨hs, p, hp, hpl, hpc⟩ := visit_all_on_line hwf hline hnowrap hdistinct pre
      (initial_chain E s StartCluster SecondCluster) hpw.1
      (by
        intro x hx
        have := hmem x (by rw [hsplit]; exact List.mem_append_left _ hx)
        rw [hlast0]
        omega)
      (by rw [hlast0]; omega) hslope0 ⟨SecondCluster, hm2, by rw [hlast0, hl2'], rfl⟩
    refine ⟨?_, ?_⟩
    · exact sub_ne_zero.mpr
        (fun h => hdistinct newlayer _ hnew.1 hlast.1 hlast.2 h.symm)
    · unfold predicted_phi
      rw [hs, hpc, hline p hp, hpl]
      ring
  have hz1 : radii_all_at s s._start_layer -
      radii_all_at s (unsigned_sub s._start_layer 1) ≠ 0 := by
    rw [hsub1]
    exact hz
  obtain ⟨hf1, hf2⟩ := first_predicted_phi_of_ne E s StartCluster SecondCluster hz1
  refine ⟨⟨hz, ?_, ?_⟩, ?_⟩
  · rw [hf1, hslope0]
  · have h0 := (hsteps [] (s._start_layer - 2)
      [s._start_layer - 3, s._start_layer - 4, s._start_layer - 5, s._start_layer - 6,
        s._start_layer - 7] rfl).2
    rw [visit_all_nil] at h0
    rw [hf2, hsub2, h0]
  · intro pre newlayer post hsplit
    refine ⟨?_, hsteps pre newlayer post hsplit⟩
    unfold seed_chain
    rw [unsigned_sub_of_le (by omega), unsigned_sub_of_le (by omega)]
    exact extend_loop_prefix E s (s._start_layer - 7) (by omega) pre (s._start_layer - 2)
      _ newlayer post (by rw [loop_layers_eq_extension_layers _ hstart]; exact hsplit)

end StraightLine

/-- C21, as stated, fails where two layers that are used have the same radius. In the
event of `equalRadiiSeeder` (radius 46 for both layers 46 and 47, radius 45 for layer
45) the index holds one hit per layer, every hit lies on the line
`phi = 1 + r(layer) / 1000` with its azimuth in `[0, 2π)`, all azimuth differences
are below `π`, and all hits have pseudorapidity 0. For the seed pair of the layers 47
and 46 the slope of line 382 is `phidiff(1.046, 1.046) / (46 - 46)`, the quotient of 0
by 0, which is a NaN and no number; so the azimuth predicted at the first extension
step, layer 45, is no number either, and does not equal `1 + 45 / 1000`. -/
theorem predicted_phi_off_line_equal_radii :
    FillTree exampleExtern (Process_begin equalRadiiSeeder) = some equalRadiiSeederAfter ∧
    (equalRadiiSeederAfter._rtree.map fun p => exampleExtern.getLayer p.2).Nodup ∧
    (∀ p ∈ equalRadiiSeederAfter._rtree,
      p.1.l = (exampleExtern.getLayer p.2 : ℚ) ∧
      p.1.phi =
        1 + 1 / 1000 * radii_all_at equalRadiiSeederAfter (exampleExtern.getLayer p.2) ∧
      0 ≤ p.1.phi ∧ p.1.phi < 2 * exampleExtern.M_PI ∧ p.1.eta = 0) ∧
    (∀ p ∈ equalRadiiSeederAfter._rtree, ∀ q ∈ equalRadiiSeederAfter._rtree,
      |p.1.phi - q.1.phi| < exampleExtern.M_PI) ∧
    (((⟨1046 / 1000, 0, 47⟩, 47000), (⟨1046 / 1000, 0, 46⟩, 46000)) ∈
      seed_pairs exampleExtern equalRadiiSeederAfter) ∧
    extension_layers equalRadiiSeederAfter._start_layer = [] ++ 45 :: [44, 43, 42, 41, 40] ∧
    unsigned_sub equalRadiiSeederAfter._start_layer 2 = 45 ∧
    phidiff exampleExtern.M_PI (1046 / 1000) (1046 / 1000) = 0 ∧
    radii_all_at equalRadiiSeederAfter equalRadiiSeederAfter._start_layer -
      radii_all_at equalRadiiSeederAfter
        (unsigned_sub equalRadiiSeederAfter._start_layer 1) = 0 ∧
    seed_dphidr exampleExtern equalRadiiSeederAfter (⟨1046 / 1000, 0, 47⟩, 47000)
      (⟨1046 / 1000, 0, 46⟩, 46000) = none ∧
    first_predicted_phi exampleExtern equalRadiiSeederAfter (⟨1046 / 1000, 0, 47⟩, 47000)
      (⟨1046 / 1000, 0, 46⟩, 46000) = none ∧
    first_predicted_phi exampleExtern equalRadiiSeederAfter (⟨1046 / 1000, 0, 47⟩, 47000)
        (⟨1046 / 1000, 0, 46⟩, 46000) ≠
      some (1 + 1 / 1000 * radii_all_at equalRadiiSeederAfter 45) := by
  refine ⟨by decide!, by decide!, by decide!, by decide!, by decide!, by decide!,
    by decide!, by decide!, by decide!, by decide!, by decide!, by decide!⟩

/-- C21 as amended, at the event of `gapSeeder` (hits on the line
`phi = 1 + layer / 1000` in the layers 40..44, 46 and 47, radius of layer `i` equal to
`i`): the slope of the seed pair is the number 0.001, the lookup of layer 45 comes back
empty, and at layer 44, reached after the skipped layer 45, the radius difference is
`46 - 44` and the predicted azimuth is `1 + 44 / 1000`. -/
theorem predicted_phi_on_line_witness :
    FillTree exampleExtern (Process_begin gapSeeder) = some gapSeederAfter ∧
    lookup_layer exampleExtern gapSeederAfter
      (initial_chain exampleExtern gapSeederAfter (⟨1047 / 1000, 0, 47⟩, 47000)
        (⟨1046 / 1000, 0, 46⟩, 46000)) 45 = [] ∧
    (1 : ℚ) + 1 / 1000 * radii_all_at gapSeederAfter 44 = 1044 / 1000 ∧
    seed_dphidr exampleExtern gapSeederAfter (⟨1047 / 1000, 0, 47⟩, 47000)
      (⟨1046 / 1000, 0, 46⟩, 46000) = some (1 / 1000) ∧
    first_predicted_phi exampleExtern gapSeederAfter (⟨1047 / 1000, 0, 47⟩, 47000)
        (⟨1046 / 1000, 0, 46⟩, 46000) =
      some (1 + 1 / 1000 * radii_all_at gapSeederAfter (gapSeederAfter._start_layer - 2)) ∧
    ((seed_chain exampleExtern gapSeederAfter (⟨1047 / 1000, 0, 47⟩, 47000)
          (⟨1046 / 1000, 0, 46⟩, 46000) =
        extend_loop exampleExtern gapSeederAfter (gapSeederAfter._start_layer - 7) 44
          (visit_all exampleExtern gapSeederAfter [45]
            (initial_chain exampleExtern gapSeederAfter (⟨1047 / 1000, 0, 47⟩, 47000)
              (⟨1046 / 1000, 0, 46⟩, 46000))) ∨
        ∃ r, seed_chain exampleExtern gapSeederAfter (⟨1047 / 1000, 0, 47⟩, 47000)
          (⟨1046 / 1000, 0, 46⟩, 46000) = some r ∧ 2 < r.failures) ∧
      radii_all_at gapSeederAfter
          (visit_all exampleExtern gapSeederAfter [45]
            (initial_chain exampleExtern gapSeederAfter (⟨1047 / 1000, 0, 47⟩, 47000)
              (⟨1046 / 1000, 0, 46⟩, 46000))).lastgoodlayer -
        radii_all_at gapSeederAfter 44 ≠ 0 ∧
      predicted_phi gapSeederAfter
        (visit_all exampleExtern gapSeederAfter [45]
          (initial_chain exampleExtern gapSeederAfter (⟨1047 / 1000, 0, 47⟩, 47000)
            (⟨1046 / 1000, 0, 46⟩, 46000))) 44 =
        1 + 1 / 1000 * radii_all_at gapSeederAfter 44) :=
  have h := predicted_phi_on_line exampleExtern gapSeederAfter 1 (1 / 1000)
     (⟨1047 / 1000, 0, 47⟩, 47000) (⟨1046 / 1000, 0, 46⟩, 46000)
     (by unfold index_layers_ok; decide!)
     (by decide!)
     (by decide!)
     (by
       intro i j h1 h2 h3
       have h40 : 40 ≤ i := h1
       have h47 : j ≤ 47 := h3
       have e : ∀ k, k ≤ 47 → radii_all_at gapSeederAfter k = (k : ℚ) := by
         intro k hk
         interval_cases k <;> decide!
       rw [e i (by omega), e j h47]
       exact_mod_cast Nat.ne_of_lt h2)
     (by decide!)
  ⟨by decide!, by decide!, by decide!, h.1.2.1, h.1.2.2, h.2 [45] 44 [43, 42, 41, 40] rfl⟩

end PHCASeeding
